import Mathlib

/-!
# Inter-robot loop closing (`src/LoopClosingInterRobot.cc`)

A shallow embedding of the coordinator class `LoopClosingInterRobot` of the
collaborative ORB-SLAM2 fork, followed by theorems about it.

Conventions of the embedding

* `KeyFrame*` and `MapPoint*` are pointer identities, modelled as natural numbers;
  a null `MapPoint*` is `none`.
* `std::set<KeyFrame*>` is a `Finset KeyFrame`; `std::vector` is a `List`.
* `int` counters are mathematical integers (the consistency counter grows by one
  per detection round, so it cannot leave the `int` range in any run shorter than
  `2^31` rounds); `float`/`double` payloads are exact rationals.
* Collaborators whose code is not part of this file (the keyframe database, the
  matcher, the Sim3 solver, the optimizer) are explicit function arguments.
* Keyframe poses are `SE3` (rotation block and translation column of the 4x4
  matrix `[R t; 0 1]`) and the transforms of `CorrectLoop` are `g2o.Sim3`, over
  exact rationals.  The members used by `CorrectLoop`, `RunGlobalBundleAdjustment`
  and `ResetIfRequested` are the record `LoopCorrection`; the map they work on is
  the record `World`.
* What `publishKeyFrame` reads from the local map is the record
  `PublishCollaborators`; the message it builds is `keyFrameMsg`.
-/

namespace ORB_SLAM2

/-! ## Data model -/

/-- A `KeyFrame*` (pointer identity). -/
abbrev KeyFrame := Nat

/-- A non-null `MapPoint*` (pointer identity). -/
abbrev MapPoint := Nat

/-- The type `ConsistentGroup = pair<set<KeyFrame*>, int>`. -/
abbrev ConsistentGroup := Finset KeyFrame × Int

/-- The threshold `mnCovisibilityConsistencyTh`; the constructor assigns `3` (line 44)
and nothing else writes it. -/
def mnCovisibilityConsistencyTh : Int := 3

/-! ## `DetectLoop` (lines 544-630) -/

/-- Lines 576-585: does some keyframe of `spCandidateGroup` occur in `sPreviousGroup`? -/
def bConsistent (spCandidateGroup sPreviousGroup : Finset KeyFrame) : Bool :=
  decide (∃ k ∈ spCandidateGroup, k ∈ sPreviousGroup)

/-- Lines 567-568: the candidate group, `GetConnectedKeyFrames()` plus the candidate itself. -/
def candidateGroup (GetConnectedKeyFrames : KeyFrame → Finset KeyFrame)
    (pCandidateKF : KeyFrame) : Finset KeyFrame :=
  insert pCandidateKF (GetConnectedKeyFrames pCandidateKF)

/-- The variables the loop over previous groups (lines 572-603) reads and writes. -/
structure GroupScan where
  vCurrentConsistentGroups : List ConsistentGroup
  mvpEnoughConsistentCandidates : List KeyFrame
  bEnoughConsistent : Bool
  bConsistentForSomeGroup : Bool

/-- The loop `for iG` of lines 572-603 for one candidate.  The previous groups are
paired with their flag `vbConsistentGroup[iG]`; the updated flags are returned. -/
def scanGroups (pCandidateKF : KeyFrame) (spCandidateGroup : Finset KeyFrame) :
    List (ConsistentGroup × Bool) → GroupScan → List (ConsistentGroup × Bool) × GroupScan
  | [], st => ([], st)
  | (g, vb) :: rest, st =>
    if bConsistent spCandidateGroup g.1 then
      let nCurrentConsistency := g.2 + 1
      let st1 : GroupScan :=
        if vb then st
        else { st with vCurrentConsistentGroups :=
                 st.vCurrentConsistentGroups ++ [(spCandidateGroup, nCurrentConsistency)] }
      let st2 : GroupScan :=
        if decide (nCurrentConsistency ≥ mnCovisibilityConsistencyTh) && !st1.bEnoughConsistent then
          { st1 with mvpEnoughConsistentCandidates :=
                       st1.mvpEnoughConsistentCandidates ++ [pCandidateKF],
                     bEnoughConsistent := true }
        else st1
      let r := scanGroups pCandidateKF spCandidateGroup rest
        { st2 with bConsistentForSomeGroup := true }
      ((g, true) :: r.1, r.2)
    else
      let r := scanGroups pCandidateKF spCandidateGroup rest st
      ((g, vb) :: r.1, r.2)

/-- The variables carried across the loop over candidates (lines 563-611). -/
structure CandidateScan where
  vbConsistentGroup : List (ConsistentGroup × Bool)
  vCurrentConsistentGroups : List ConsistentGroup
  mvpEnoughConsistentCandidates : List KeyFrame

/-- One iteration of the loop `for i` of lines 563-611. -/
def candidateStep (GetConnectedKeyFrames : KeyFrame → Finset KeyFrame)
    (cs : CandidateScan) (pCandidateKF : KeyFrame) : CandidateScan :=
  let spCandidateGroup := candidateGroup GetConnectedKeyFrames pCandidateKF
  let r := scanGroups pCandidateKF spCandidateGroup cs.vbConsistentGroup
    { vCurrentConsistentGroups := cs.vCurrentConsistentGroups,
      mvpEnoughConsistentCandidates := cs.mvpEnoughConsistentCandidates,
      bEnoughConsistent := false,
      bConsistentForSomeGroup := false }
  { vbConsistentGroup := r.1,
    vCurrentConsistentGroups :=
      if r.2.bConsistentForSomeGroup then r.2.vCurrentConsistentGroups
      else r.2.vCurrentConsistentGroups ++ [(spCandidateGroup, 0)],
    mvpEnoughConsistentCandidates := r.2.mvpEnoughConsistentCandidates }

/-- The part of the coordinator `DetectLoop` reads and writes. -/
structure DetectState where
  mvConsistentGroups : List ConsistentGroup
  mvpEnoughConsistentCandidates : List KeyFrame

/-- The function `DetectLoop`, given what `DetectLoopCandidatesInterRobot` returned
(`vpCandidateKFs`) and the covisibility graph (`GetConnectedKeyFrames`).
Returns the `bool` result and the new state. -/
def DetectLoop (vpCandidateKFs : List KeyFrame)
    (GetConnectedKeyFrames : KeyFrame → Finset KeyFrame)
    (s : DetectState) : Bool × DetectState :=
  if vpCandidateKFs.isEmpty then
    (false, s)
  else
    let r := vpCandidateKFs.foldl (candidateStep GetConnectedKeyFrames)
      { vbConsistentGroup := s.mvConsistentGroups.map (fun g => (g, false)),
        vCurrentConsistentGroups := [],
        mvpEnoughConsistentCandidates := [] }
    (!r.mvpEnoughConsistentCandidates.isEmpty,
     { mvConsistentGroups := r.vCurrentConsistentGroups,
       mvpEnoughConsistentCandidates := r.mvpEnoughConsistentCandidates })

/-- The query result and covisibility graph seen by one `DetectLoop` call. -/
structure Round where
  vpCandidateKFs : List KeyFrame
  GetConnectedKeyFrames : KeyFrame → Finset KeyFrame

/-- Consecutive `DetectLoop` calls: the final state and the results in call order. -/
def detectRounds : DetectState → List Round → DetectState × List Bool
  | s, [] => (s, [])
  | s, r :: rs =>
    let o := DetectLoop r.vpCandidateKFs r.GetConnectedKeyFrames s
    let t := detectRounds o.2 rs
    (t.1, o.1 :: t.2)

/-! ## `ComputeSim3` (lines 632-856) -/

/-- A similarity transform (`g2o::Sim3`, or the `R`, `t`, `s` of a solver hypothesis):
rotation entries, translation entries and scale. -/
structure Sim3 where
  R : List ℚ
  t : List ℚ
  s : ℚ
  deriving DecidableEq

/-- What one call `pSolver->iterate(5, bNoMore, vbInliers, nInliers)` hands back, together with
the hypothesis read through `GetEstimatedRotation/Translation/Scale`.  `Scm = none` is the
empty `cv::Mat`. -/
structure IterateResult where
  Scm : Option Sim3
  bNoMore : Bool
  vbInliers : List Bool
  nInliers : Int

/-- The collaborators of one `ComputeSim3` call.  Their code is outside this file; each is a
function of the arguments the call site passes that can differ between calls (the received
keyframe's data is fixed for the whole call).  Solver `i` is the `Sim3Solver` constructed for
candidate `i`; `iterate i k` is the result of its call number `k` (counted from `0`). -/
structure Sim3Collaborators where
  isBad : KeyFrame → Bool
  SearchByBoWInterRobot : KeyFrame → Int × List (Option MapPoint)
  iterate : Nat → Nat → IterateResult
  SearchBySim3InterRobot : KeyFrame → List (Option MapPoint) → Sim3 → List (Option MapPoint)
  OptimizeSim3InterRobot :
    KeyFrame → List (Option MapPoint) → Sim3 → Int × Sim3 × List (Option MapPoint)
  GetPoseSim3 : KeyFrame → Sim3
  mulSim3 : Sim3 → Sim3 → Sim3
  toCvMat : Sim3 → List ℚ
  symbolChr : KeyFrame → Nat
  symbolIndex : KeyFrame → Nat
  GetVectorCovisibleKeyFrames : KeyFrame → List KeyFrame
  GetMapPointMatches : KeyFrame → List (Option MapPoint)
  isBadMapPoint : MapPoint → Bool
  mnId : KeyFrame → Nat
  SearchByProjectionInterRobot :
    List ℚ → List MapPoint → List (Option MapPoint) → List (Option MapPoint)

/-- Insertion into `std::multimap<int,int>`: the entries stay sorted by key, a new entry goes
after the entries whose key is not greater; iteration from `begin()` reads the list from its
head. -/
def multimapInsert (kv : Int × Nat) : List (Int × Nat) → List (Int × Nat)
  | [] => [kv]
  | x :: xs => if kv.1 < x.1 then kv :: x :: xs else x :: multimapInsert kv xs

/-- The vectors and counters filled by the first loop of `ComputeSim3` (lines 654-697).
`vpSim3Solvers[i] = none` is the null pointer left by `resize`. -/
structure Sim3Setup where
  vpSim3Solvers : List (Option Nat)
  vvpMapPointMatches : List (List (Option MapPoint))
  vbDiscarded : List Bool
  sortedMatches : List (Int × Nat)
  nCandidates : Int

/-- One iteration of the loop of lines 667-697; `i` is the number of candidates handled so
far, and the entries `i` of the three vectors are appended (the vectors were sized by
`resize`, so an entry the iteration does not write keeps its default). -/
def setupStep (env : Sim3Collaborators) (st : Sim3Setup) (pKF : KeyFrame) : Sim3Setup :=
  let i := st.vbDiscarded.length
  if env.isBad pKF then
    { st with vpSim3Solvers := st.vpSim3Solvers ++ [none],
              vvpMapPointMatches := st.vvpMapPointMatches ++ [[]],
              vbDiscarded := st.vbDiscarded ++ [true] }
  else
    let nmatches := (env.SearchByBoWInterRobot pKF).1
    let sorted := multimapInsert (nmatches, i) st.sortedMatches
    if nmatches < 20 then
      { st with vpSim3Solvers := st.vpSim3Solvers ++ [none],
                vvpMapPointMatches := st.vvpMapPointMatches ++ [(env.SearchByBoWInterRobot pKF).2],
                vbDiscarded := st.vbDiscarded ++ [true],
                sortedMatches := sorted }
    else
      { vpSim3Solvers := st.vpSim3Solvers ++ [some i],
        vvpMapPointMatches := st.vvpMapPointMatches ++ [(env.SearchByBoWInterRobot pKF).2],
        vbDiscarded := st.vbDiscarded ++ [false],
        sortedMatches := sorted,
        nCandidates := st.nCandidates + 1 }

/-- Lines 648-697. -/
def sim3Setup (env : Sim3Collaborators) (mvpEnoughConsistentCandidates : List KeyFrame) :
    Sim3Setup :=
  mvpEnoughConsistentCandidates.foldl (setupStep env)
    { vpSim3Solvers := [], vvpMapPointMatches := [], vbDiscarded := [], sortedMatches := [],
      nCandidates := 0 }

/-- The members `ComputeSim3` writes when it accepts a hypothesis (lines 774-785). -/
structure AcceptedLoop where
  mpMatchedKF : KeyFrame
  mg2oScw : Sim3
  mScw : List ℚ
  mScm : List ℚ
  estimatedR_ : List ℚ
  estimatedT_ : List ℚ
  estimatedS_ : ℚ
  matchedSymbol_ : Nat
  matchedIndex_ : Nat
  mvpCurrentMatchedPoints : List (Option MapPoint)
  deriving DecidableEq

/-- The variables of the alternating RANSAC loop (lines 700-791).  `iterated` lists, in call
order, the solver on which `iterate` was called; solver `i` has been called
`iterated.count i` times.  `accepted` holds the members written at lines 774-785. -/
structure RansacState where
  vbDiscarded : List Bool
  nCandidates : Int
  bMatch : Bool
  iterated : List Nat
  accepted : Option AcceptedLoop
  deriving DecidableEq

/-- How a modelled call can end. -/
inductive Outcome (α : Type) where
  /-- the call returned -/
  | done (a : α)
  /-- a null `Sim3Solver*` was dereferenced -/
  | nullSolver
  /-- a checked read `.at(i)` threw `std::out_of_range` -/
  | outOfRange
  /-- `cv::Mat::row` was asked for a row the matrix does not have -/
  | badRow
  /-- the RANSAC loop had not ended when the given number of passes was used up -/
  | running
  deriving DecidableEq

/-- Sequencing of modelled calls. -/
def Outcome.bind {α β : Type} : Outcome α → (α → Outcome β) → Outcome β
  | .done a, f => f a
  | .nullSolver, _ => .nullSolver
  | .outOfRange, _ => .outOfRange
  | .badRow, _ => .badRow
  | .running, _ => .running

/-- Lines 734-740: the matches of candidate `i` restricted to the solver's inliers. -/
def inlierMatches (vvpMapPointMatches_i : List (Option MapPoint)) (vbInliers : List Bool) :
    List (Option MapPoint) :=
  (List.range vvpMapPointMatches_i.length).map fun j =>
    if vbInliers.getD j false then vvpMapPointMatches_i.getD j none else none

/-- Rows `0..2`, columns `0..2` of a row-major 4x4 matrix (line 780). -/
def rotationBlock (m : List ℚ) : List ℚ :=
  [0, 1, 2, 4, 5, 6, 8, 9, 10].map fun k => m.getD k 0

/-- Rows `0..2` of column `3` of a row-major 4x4 matrix (line 781). -/
def translationBlock (m : List ℚ) : List ℚ :=
  [3, 7, 11].map fun k => m.getD k 0

/-- Lines 773-785: the members written for candidate `pKF` with refined transform `gScm`. -/
def acceptLoop (env : Sim3Collaborators) (pKF : KeyFrame) (gScm : Sim3)
    (vpMapPointMatches : List (Option MapPoint)) : AcceptedLoop :=
  let mg2oScw := env.mulSim3 gScm (env.GetPoseSim3 pKF)
  let mScm := env.toCvMat gScm
  { mpMatchedKF := pKF,
    mg2oScw := mg2oScw,
    mScw := env.toCvMat mg2oScw,
    mScm := mScm,
    estimatedR_ := rotationBlock mScm,
    estimatedT_ := translationBlock mScm,
    estimatedS_ := 1,
    matchedSymbol_ := env.symbolChr pKF,
    matchedIndex_ := env.symbolIndex pKF,
    mvpCurrentMatchedPoints := vpMapPointMatches }

/-- Lines 731-766 for the result `r` of an `iterate` call on solver `i`: when the solver
returned a transform, the guided matches and the result of `OptimizeSim3InterRobot` (inlier
count, refined `gScm`, matches). -/
def refine (env : Sim3Collaborators) (mvpEnoughConsistentCandidates : List KeyFrame)
    (setup : Sim3Setup) (i : Nat) (r : IterateResult) :
    Option (Int × Sim3 × List (Option MapPoint)) :=
  match r.Scm with
  | none => none
  | some hyp =>
    let pKF := mvpEnoughConsistentCandidates.getD i 0
    let vpMapPointMatches :=
      env.SearchBySim3InterRobot pKF
        (inlierMatches (setup.vvpMapPointMatches.getD i []) r.vbInliers) hyp
    some (env.OptimizeSim3InterRobot pKF vpMapPointMatches hyp)

/-- Lines 722-729: the state once the `iterate` call on solver `pSolver`, for the entry of
candidate `i`, has returned `r`. -/
def afterIterate (st : RansacState) (i pSolver : Nat) (r : IterateResult) : RansacState :=
  let st1 : RansacState := { st with iterated := st.iterated ++ [pSolver] }
  if r.bNoMore then
    { st1 with vbDiscarded := st1.vbDiscarded.set i true,
               nCandidates := st1.nCandidates - 1 }
  else st1

/-- The body of the `for` loop (lines 710-788) for the entry of candidate `i`.  The `Bool`
tells whether the `break` of line 786 was executed. -/
def ransacVisit (env : Sim3Collaborators) (mvpEnoughConsistentCandidates : List KeyFrame)
    (setup : Sim3Setup) (st : RansacState) (i : Nat) : Outcome (RansacState × Bool) :=
  if st.vbDiscarded.getD i false then .done (st, false)
  else
    match setup.vpSim3Solvers.getD i none with
    | none => .nullSolver
    | some pSolver =>
      let r := env.iterate pSolver (st.iterated.count pSolver)
      let st2 := afterIterate st i pSolver r
      match refine env mvpEnoughConsistentCandidates setup i r with
      | none => .done (st2, false)
      | some opt =>
        if opt.1 ≥ 20 then
          .done ({ st2 with bMatch := true,
                            accepted := some (acceptLoop env
                              (mvpEnoughConsistentCandidates.getD i 0) opt.2.1 opt.2.2) }, true)
        else .done (st2, false)

/-- One pass of the `for` loop of lines 708-790 over the entries of `sortedMatches` that are
still to be visited. -/
def ransacPass (env : Sim3Collaborators) (mvpEnoughConsistentCandidates : List KeyFrame)
    (setup : Sim3Setup) : List (Int × Nat) → RansacState → Outcome RansacState
  | [], st => .done st
  | (_, i) :: rest, st =>
    (ransacVisit env mvpEnoughConsistentCandidates setup st i).bind fun r =>
      if r.2 then .done r.1
      else ransacPass env mvpEnoughConsistentCandidates setup rest r.1

/-- The `while` loop of lines 706-791, run for at most `fuel` passes.  The `Bool` tells
whether the loop has ended (its condition is false); it is `false` when the loop is still
running after `fuel` passes, and the state is then the one reached so far. -/
def ransacLoop (env : Sim3Collaborators) (mvpEnoughConsistentCandidates : List KeyFrame)
    (setup : Sim3Setup) : Nat → RansacState → Outcome (RansacState × Bool)
  | fuel, st =>
    if decide (st.nCandidates > 0) && !st.bMatch then
      match fuel with
      | 0 => .done (st, false)
      | fuel + 1 =>
        (ransacPass env mvpEnoughConsistentCandidates setup setup.sortedMatches st).bind
          (ransacLoop env mvpEnoughConsistentCandidates setup fuel)
    else .done (st, true)

/-- The state of the RANSAC loop on entry (lines 660-700). -/
def ransacInit (setup : Sim3Setup) : RansacState :=
  { vbDiscarded := setup.vbDiscarded, nCandidates := setup.nCandidates, bMatch := false,
    iterated := [], accepted := none }

/-! ## Messages and the coordinator state -/

/-- The message type `distributed_mapper_msgs::Keypoint`. -/
structure Keypoint where
  x : ℚ
  y : ℚ
  angle : ℚ
  octave : Int
  response : ℚ
  size : ℚ
  class_id : Int
  deriving DecidableEq

/-- The message type `distributed_mapper_msgs::Keyframe`, with the fields `Match` and
`Subscribe` read and `publishKeyFrame` writes.  The two images `desc` and `pointDesc` are
given by their rows. -/
structure Keyframe where
  robotID : Int
  symbolChr : Nat
  symbolIndex : Int
  minScore : ℚ
  wordIds : List Nat
  wordValues : List ℚ
  keypoints : List Keypoint
  mfGridElementWidthInv : ℚ
  mfGridElementHeightInv : ℚ
  mnMinX : ℚ
  mnMinY : ℚ
  mnMaxX : ℚ
  mnMaxY : ℚ
  desc : List (List Nat)
  pointDesc : List (List Nat)
  nodeIds : List Nat
  indicesVec : List (List Nat)
  nrMapPoints : Int
  indices : List Int
  maxDistInvariance : List ℚ
  minDistInvariance : List ℚ
  worldPoints : List ℚ
  mvLevelSigma2 : List ℚ
  mvInvLevelSigma2 : List ℚ
  mvScaleFactors : List ℚ
  pose : List ℚ
  K : List ℚ
  fx : ℚ
  fy : ℚ
  cx : ℚ
  cy : ℚ
  mfLogScaleFactor : ℚ
  mnScaleLevels : Int
  mfMaxDistance : List ℚ
  deriving DecidableEq

/-- The message type `distributed_mapper_msgs::Measurement`. -/
structure Measurement where
  symbolChr1 : Nat
  symbolIndex1 : Int
  symbolChr2 : Nat
  symbolIndex2 : Nat
  relativeRotation : List ℚ
  relativeTranslation : List ℚ
  relativeScale : ℚ
  deriving DecidableEq

/-- The members of `LoopClosingInterRobot` that `Subscribe`, `Match`, `DetectLoop` and
`ComputeSim3` read or write.  The `std::map` `keyframes_` is the function from robot id to
the buffer stored for it, if any; `measurement_pub_` is the sequence of published measurements;
`mnLoopPointForKFInterRobot` is the tag of that name carried by each map point. -/
structure LoopClosingInterRobot extends DetectState where
  robotID_ : Int
  keyframes_ : Int → Option (List Keyframe)
  mpCurrentKF : KeyFrame
  mpMatchedKF : Option KeyFrame
  mg2oScw : Sim3
  mScw : List ℚ
  mScm : List ℚ
  estimatedR_ : List ℚ
  estimatedT_ : List ℚ
  estimatedS_ : ℚ
  matchedSymbol_ : Nat
  matchedIndex_ : Nat
  mvpCurrentMatchedPoints : List (Option MapPoint)
  mvpLoopMapPoints : List MapPoint
  mnLoopPointForKFInterRobot : MapPoint → Nat
  measurement_pub_ : List Measurement

/-- Lines 774-785 as a write to the coordinator. -/
def LoopClosingInterRobot.record (s : LoopClosingInterRobot) (a : AcceptedLoop) :
    LoopClosingInterRobot :=
  { s with mpMatchedKF := some a.mpMatchedKF, mg2oScw := a.mg2oScw, mScw := a.mScw,
           mScm := a.mScm, estimatedR_ := a.estimatedR_, estimatedT_ := a.estimatedT_,
           estimatedS_ := a.estimatedS_, matchedSymbol_ := a.matchedSymbol_,
           matchedIndex_ := a.matchedIndex_,
           mvpCurrentMatchedPoints := a.mvpCurrentMatchedPoints }

/-- Lines 810-821 for the map points of one keyframe: a point that is not bad and not yet
tagged with the current keyframe's id is appended to the pool and tagged. -/
def gatherPoints (env : Sim3Collaborators) (curId : Nat)
    (acc : List MapPoint × (MapPoint → Nat)) (vpMapPoints : List (Option MapPoint)) :
    List MapPoint × (MapPoint → Nat) :=
  vpMapPoints.foldl (fun acc pMP =>
    match pMP with
    | none => acc
    | some pMP =>
      if !env.isBadMapPoint pMP && acc.2 pMP != curId then
        (acc.1 ++ [pMP], Function.update acc.2 pMP curId)
      else acc) acc

/-- Lines 803-822: the fusion pool `mvpLoopMapPoints` and the updated tags. -/
def gatherLoopMapPoints (env : Sim3Collaborators) (curId : Nat) (mpMatchedKF : KeyFrame)
    (tags : MapPoint → Nat) : List MapPoint × (MapPoint → Nat) :=
  (env.GetVectorCovisibleKeyFrames mpMatchedKF ++ [mpMatchedKF]).foldl
    (fun acc pKF => gatherPoints env curId acc (env.GetMapPointMatches pKF)) ([], tags)

/-- Lines 833-838: the number of non-null entries. -/
def nTotalMatches (mvpCurrentMatchedPoints : List (Option MapPoint)) : Int :=
  (mvpCurrentMatchedPoints.filter Option.isSome).length

/-- Lines 794-855: what `ComputeSim3` does once the RANSAC loop has ended in state `r`. -/
def sim3Finish (env : Sim3Collaborators) (s : LoopClosingInterRobot) (r : RansacState) :
    Bool × LoopClosingInterRobot :=
  if !r.bMatch then (false, s)
  else
    match r.accepted with
    | none => (false, s)
    | some a =>
      let s1 := s.record a
      let pool := gatherLoopMapPoints env (env.mnId s1.mpCurrentKF) a.mpMatchedKF
        s1.mnLoopPointForKFInterRobot
      let matched := env.SearchByProjectionInterRobot s1.mScw pool.1 s1.mvpCurrentMatchedPoints
      let s2 : LoopClosingInterRobot :=
        { s1 with mvpLoopMapPoints := pool.1, mnLoopPointForKFInterRobot := pool.2,
                  mvpCurrentMatchedPoints := matched }
      (decide (nTotalMatches matched ≥ 40), s2)

/-- The RANSAC loop of a `ComputeSim3` call on the candidates `cands`, from its initial
state. -/
def ransacRun (env : Sim3Collaborators) (cands : List KeyFrame) (fuel : Nat) :
    Outcome (RansacState × Bool) :=
  ransacLoop env cands (sim3Setup env cands) fuel (ransacInit (sim3Setup env cands))

/-- The function `ComputeSim3`; the RANSAC loop is given `fuel` passes, and the outcome is
`running` when it has not ended by then. -/
def ComputeSim3 (env : Sim3Collaborators) (fuel : Nat) (s : LoopClosingInterRobot) :
    Outcome (Bool × LoopClosingInterRobot) :=
  (ransacRun env s.mvpEnoughConsistentCandidates fuel).bind
    fun r => if r.2 then .done (sim3Finish env s r.1) else .running

/-! ## `Match` (lines 70-274) and `Subscribe` (lines 277-297) -/

/-- The type `DBoW2::BowVector`, a `std::map` from word id to weight, as its sorted entries. -/
abbrev BowVector := List (Nat × ℚ)

/-- The type `DBoW2::FeatureVector`, a `std::map` from node id to feature indices. -/
abbrev FeatureVector := List (Nat × List Nat)

/-- Modelled from the spec: `DBoW2::BowVector::addWeight` is library code outside the source
file; the appearance vector is "a sparse word→weight mapping", so adding a weight for a word
already present accumulates and a new word gets a new entry, entries ordered by word id. -/
def addWeight : BowVector → Nat → ℚ → BowVector
  | [], id, v => [(id, v)]
  | (w, x) :: rest, id, v =>
    if id = w then (w, x + v) :: rest
    else if id < w then (id, v) :: (w, x) :: rest
    else (w, x) :: addWeight rest id v

/-- Modelled from the spec: `DBoW2::FeatureVector::addFeature` is library code outside the
source file; the feature vector is a "node→feature-index-list mapping", so a feature index is
appended to the list of its node, a new node getting a new entry, entries ordered by node id. -/
def addFeature : FeatureVector → Nat → Nat → FeatureVector
  | [], id, i => [(id, [i])]
  | (n, l) :: rest, id, i =>
    if id = n then (n, l ++ [i]) :: rest
    else if id < n then (id, [i]) :: (n, l) :: rest
    else (n, l) :: addFeature rest id i

/-- The checked read `v.at(i)`. -/
def Outcome.at {α : Type} (v : List α) (i : Nat) : Outcome α :=
  match v[i]? with
  | some a => .done a
  | none => .outOfRange

/-- The read `m.row(i)` of a `cv::Mat` given by its rows. -/
def Outcome.row (m : List (List Nat)) (i : Nat) : Outcome (List Nat) :=
  match m[i]? with
  | some a => .done a
  | none => .badRow

/-- A counted loop `for (i = 0; i < n; i++)` whose body can throw. -/
def Outcome.forRange {σ : Type} (n : Nat) (body : σ → Nat → Outcome σ) (init : σ) : Outcome σ :=
  (List.range n).foldl (fun acc i => acc.bind fun st => body st i) (.done init)

/-- Lines 73-78: the BoW vector rebuilt from `wordIds` and `wordValues`. -/
def decodeBowVec (keyframe : Keyframe) : Outcome BowVector :=
  Outcome.forRange keyframe.wordIds.length (fun mBowVec wordId_i =>
    (Outcome.at keyframe.wordIds wordId_i).bind fun wordId =>
    (Outcome.at keyframe.wordValues wordId_i).bind fun wordValue =>
    .done (addWeight mBowVec wordId wordValue)) []

/-- Lines 149-156: the feature vector rebuilt from `nodeIds` and `indicesVec`. -/
def decodeFeatVec (keyframe : Keyframe) : Outcome FeatureVector :=
  Outcome.forRange keyframe.nodeIds.length (fun mFeatVec node_i =>
    (Outcome.at keyframe.nodeIds node_i).bind fun nodeID =>
    (Outcome.at keyframe.indicesVec node_i).bind fun indicesMsg =>
    Outcome.forRange indicesMsg.length (fun fv feat_i =>
      (Outcome.at indicesMsg feat_i).bind fun f => .done (addFeature fv nodeID f)) mFeatVec) []

/-- The four vectors filled by the loop of lines 162-170. -/
structure PointColumns where
  indices : List Int
  maxDistInvariance : List ℚ
  minDistInvariance : List ℚ
  pointDescVec : List (List Nat)

/-- Lines 162-170. -/
def decodePointColumns (keyframe : Keyframe) : Outcome PointColumns :=
  Outcome.forRange keyframe.indices.length (fun c indices_i =>
    (Outcome.at keyframe.indices indices_i).bind fun idx =>
    (Outcome.at keyframe.maxDistInvariance indices_i).bind fun maxD =>
    (Outcome.at keyframe.minDistInvariance indices_i).bind fun minD =>
    (Outcome.row keyframe.pointDesc indices_i).bind fun descriptor =>
    .done { indices := c.indices ++ [idx],
            maxDistInvariance := c.maxDistInvariance ++ [maxD],
            minDistInvariance := c.minDistInvariance ++ [minD],
            pointDescVec := c.pointDescVec ++ [descriptor] })
    { indices := [], maxDistInvariance := [], minDistInvariance := [], pointDescVec := [] }

/-- Lines 173-180: `nrMapPoints` world points of three coordinates each. -/
def decodeWorldPoints (keyframe : Keyframe) : Outcome (List (List ℚ)) :=
  Outcome.forRange keyframe.nrMapPoints.toNat (fun worldPoints point_i =>
    (Outcome.forRange 3 (fun worldPoint dim =>
      (Outcome.at keyframe.worldPoints (point_i * 3 + dim)).bind fun v =>
        .done (worldPoint ++ [v])) []).bind fun worldPoint =>
    .done (worldPoints ++ [worldPoint])) []

/-- Lines 201-206 (`rows = 3`, `cols = 4`) and lines 209-214 (`rows = 3`, `cols = 3`): a
matrix read entry by entry from a row-major vector. -/
def decodeMat (v : List ℚ) (rows cols : Nat) : Outcome (List ℚ) :=
  Outcome.forRange rows (fun m row_i =>
    Outcome.forRange cols (fun m col_i =>
      (Outcome.at v (row_i * cols + col_i)).bind fun x => .done (m ++ [x])) m) []

/-- The arguments `Match` passes to `ComputeSim3` (lines 246-251).  The grid `mGridVec` of
lines 111-138 is computed from `keypoints` and the six grid parameters, all of which are
here. -/
structure Sim3Args where
  worldPoints : List (List ℚ)
  keypoints : List Keypoint
  columns : PointColumns
  mvLevelSigma2 : List ℚ
  mvInvLevelSigma2 : List ℚ
  pose : List ℚ
  K : List ℚ
  descriptors : List (List Nat)
  mFeatVec : FeatureVector
  nrMapPoints : Int
  mvScaleFactors : List ℚ
  gridParameters : List ℚ
  mnScaleLevels : Int
  mfLogScaleFactor : ℚ
  intrinsics : List ℚ

/-- The collaborators of `Match`: the keyframe database query, the covisibility graph, and the
collaborators of `ComputeSim3` for the arguments it is called with. -/
structure Collaborators where
  DetectLoopCandidatesInterRobot : BowVector → Int → ℚ → List KeyFrame
  GetConnectedKeyFrames : KeyFrame → Finset KeyFrame
  sim3 : Sim3Args → Sim3Collaborators

/-- Lines 90-221: the data `Match` extracts from the message once `DetectLoop` has returned
`true`, in the order of the source. -/
def decodeSim3Args (keyframe : Keyframe) : Outcome Sim3Args :=
  (decodeFeatVec keyframe).bind fun mFeatVec =>
  (decodePointColumns keyframe).bind fun columns =>
  (decodeWorldPoints keyframe).bind fun worldPoints =>
  (decodeMat keyframe.pose 3 4).bind fun pose =>
  (decodeMat keyframe.K 3 3).bind fun K =>
  .done { worldPoints := worldPoints, keypoints := keyframe.keypoints, columns := columns,
          mvLevelSigma2 := keyframe.mvLevelSigma2,
          mvInvLevelSigma2 := keyframe.mvInvLevelSigma2,
          pose := pose, K := K, descriptors := keyframe.desc, mFeatVec := mFeatVec,
          nrMapPoints := keyframe.nrMapPoints, mvScaleFactors := keyframe.mvScaleFactors,
          gridParameters := [keyframe.mnMinX, keyframe.mnMinY, keyframe.mnMaxX, keyframe.mnMaxY,
            keyframe.mfGridElementWidthInv, keyframe.mfGridElementHeightInv],
          mnScaleLevels := keyframe.mnScaleLevels,
          mfLogScaleFactor := keyframe.mfLogScaleFactor,
          intrinsics := [keyframe.fx, keyframe.fy, keyframe.cx, keyframe.cy] }

/-- Lines 254-264: the measurement message built from the received keyframe and the members
written by `ComputeSim3`. -/
def measurementMsg (keyframe : Keyframe) (s : LoopClosingInterRobot) : Measurement :=
  { symbolChr1 := keyframe.symbolChr, symbolIndex1 := keyframe.symbolIndex,
    symbolChr2 := s.matchedSymbol_, symbolIndex2 := s.matchedIndex_,
    relativeRotation := s.estimatedR_, relativeTranslation := s.estimatedT_,
    relativeScale := s.estimatedS_ }

/-- The function `Match`; the RANSAC loop of `ComputeSim3` is given `fuel` passes. -/
def Match (env : Collaborators) (fuel : Nat) (keyframe : Keyframe)
    (s : LoopClosingInterRobot) : Outcome (Bool × LoopClosingInterRobot) :=
  (decodeBowVec keyframe).bind fun mBowVec =>
  let d := DetectLoop
    (env.DetectLoopCandidatesInterRobot mBowVec keyframe.symbolIndex keyframe.minScore)
    env.GetConnectedKeyFrames s.toDetectState
  let s1 : LoopClosingInterRobot := { s with toDetectState := d.2 }
  if d.1 then
    (decodeSim3Args keyframe).bind fun args =>
    (ComputeSim3 (env.sim3 args) fuel s1).bind fun r =>
    if r.1 then
      .done (true, { r.2 with measurement_pub_ :=
        r.2.measurement_pub_ ++ [measurementMsg keyframe r.2] })
    else .done (false, r.2)
  else .done (false, s1)

/-- Lines 284-291: the message is appended to the buffer of its sender in `keyframes_`, a
sender without a buffer (`count(robotID) == 0`) getting a new one. -/
def bufferKeyframe (keyframe : Keyframe) (keyframes_ : Int → Option (List Keyframe)) :
    Int → Option (List Keyframe) :=
  match keyframes_ keyframe.robotID with
  | none => Function.update keyframes_ keyframe.robotID (some [keyframe])
  | some keyframeVec =>
    Function.update keyframes_ keyframe.robotID (some (keyframeVec ++ [keyframe]))

/-- The function `Subscribe`. -/
def Subscribe (env : Collaborators) (fuel : Nat) (keyframe : Keyframe)
    (s : LoopClosingInterRobot) : Outcome LoopClosingInterRobot :=
  if keyframe.robotID > s.robotID_ then
    (Match env fuel keyframe { s with keyframes_ := bufferKeyframe keyframe s.keyframes_ }).bind
      fun r => .done r.2
  else .done s

/-! ## Invariants of `ComputeSim3` -/

/-- What the first loop of `ComputeSim3` establishes for the candidates `pre` handled so far:
the vectors have one entry per candidate; a candidate is left undiscarded exactly when it is
not bad and has at least 20 matches, and then it has a solver and an entry in
`sortedMatches`; every entry of `sortedMatches` is the match count of a candidate that is not
bad, no candidate has two entries, the keys are in ascending order, and `nCandidates` counts
the undiscarded candidates. -/
structure SetupOK (env : Sim3Collaborators) (pre : List KeyFrame) (st : Sim3Setup) : Prop where
  len_disc : st.vbDiscarded.length = pre.length
  len_solv : st.vpSim3Solvers.length = pre.length
  alive : ∀ i : Nat, st.vbDiscarded[i]? = some false →
    st.vpSim3Solvers[i]? = some (some i) ∧
    (∃ m, (m, i) ∈ st.sortedMatches) ∧
    ∃ k, pre[i]? = some k ∧ env.isBad k = false ∧ (env.SearchByBoWInterRobot k).1 ≥ 20
  dead : ∀ (i : Nat) (k : KeyFrame), pre[i]? = some k →
    (env.isBad k = true ∨ (env.SearchByBoWInterRobot k).1 < 20) →
    st.vbDiscarded[i]? = some true
  kept : ∀ (i : Nat) (k : KeyFrame), pre[i]? = some k →
    env.isBad k = false → (env.SearchByBoWInterRobot k).1 ≥ 20 →
    st.vbDiscarded[i]? = some false
  entries : ∀ e ∈ st.sortedMatches,
    ∃ k, pre[e.2]? = some k ∧ env.isBad k = false ∧ e.1 = (env.SearchByBoWInterRobot k).1
  nodup : (st.sortedMatches.map Prod.snd).Nodup
  ascending : (st.sortedMatches.map Prod.fst).Sorted (· ≤ ·)
  count : st.nCandidates = st.vbDiscarded.count false

/-- The invariant of the RANSAC loop, relative to the setup: the discard flags only grow;
`iterate` was only called on solvers of candidates the setup left undiscarded; a solver that
reported `bNoMore` in some call is discarded, and only the last call on a solver can have
reported it; `nCandidates` counts the undiscarded candidates; `bMatch` is set exactly when the
members of an accepted loop were written, and they were written for a hypothesis whose
refinement returned at least 20 inliers. -/
structure RansacOK (env : Sim3Collaborators) (cands : List KeyFrame) (setup : Sim3Setup)
    (st : RansacState) : Prop where
  len : st.vbDiscarded.length = cands.length
  mono : ∀ i : Nat, st.vbDiscarded[i]? = some false → setup.vbDiscarded[i]? = some false
  called : ∀ i ∈ st.iterated, setup.vbDiscarded[i]? = some false
  exhausted : ∀ i k : Nat, k < st.iterated.count i → (env.iterate i k).bNoMore = true →
    st.vbDiscarded[i]? = some true
  last : ∀ i k : Nat, k + 1 < st.iterated.count i → (env.iterate i k).bNoMore = false
  count : st.nCandidates = st.vbDiscarded.count false
  flag : st.bMatch = true ↔ st.accepted.isSome = true
  accepted : ∀ a, st.accepted = some a →
    ∃ i k opt, k < st.iterated.count i ∧
      refine env cands setup i (env.iterate i k) = some opt ∧ opt.1 ≥ 20 ∧
      a = acceptLoop env (cands.getD i 0) opt.2.1 opt.2.2

/-! ## Example inputs -/

/-- Example collaborators: no keyframe is bad, candidate keyframe `k` has `nmatches k`
initial matches, call `k` of solver `i` returns `iter i k`, the guided search keeps the
matches it is given, the optimizer reports `nInliers` inliers and keeps the transform, and
the projection search returns `nProjected` matched points. -/
def exampleCollaborators (nmatches : KeyFrame → Int) (iter : Nat → Nat → IterateResult)
    (nInliers : Int) (nProjected : Nat) : Sim3Collaborators :=
  { isBad := fun _ => false,
    SearchByBoWInterRobot := fun k => (nmatches k, []),
    iterate := iter,
    SearchBySim3InterRobot := fun _ m _ => m,
    OptimizeSim3InterRobot := fun _ m hyp => (nInliers, hyp, m),
    GetPoseSim3 := fun _ => ⟨[], [], 1⟩,
    mulSim3 := fun a _ => a,
    toCvMat := fun _ => [],
    symbolChr := fun _ => 97,
    symbolIndex := fun k => k,
    GetVectorCovisibleKeyFrames := fun _ => [],
    GetMapPointMatches := fun _ => [],
    isBadMapPoint := fun _ => false,
    mnId := fun k => k,
    SearchByProjectionInterRobot := fun _ _ _ => List.replicate nProjected (some 0) }

/-- An `iterate` result without a transform that reports the budget exhausted. -/
def exhaustedResult : IterateResult :=
  { Scm := none, bNoMore := true, vbInliers := [], nInliers := 0 }

/-- An `iterate` result with a transform of scale `2` that reports the budget exhausted. -/
def hypothesisResult : IterateResult :=
  { Scm := some ⟨[1, 0, 0, 0, 1, 0, 0, 0, 1], [0, 0, 0], 2⟩, bNoMore := true,
    vbInliers := [], nInliers := 25 }

/-- Two candidates: keyframe `10` with 30 initial matches, keyframe `11` with 20; no solver
ever returns a transform. -/
def twoCandidates : Sim3Collaborators :=
  exampleCollaborators (fun k => if k = 10 then 30 else 20) (fun _ _ => exhaustedResult) 0 0

/-- One candidate with 20 initial matches whose solver returns a transform at once; the
refinement reports `nInliers` inliers and the projection search `nProjected` points. -/
def oneCandidate (nInliers : Int) (nProjected : Nat) : Sim3Collaborators :=
  exampleCollaborators (fun _ => 20) (fun _ _ => hypothesisResult) nInliers nProjected

/-- A coordinator of robot `robotID` as the constructor leaves it, with the given list
`mvpEnoughConsistentCandidates`. -/
def exampleCoordinator (robotID : Int) (cands : List KeyFrame) : LoopClosingInterRobot :=
  { mvConsistentGroups := [], mvpEnoughConsistentCandidates := cands, robotID_ := robotID,
    keyframes_ := fun _ => none, mpCurrentKF := 0, mpMatchedKF := none, mg2oScw := ⟨[], [], 1⟩,
    mScw := [], mScm := [], estimatedR_ := [], estimatedT_ := [], estimatedS_ := 0,
    matchedSymbol_ := 0, matchedIndex_ := 0, mvpCurrentMatchedPoints := [],
    mvpLoopMapPoints := [], mnLoopPointForKFInterRobot := fun _ => 0, measurement_pub_ := [] }

/-- Example collaborators of `Match`: the database returns no candidate, the covisibility
graph is `conn`, and `ComputeSim3` works with `oneCandidate 20 40`. -/
def exampleMatchCollaborators (conn : KeyFrame → Finset KeyFrame) : Collaborators :=
  { DetectLoopCandidatesInterRobot := fun _ _ _ => [],
    GetConnectedKeyFrames := conn,
    sim3 := fun _ => oneCandidate 20 40 }

/-- A keyframe message of robot `robotID` with every array empty and `pose`, `K` of 12 and 9
entries. -/
def emptyKeyframe (robotID : Int) : Keyframe :=
  { robotID := robotID, symbolChr := 97, symbolIndex := 0, minScore := 0, wordIds := [],
    wordValues := [], keypoints := [], mfGridElementWidthInv := 0,
    mfGridElementHeightInv := 0, mnMinX := 0, mnMinY := 0, mnMaxX := 0, mnMaxY := 0,
    desc := [], pointDesc := [], nodeIds := [], indicesVec := [], nrMapPoints := 0,
    indices := [], maxDistInvariance := [], minDistInvariance := [], worldPoints := [],
    mvLevelSigma2 := [], mvInvLevelSigma2 := [], mvScaleFactors := [],
    pose := [1, 0, 0, 0, 0, 1, 0, 0, 0, 0, 1, 0], K := [1, 0, 0, 0, 1, 0, 0, 0, 1],
    fx := 1, fy := 1, cx := 0, cy := 0, mfLogScaleFactor := 0, mnScaleLevels := 0,
    mfMaxDistance := [] }

/-- A truncated message: one word id and no word value. -/
def truncatedKeyframe : Keyframe :=
  { emptyKeyframe 1 with wordIds := [7] }

/-- A covisibility graph used in the examples: the path `1 - 2 - 3 - 4`. -/
def pathGraph : KeyFrame → Finset KeyFrame
  | 1 => {2}
  | 2 => {1, 3}
  | 3 => {2, 4}
  | 4 => {3}
  | _ => ∅

/-- Four rounds on `pathGraph`, each returning keyframe `1`; the second and third return
another candidate ahead of it. -/
def stolenLineageRounds : List Round :=
  [⟨[1], pathGraph⟩, ⟨[2, 1], pathGraph⟩, ⟨[4, 1], pathGraph⟩, ⟨[1], pathGraph⟩]

/-- A state holding the group `{1, 2}` with counter `2`. -/
def carriedState : DetectState := ⟨[({1, 2}, 2)], []⟩

/-- Four rounds on `pathGraph`, each returning keyframe `1` alone. -/
def sameCandidateRounds : List Round :=
  [⟨[1], pathGraph⟩, ⟨[1], pathGraph⟩, ⟨[1], pathGraph⟩, ⟨[1], pathGraph⟩]

/-- Lines 587-601 for one candidate, as a predicate: some previous group shares a keyframe
with the candidate group and its counter plus one reaches the threshold. -/
def reachesThreshold (prev : List ConsistentGroup)
    (GetConnectedKeyFrames : KeyFrame → Finset KeyFrame) (pCandidateKF : KeyFrame) : Bool :=
  prev.any (fun g => bConsistent (candidateGroup GetConnectedKeyFrames pCandidateKF) g.1
    && decide (g.2 + 1 ≥ mnCovisibilityConsistencyTh))

/-! ## Order of attempts in `ComputeSim3` -/

/-- Every `iterate` call of the log `l` was rejected: the call either returned no transform or
its refinement reported fewer than 20 inliers.  The call at a position of the log is the call
number `count` of its solver among the earlier entries. -/
def AllRejected (env : Sim3Collaborators) (cands : List KeyFrame) (setup : Sim3Setup)
    (l : List Nat) : Prop :=
  ∀ (l1 l2 : List Nat) (i : Nat), l = l1 ++ i :: l2 →
    ∀ opt, refine env cands setup i (env.iterate i (l1.count i)) = some opt → opt.1 < 20

/-- The "first acceptable hypothesis wins" invariant of the RANSAC loop: while `bMatch` is
not set every call made so far was rejected; once it is set, the accepted call is the last
entry of the log, its refinement reported at least 20 inliers, the members written are those
of its candidate, and every earlier call was rejected. -/
structure FirstWins (env : Sim3Collaborators) (cands : List KeyFrame) (setup : Sim3Setup)
    (st : RansacState) : Prop where
  rejected : st.bMatch = false → AllRejected env cands setup st.iterated
  won : st.bMatch = true →
    ∃ l i opt, st.iterated = l ++ [i] ∧
      refine env cands setup i (env.iterate i (l.count i)) = some opt ∧ opt.1 ≥ 20 ∧
      st.accepted = some (acceptLoop env (cands.getD i 0) opt.2.1 opt.2.2) ∧
      AllRejected env cands setup l

/-- The iteration budget given to every solver, `SetRansacParameters(0.99,20,300)`
(line 693). -/
def mRansacMaxIts : Nat := 300

/-- The number of iterations asked of a solver per call, `iterate(5, ...)` (line 722). -/
def nIterations : Nat := 5

/-! ## Poses and similarity transforms -/

/-- A 3-vector over exact rationals. -/
abbrev Vec3 := Fin 3 → ℚ

/-- A 3x3 matrix over exact rationals. -/
abbrev Mat3 := Matrix (Fin 3) (Fin 3) ℚ

/-- A keyframe pose `Tcw`, the 4x4 matrix `[R t; 0 1]`, by its rotation block and its
translation column (`rowRange(0,3).colRange(0,3)` and `rowRange(0,3).col(3)`). -/
structure SE3 where
  R : Mat3
  t : Vec3

/-- The product of two 4x4 pose matrices `[R t; 0 1]`. -/
def SE3.mul (a b : SE3) : SE3 :=
  { R := a.R * b.R, t := a.R.mulVec b.t + a.t }

/-- Modelled from the spec: `KeyFrame::GetPoseInverse` is outside the source file; the spec
has the relative pose "computed from current, uncorrected poses", so it is the inverse pose
`[Rᵀ | -Rᵀ t]` of a rigid transform. -/
def SE3.GetPoseInverse (a : SE3) : SE3 :=
  { R := a.R.transpose, t := -(a.R.transpose.mulVec a.t) }

namespace g2o

/-- Modelled from the spec: `g2o::Sim3` is library code outside the source file; the spec's
glossary calls a similarity transform "a rotation, translation, and uniform scale mapping one
robot's frame into another's".  Rotation `r`, translation `t`, scale `s`. -/
structure Sim3 where
  r : Mat3
  t : Vec3
  s : ℚ

/-- Modelled from the spec: `g2o::Sim3::map`, the point `s R p + t`. -/
def Sim3.map (S : Sim3) (p : Vec3) : Vec3 :=
  S.s • S.r.mulVec p + S.t

/-- Modelled from the spec: `g2o::Sim3::inverse`, the transform
`(Rᵀ, Rᵀ (-(1/s) t), 1/s)`. -/
def Sim3.inverse (S : Sim3) : Sim3 :=
  { r := S.r.transpose, t := S.r.transpose.mulVec ((-1 / S.s) • S.t), s := 1 / S.s }

/-- Modelled from the spec: `g2o::Sim3::operator*`, the composition
`(R₁ R₂, s₁ R₁ t₂ + t₁, s₁ s₂)`. -/
def Sim3.mul (a b : Sim3) : Sim3 :=
  { r := a.r * b.r, t := a.s • a.r.mulVec b.t + a.t, s := a.s * b.s }

end g2o

/-- The type `KeyFrameAndPose`, a `std::map<KeyFrame*, g2o::Sim3>`, as its entries in key
order. -/
abbrev KeyFrameAndPose := List (KeyFrame × g2o.Sim3)

/-- The assignment `m[k] = v` on a `KeyFrameAndPose`. -/
def assignPose (k : KeyFrame) (v : g2o.Sim3) : KeyFrameAndPose → KeyFrameAndPose
  | [] => [(k, v)]
  | (k', v') :: rest =>
    if k = k' then (k, v) :: rest
    else if k < k' then (k, v) :: (k', v') :: rest
    else (k', v') :: assignPose k v rest

/-- The read `m[k]` of a `KeyFrameAndPose`; a missing key reads as the default-constructed
identity transform. -/
def readPose (m : KeyFrameAndPose) (k : KeyFrame) : g2o.Sim3 :=
  match m.lookup k with
  | some v => v
  | none => { r := 1, t := 0, s := 1 }

/-! ## The map and the members used by the correction -/

/-- The fields of a `MapPoint` that `CorrectLoop` and `RunGlobalBundleAdjustment` read or
write: the world position, the tags `mnCorrectedByKF` and `mnCorrectedReference`, what
`UpdateNormalAndDepth` stores, the tag `mnBAGlobalForKF`, the position `mPosGBA` and the
reference keyframe. -/
structure MapPointData where
  worldPos : Vec3
  mnCorrectedByKF : Nat
  mnCorrectedReference : Nat
  normalAndDepth : List ℚ
  mnBAGlobalForKF : Nat
  mPosGBA : Vec3
  mpRefKF : KeyFrame

/-- The connections of the keyframes: `GetVectorCovisibleKeyFrames` and
`GetConnectedKeyFrames` of each keyframe. -/
structure Covisibility where
  GetVectorCovisibleKeyFrames : KeyFrame → List KeyFrame
  GetConnectedKeyFrames : KeyFrame → Finset KeyFrame

/-- The observations: the map-point matches of each keyframe (`GetMapPointMatches`, with
`GetMapPoint(i)` its entry `i`) and the bad flag of each map point. -/
structure Observations where
  GetMapPointMatches : KeyFrame → List (Option MapPoint)
  isBad : MapPoint → Bool

/-- A call made on the local mapper. -/
inductive LocalMapperCall where
  | RequestStop
  | Release
  deriving DecidableEq

/-- The map as `CorrectLoop` and `RunGlobalBundleAdjustment` see it: for each keyframe its id,
pose, `mTcwGBA`, `mTcwBefGBA`, `mnBAGlobalForKF`, children in the spanning tree and loop edges;
the origins and the map points of the map; the data of each map point; connections;
observations; and the calls made on the local mapper so far. -/
structure World where
  mnId : KeyFrame → Nat
  pose : KeyFrame → SE3
  mTcwGBA : KeyFrame → SE3
  mTcwBefGBA : KeyFrame → SE3
  mnBAGlobalForKF : KeyFrame → Nat
  GetChilds : KeyFrame → Finset KeyFrame
  mvpKeyFrameOrigins : List KeyFrame
  GetAllMapPoints : List MapPoint
  point : MapPoint → MapPointData
  covis : Covisibility
  obs : Observations
  mspLoopEdges : KeyFrame → Finset KeyFrame
  mpLocalMapper : List LocalMapperCall

/-- The members of `LoopClosingInterRobot` that `CorrectLoop`, `RunGlobalBundleAdjustment`,
`ResetIfRequested` and `InsertKeyFrame` read or write.  `mpThreadGBA` is the `nLoopKF` argument
of the thread the pointer refers to, `none` for the null pointer. -/
structure LoopCorrection where
  mvConsistentGroups : List ConsistentGroup
  mlpLoopKeyFrameQueue : List KeyFrame
  mbResetRequested : Bool
  mLastLoopKFid : Nat
  mpCurrentKF : KeyFrame
  mpMatchedKF : KeyFrame
  mg2oScw : g2o.Sim3
  mvpCurrentMatchedPoints : List (Option MapPoint)
  mvpLoopMapPoints : List MapPoint
  mvpCurrentConnectedKFs : List KeyFrame
  mbRunningGBA : Bool
  mbFinishedGBA : Bool
  mbStopGBA : Bool
  mpThreadGBA : Option Nat
  mnFullBAIdx : Int
  mbFixScale : Bool

/-! ## `ResetIfRequested` (lines 1092-1102) and `InsertKeyFrame` (lines 365-370) -/

/-- The function `ResetIfRequested`. -/
def ResetIfRequested (s : LoopCorrection) : LoopCorrection :=
  if s.mbResetRequested then
    { s with mvConsistentGroups := [], mlpLoopKeyFrameQueue := [], mLastLoopKFid := 0,
             mbResetRequested := false }
  else s

/-- The function `InsertKeyFrame`. -/
def InsertKeyFrame (w : World) (pKF : KeyFrame) (s : LoopCorrection) : LoopCorrection :=
  if w.mnId pKF ≠ 0 then { s with mlpLoopKeyFrameQueue := s.mlpLoopKeyFrameQueue ++ [pKF] }
  else s

/-! ## `CorrectLoop` (lines 858-1041) and `SearchAndFuse` (lines 1043-1069) -/

/-- Modelled from the spec: `isRunningGBA` is defined in the class header, which is outside
the source file; the spec has "if a global-adjustment task is running, signal it to stop and
bump the epoch counter", so it reads the flag `mbRunningGBA`. -/
def isRunningGBA (s : LoopCorrection) : Bool := s.mbRunningGBA

/-- Lines 866-879: a running global bundle adjustment is told to stop and the epoch is
advanced; the thread is detached and deleted, the pointer keeps its value. -/
def abortGBA (s : LoopCorrection) : LoopCorrection :=
  if isRunningGBA s then
    { s with mbStopGBA := true, mnFullBAIdx := s.mnFullBAIdx + 1 }
  else s

/-- The two maps filled by the loop of lines 903-925. -/
structure PoseMaps where
  CorrectedSim3 : KeyFrameAndPose
  NonCorrectedSim3 : KeyFrameAndPose

/-- Lines 911-914: the pose of keyframe `pKFi` relative to the current keyframe, `Tiw*Twc`,
as a similarity of scale `1`. -/
def g2oSic (Tiw Twc : SE3) : g2o.Sim3 :=
  { r := (Tiw.mul Twc).R, t := (Tiw.mul Twc).t, s := 1 }

/-- One iteration of the loop of lines 903-925. -/
def propagateStep (mpCurrentKF : KeyFrame) (mg2oScw : g2o.Sim3) (Twc : SE3)
    (pose : KeyFrame → SE3) (pm : PoseMaps) (pKFi : KeyFrame) : PoseMaps :=
  let Tiw := pose pKFi
  { CorrectedSim3 :=
      if pKFi ≠ mpCurrentKF then
        assignPose pKFi ((g2oSic Tiw Twc).mul mg2oScw) pm.CorrectedSim3
      else pm.CorrectedSim3,
    NonCorrectedSim3 := assignPose pKFi { r := Tiw.R, t := Tiw.t, s := 1 } pm.NonCorrectedSim3 }

/-- Lines 894-925: `CorrectedSim3` and `NonCorrectedSim3` for the connected keyframes. -/
def propagate (mpCurrentKF : KeyFrame) (mg2oScw : g2o.Sim3) (pose : KeyFrame → SE3)
    (mvpCurrentConnectedKFs : List KeyFrame) : PoseMaps :=
  mvpCurrentConnectedKFs.foldl
    (propagateStep mpCurrentKF mg2oScw (pose mpCurrentKF).GetPoseInverse pose)
    { CorrectedSim3 := assignPose mpCurrentKF mg2oScw [], NonCorrectedSim3 := [] }

/-- The collaborators of `CorrectLoop` and `RunGlobalBundleAdjustment` whose code is outside
the source file.  Each returns the part of the map it writes. -/
structure CorrectCollaborators where
  UpdateConnections : KeyFrame → World → Covisibility
  UpdateNormalAndDepth : MapPoint → World → List ℚ
  Replace : MapPoint → MapPoint → Observations → Observations
  AddMapPoint : KeyFrame → MapPoint → Nat → Observations → Observations
  AddObservation : MapPoint → KeyFrame → Nat → Observations → Observations
  ComputeDistinctiveDescriptors : MapPoint → Observations → Observations
  Fuse : KeyFrame → g2o.Sim3 → List MapPoint → World → Observations × List (Option MapPoint)
  OptimizeEssentialGraph : KeyFrame → KeyFrame → KeyFrameAndPose → KeyFrameAndPose →
    (KeyFrame → Option (Finset KeyFrame)) → Bool → World → World
  GlobalBundleAdjustemnt : Nat → World → World

/-- Lines 947-956: the map point is projected with the non-corrected pose and back with the
corrected one, tagged, and its normal and depth are updated. -/
def correctMapPoint (env : CorrectCollaborators) (curId : Nat) (pKFi : KeyFrame)
    (g2oCorrectedSwi g2oSiw : g2o.Sim3) (w : World) (pMPi : MapPoint) : World :=
  let eigCorrectedP3Dw := g2oCorrectedSwi.map (g2oSiw.map (w.point pMPi).worldPos)
  let moved : MapPointData :=
    { w.point pMPi with worldPos := eigCorrectedP3Dw, mnCorrectedByKF := curId,
                        mnCorrectedReference := w.mnId pKFi }
  let w1 : World := { w with point := Function.update w.point pMPi moved }
  let updated : MapPointData :=
    { moved with normalAndDepth := env.UpdateNormalAndDepth pMPi w1 }
  { w1 with point := Function.update w1.point pMPi updated }

/-- One iteration of the loop of lines 937-957.  The second component lists the map points
moved so far, in order. -/
def correctMapPointStep (env : CorrectCollaborators) (curId : Nat) (pKFi : KeyFrame)
    (g2oCorrectedSwi g2oSiw : g2o.Sim3) (acc : World × List MapPoint)
    (pMPi : Option MapPoint) : World × List MapPoint :=
  match pMPi with
  | none => acc
  | some pMPi =>
    if acc.1.obs.isBad pMPi then acc
    else if (acc.1.point pMPi).mnCorrectedByKF = curId then acc
    else
      (correctMapPoint env curId pKFi g2oCorrectedSwi g2oSiw acc.1 pMPi, acc.2 ++ [pMPi])

/-- One iteration of the loop of lines 928-972: the map points of the keyframe are corrected,
its pose is set to the corrected similarity as a rigid pose `[R t/s; 0 1]`, and its
connections are updated. -/
def correctKeyFrame (env : CorrectCollaborators) (curId : Nat)
    (NonCorrectedSim3 : KeyFrameAndPose) (acc : World × List MapPoint)
    (mit : KeyFrame × g2o.Sim3) : World × List MapPoint :=
  let pKFi := mit.1
  let g2oCorrectedSiw := mit.2
  let g2oCorrectedSwi := g2oCorrectedSiw.inverse
  let g2oSiw := readPose NonCorrectedSim3 pKFi
  let vpMPsi := acc.1.obs.GetMapPointMatches pKFi
  let r := vpMPsi.foldl (correctMapPointStep env curId pKFi g2oCorrectedSwi g2oSiw) acc
  let correctedTiw : SE3 :=
    { R := g2oCorrectedSiw.r, t := (1 / g2oCorrectedSiw.s) • g2oCorrectedSiw.t }
  let w1 : World := { r.1 with pose := Function.update r.1.pose pKFi correctedTiw }
  ({ w1 with covis := env.UpdateConnections pKFi w1 }, r.2)

/-- The loop of lines 928-972 over the entries of `CorrectedSim3`, in key order. -/
def correctKeyFrames (env : CorrectCollaborators) (curId : Nat)
    (NonCorrectedSim3 CorrectedSim3 : KeyFrameAndPose) (acc : World × List MapPoint) :
    World × List MapPoint :=
  CorrectedSim3.foldl (correctKeyFrame env curId NonCorrectedSim3) acc

/-- Lines 887-972 of `CorrectLoop`: the connected keyframes are retrieved, the corrected poses
are propagated, and map points and keyframe poses are corrected.  The second component lists
the map points moved, in order. -/
def correctPoses (env : CorrectCollaborators) (mpCurrentKF : KeyFrame) (mg2oScw : g2o.Sim3)
    (w : World) : World × List MapPoint :=
  let mvpCurrentConnectedKFs :=
    w.covis.GetVectorCovisibleKeyFrames mpCurrentKF ++ [mpCurrentKF]
  let pm := propagate mpCurrentKF mg2oScw w.pose mvpCurrentConnectedKFs
  correctKeyFrames env (w.mnId mpCurrentKF) pm.NonCorrectedSim3 pm.CorrectedSim3 (w, [])

/-- One iteration of the loop of lines 976-991 (loop fusion) for entry `i` of
`mvpCurrentMatchedPoints`. -/
def fuseMatchedPoint (env : CorrectCollaborators) (mpCurrentKF : KeyFrame)
    (o : Observations) (e : Nat × Option MapPoint) : Observations :=
  match e.2 with
  | none => o
  | some pLoopMP =>
    match (o.GetMapPointMatches mpCurrentKF).getD e.1 none with
    | some pCurMP => env.Replace pCurMP pLoopMP o
    | none =>
      env.ComputeDistinctiveDescriptors pLoopMP
        (env.AddObservation pLoopMP mpCurrentKF e.1
          (env.AddMapPoint mpCurrentKF pLoopMP e.1 o))

/-- Lines 1060-1067: the points returned by `Fuse` replace the loop points. -/
def replaceFused (env : CorrectCollaborators) (mvpLoopMapPoints : List MapPoint)
    (vpReplacePoints : List (Option MapPoint)) (o : Observations) : Observations :=
  (mvpLoopMapPoints.zip vpReplacePoints).foldl (fun o e =>
    match e.2 with
    | none => o
    | some pRep => env.Replace pRep e.1 o) o

/-- The function `SearchAndFuse`. -/
def SearchAndFuse (env : CorrectCollaborators) (mvpLoopMapPoints : List MapPoint)
    (CorrectedPosesMap : KeyFrameAndPose) (w : World) : World :=
  CorrectedPosesMap.foldl (fun w mit =>
    let r := env.Fuse mit.1 mit.2 mvpLoopMapPoints w
    { w with obs := replaceFused env mvpLoopMapPoints r.2 r.1 }) w

/-- Lines 1012-1019: every keyframe of the vector is erased from the set. -/
def eraseAll (l : List KeyFrame) (s : Finset KeyFrame) : Finset KeyFrame :=
  l.foldl (fun s k => s.erase k) s

/-- One iteration of the loop of lines 1004-1020; `LoopConnections` is the `std::map` from
keyframe to its set of new connections. -/
def loopConnectionsStep (env : CorrectCollaborators) (mvpCurrentConnectedKFs : List KeyFrame)
    (acc : World × (KeyFrame → Option (Finset KeyFrame))) (pKFi : KeyFrame) :
    World × (KeyFrame → Option (Finset KeyFrame)) :=
  let vpPreviousNeighbors := acc.1.covis.GetVectorCovisibleKeyFrames pKFi
  let w1 : World := { acc.1 with covis := env.UpdateConnections pKFi acc.1 }
  (w1, Function.update acc.2 pKFi
    (some (eraseAll mvpCurrentConnectedKFs
      (eraseAll vpPreviousNeighbors (w1.covis.GetConnectedKeyFrames pKFi)))))

/-- Lines 1001-1020: the new links of the covisibility graph, for the keyframes of the
vector `l`. -/
def loopConnections (env : CorrectCollaborators) (mvpCurrentConnectedKFs : List KeyFrame)
    (l : List KeyFrame) (w : World) : World × (KeyFrame → Option (Finset KeyFrame)) :=
  l.foldl (loopConnectionsStep env mvpCurrentConnectedKFs) (w, fun _ => none)

/-- Lines 1026-1027: the loop edge between the matched and the current keyframe. -/
def AddLoopEdge (pKF other : KeyFrame) (mspLoopEdges : KeyFrame → Finset KeyFrame) :
    KeyFrame → Finset KeyFrame :=
  Function.update mspLoopEdges pKF (insert other (mspLoopEdges pKF))

/-- The function `CorrectLoop`, for a call in which the local mapper reports itself stopped
(the polling loop of lines 882-885 writes nothing). -/
def CorrectLoop (env : CorrectCollaborators) (s : LoopCorrection) (w : World) :
    LoopCorrection × World :=
  let w1 : World := { w with mpLocalMapper := w.mpLocalMapper ++ [.RequestStop] }
  let s1 := abortGBA s
  let w2 : World := { w1 with covis := env.UpdateConnections s1.mpCurrentKF w1 }
  let mvpCurrentConnectedKFs :=
    w2.covis.GetVectorCovisibleKeyFrames s1.mpCurrentKF ++ [s1.mpCurrentKF]
  let pm := propagate s1.mpCurrentKF s1.mg2oScw w2.pose mvpCurrentConnectedKFs
  let w3 := (correctPoses env s1.mpCurrentKF s1.mg2oScw w2).1
  let o4 := s1.mvpCurrentMatchedPoints.enum.foldl (fuseMatchedPoint env s1.mpCurrentKF) w3.obs
  let w4 : World := { w3 with obs := o4 }
  let w5 := SearchAndFuse env s1.mvpLoopMapPoints pm.CorrectedSim3 w4
  let lc := loopConnections env mvpCurrentConnectedKFs mvpCurrentConnectedKFs w5
  let w6 := env.OptimizeEssentialGraph s1.mpMatchedKF s1.mpCurrentKF pm.NonCorrectedSim3
    pm.CorrectedSim3 lc.2 s1.mbFixScale lc.1
  let w7 : World :=
    { w6 with
        mspLoopEdges := AddLoopEdge s1.mpCurrentKF s1.mpMatchedKF
          (AddLoopEdge s1.mpMatchedKF s1.mpCurrentKF w6.mspLoopEdges),
        mpLocalMapper := w6.mpLocalMapper ++ [.Release] }
  ({ s1 with mvpCurrentConnectedKFs := mvpCurrentConnectedKFs,
             mbRunningGBA := true, mbFinishedGBA := false, mbStopGBA := false,
             mpThreadGBA := some (w7.mnId s1.mpCurrentKF),
             mLastLoopKFid := w7.mnId s1.mpCurrentKF }, w7)

/-! ## `RunGlobalBundleAdjustment` (lines 1104-1206) -/

/-- Lines 1142-1152: one child of the keyframe `pKF`; `Twc` is the inverse pose of `pKF`. -/
def childStep (nLoopKF : Nat) (pKF : KeyFrame) (Twc : SE3) (w : World) (pChild : KeyFrame) :
    World :=
  if w.mnBAGlobalForKF pChild ≠ nLoopKF then
    { w with
        mTcwGBA := Function.update w.mTcwGBA pChild
          (((w.pose pChild).mul Twc).mul (w.mTcwGBA pKF)),
        mnBAGlobalForKF := Function.update w.mnBAGlobalForKF pChild nLoopKF }
  else w

/-- The children of a keyframe in the iteration order of the `std::set`. -/
def sChilds (w : World) (pKF : KeyFrame) : List KeyFrame :=
  (w.GetChilds pKF).sort (· ≤ ·)

/-- Lines 1138-1158: the keyframe at the front of `lpKFtoCheck` is handled: the poses of its
children are propagated, its own pose is saved in `mTcwBefGBA` and set to `mTcwGBA`. -/
def visitKeyFrame (nLoopKF : Nat) (w : World) (pKF : KeyFrame) : World :=
  let w1 := (sChilds w pKF).foldl (childStep nLoopKF pKF (w.pose pKF).GetPoseInverse) w
  { w1 with mTcwBefGBA := Function.update w1.mTcwBefGBA pKF (w1.pose pKF),
            pose := Function.update w1.pose pKF (w1.mTcwGBA pKF) }

/-- The loop of lines 1136-1159, `while(!lpKFtoCheck.empty())`, run for at most `fuel`
iterations; `none` when the list is not empty after `fuel` iterations.  The last argument and
the second component of the result list the keyframes handled so far, in order. -/
def spanningTreeWalk (nLoopKF : Nat) :
    Nat → World → List KeyFrame → List KeyFrame → Option (World × List KeyFrame)
  | _, w, [], visited => some (w, visited)
  | 0, _, _ :: _, _ => none
  | fuel + 1, w, pKF :: rest, visited =>
    spanningTreeWalk nLoopKF fuel (visitKeyFrame nLoopKF w pKF) (rest ++ sChilds w pKF)
      (visited ++ [pKF])

/-- Lines 1165-1195: one map point is reconciled with the result of the adjustment. -/
def reconcileMapPoint (nLoopKF : Nat) (w : World) (pMP : MapPoint) : World :=
  if w.obs.isBad pMP then w
  else if (w.point pMP).mnBAGlobalForKF = nLoopKF then
    let updated : MapPointData := { w.point pMP with worldPos := (w.point pMP).mPosGBA }
    { w with point := Function.update w.point pMP updated }
  else
    let pRefKF := (w.point pMP).mpRefKF
    if w.mnBAGlobalForKF pRefKF ≠ nLoopKF then w
    else
      let Xc := (w.mTcwBefGBA pRefKF).R.mulVec (w.point pMP).worldPos + (w.mTcwBefGBA pRefKF).t
      let Twc := (w.pose pRefKF).GetPoseInverse
      let updated : MapPointData := { w.point pMP with worldPos := Twc.R.mulVec Xc + Twc.t }
      { w with point := Function.update w.point pMP updated }

/-- Lines 1114-1205: what `RunGlobalBundleAdjustment` does once the optimizer has returned,
`idx` being the value of `mnFullBAIdx` read at line 1108; `none` when the spanning-tree walk
has not ended after `fuel` iterations.  The polling loop of lines 1127-1130 writes nothing. -/
def finishGlobalBundleAdjustment (idx : Int) (nLoopKF fuel : Nat) (s : LoopCorrection)
    (w : World) : Option (LoopCorrection × World) :=
  if idx ≠ s.mnFullBAIdx then some (s, w)
  else if !s.mbStopGBA then
    let w1 : World := { w with mpLocalMapper := w.mpLocalMapper ++ [.RequestStop] }
    match spanningTreeWalk nLoopKF fuel w1 w1.mvpKeyFrameOrigins [] with
    | none => none
    | some r =>
      let w2 := r.1.GetAllMapPoints.foldl (reconcileMapPoint nLoopKF) r.1
      some ({ s with mbFinishedGBA := true, mbRunningGBA := false },
            { w2 with mpLocalMapper := w2.mpLocalMapper ++ [.Release] })
  else some ({ s with mbFinishedGBA := true, mbRunningGBA := false }, w)

/-- The function `RunGlobalBundleAdjustment`, run by its own thread: the epoch is read, the
optimizer runs, and the result is applied.  `meanwhile` is what the other threads do to the
coordinator and the map while the optimizer runs. -/
def RunGlobalBundleAdjustment (env : CorrectCollaborators)
    (meanwhile : LoopCorrection × World → LoopCorrection × World) (nLoopKF fuel : Nat)
    (s : LoopCorrection) (w : World) : Option (LoopCorrection × World) :=
  let idx := s.mnFullBAIdx
  let r := meanwhile (s, env.GlobalBundleAdjustemnt nLoopKF w)
  finishGlobalBundleAdjustment idx nLoopKF fuel r.1 r.2

/-! ## Invariants of `CorrectLoop` -/

/-- The corrected similarity `CorrectLoop` computes for keyframe `k`. -/
def propagatedSiw (mpCurrentKF : KeyFrame) (mg2oScw : g2o.Sim3) (pose : KeyFrame → SE3)
    (k : KeyFrame) : g2o.Sim3 :=
  if k = mpCurrentKF then mg2oScw
  else (g2oSic (pose k) (pose mpCurrentKF).GetPoseInverse).mul mg2oScw

/-- What the loop of lines 903-925 keeps true of `CorrectedSim3` after the keyframes `l`. -/
structure PropagateOK (cur : KeyFrame) (Scw : g2o.Sim3) (pose : KeyFrame → SE3)
    (l : List KeyFrame) (pm : PoseMaps) : Prop where
  sorted : (pm.CorrectedSim3.map Prod.fst).Pairwise (· < ·)
  value : ∀ e ∈ pm.CorrectedSim3, e.2 = propagatedSiw cur Scw pose e.1 ∧ (e.1 = cur ∨ e.1 ∈ l)
  keys : ∀ k, (k = cur ∨ k ∈ l) → k ∈ pm.CorrectedSim3.map Prod.fst

/-- What the correction loop keeps true of the map points and of the list of moved points,
`pt0` being the map points before the loop: every moved point carries the tag, no point was
moved twice, a point that is not listed is as before, and no listed point carried the tag
before. -/
structure MovedOK (curId : Nat) (pt0 : MapPoint → MapPointData)
    (acc : World × List MapPoint) : Prop where
  tagged : ∀ p ∈ acc.2, (acc.1.point p).mnCorrectedByKF = curId
  nodup : acc.2.Nodup
  frame : ∀ p, p ∉ acc.2 → acc.1.point p = pt0 p
  fresh : ∀ p ∈ acc.2, (pt0 p).mnCorrectedByKF ≠ curId

/-! ## Example inputs of `CorrectLoop` and `RunGlobalBundleAdjustment` -/

/-- An example map: keyframe `k` has id `k` and the identity pose, keyframe `1` is the only
origin and has the children `2` and `3`, there are no map points and no connections. -/
def exampleWorld : World :=
  { mnId := fun k => k, pose := fun _ => ⟨1, 0⟩, mTcwGBA := fun _ => ⟨1, 0⟩,
    mTcwBefGBA := fun _ => ⟨1, 0⟩, mnBAGlobalForKF := fun _ => 0,
    GetChilds := fun k => if k = 1 then {2, 3} else ∅, mvpKeyFrameOrigins := [1],
    GetAllMapPoints := [], point := fun _ => ⟨0, 0, 0, [], 0, 0, 0⟩,
    covis := ⟨fun _ => [], fun _ => ∅⟩, obs := ⟨fun _ => [], fun _ => false⟩,
    mspLoopEdges := fun _ => ∅, mpLocalMapper := [] }

/-- An example coordinator: current keyframe `5`, matched keyframe `3`, an accepted
similarity of scale `2`, the given flags `mbResetRequested` and `mbRunningGBA` and the given
epoch. -/
def exampleCorrection (reset running : Bool) (idx : Int) : LoopCorrection :=
  { mvConsistentGroups := [({1, 2}, 1)], mlpLoopKeyFrameQueue := [4], mbResetRequested := reset,
    mLastLoopKFid := 3, mpCurrentKF := 5, mpMatchedKF := 3, mg2oScw := ⟨1, 0, 2⟩,
    mvpCurrentMatchedPoints := [], mvpLoopMapPoints := [], mvpCurrentConnectedKFs := [],
    mbRunningGBA := running, mbFinishedGBA := !running, mbStopGBA := false,
    mpThreadGBA := none, mnFullBAIdx := idx, mbFixScale := false }

/-- Example collaborators that leave the map as it is. -/
def exampleCorrectCollaborators : CorrectCollaborators :=
  { UpdateConnections := fun _ w => w.covis,
    UpdateNormalAndDepth := fun p w => (w.point p).normalAndDepth,
    Replace := fun _ _ o => o, AddMapPoint := fun _ _ _ o => o,
    AddObservation := fun _ _ _ o => o, ComputeDistinctiveDescriptors := fun _ o => o,
    Fuse := fun _ _ l w => (w.obs, l.map (fun _ => none)),
    OptimizeEssentialGraph := fun _ _ _ _ _ _ w => w,
    GlobalBundleAdjustemnt := fun _ w => w }

/-- The example map with keyframe `4` covisible with keyframe `5`, keyframe `4` observing the
map points `0` and `1` and keyframe `5` the map points `1` and `2`. -/
def connectedWorld : World :=
  { exampleWorld with
      covis := ⟨fun k => if k = 5 then [4] else [], fun _ => ∅⟩,
      obs := ⟨fun k => if k = 4 then [some 0, none, some 1] else if k = 5 then [some 1, some 2]
                else [], fun _ => false⟩ }

/-! ## The spanning tree seen by `RunGlobalBundleAdjustment` -/

/-- A keyframe reachable from the origins of the map through `GetChilds`. -/
inductive Reachable (w : World) : KeyFrame → Prop where
  | origin (k : KeyFrame) : k ∈ w.mvpKeyFrameOrigins → Reachable w k
  | child (p c : KeyFrame) : Reachable w p → c ∈ w.GetChilds p → Reachable w c

/-- The child relation reachable from the origins is a finite forest: the reachable keyframes
all lie in the finite set `nodes`, the origins are distinct and are the child of no reachable
keyframe, and a keyframe is the child of at most one reachable keyframe. -/
structure Forest (w : World) (nodes : Finset KeyFrame) : Prop where
  finite : ∀ k, Reachable w k → k ∈ nodes
  origins : w.mvpKeyFrameOrigins.Nodup
  root : ∀ p, Reachable w p → ∀ o ∈ w.mvpKeyFrameOrigins, o ∉ w.GetChilds p
  parent : ∀ p q c, Reachable w p → Reachable w q → c ∈ w.GetChilds p → c ∈ w.GetChilds q →
    p = q

/-- Every pose and every `mTcwGBA` of the map has an orthogonal rotation block. -/
def AllRigid (w : World) : Prop :=
  ∀ k, (w.pose k).R * (w.pose k).R.transpose = 1 ∧
    (w.mTcwGBA k).R * (w.mTcwGBA k).R.transpose = 1

/-- What the spanning-tree walk keeps true, `w0` being the map before the walk, `w` the map
now, `queue` the list `lpKFtoCheck` and `visited` the keyframes handled so far. -/
structure WalkOK (nLoopKF : Nat) (w0 w : World) (queue visited : List KeyFrame) : Prop where
  childs : w.GetChilds = w0.GetChilds
  nodup : (visited ++ queue).Nodup
  reach : ∀ x ∈ visited ++ queue, Reachable w0 x
  found : ∀ x ∈ visited ++ queue,
    x ∈ w0.mvpKeyFrameOrigins ∨ ∃ p ∈ visited, x ∈ w0.GetChilds p
  closed : ∀ p ∈ visited, ∀ c ∈ w0.GetChilds p, c ∈ visited ++ queue
  origins : ∀ o ∈ w0.mvpKeyFrameOrigins, o ∈ visited ++ queue
  pose_unvisited : ∀ x, x ∉ visited → w.pose x = w0.pose x
  pose_visited : ∀ x ∈ visited, w.pose x = w.mTcwGBA x
  gba_untouched : ∀ x, (∀ p ∈ visited, x ∉ w0.GetChilds p) →
    w.mTcwGBA x = w0.mTcwGBA x ∧ w.mnBAGlobalForKF x = w0.mnBAGlobalForKF x
  gba_child : ∀ p ∈ visited, ∀ c ∈ w0.GetChilds p,
    (w0.mnBAGlobalForKF c ≠ nLoopKF →
      w.mTcwGBA c = ((w0.pose c).mul (w0.pose p).GetPoseInverse).mul (w.mTcwGBA p)) ∧
    (w0.mnBAGlobalForKF c = nLoopKF → w.mTcwGBA c = w0.mTcwGBA c)

/-! ## `publishKeyFrame` (lines 372-537) -/

/-- What `publishKeyFrame` reads from the keyframes and map points of the local map, and the
vocabulary score.  A `cv::KeyPoint` is given as a `Keypoint`, a `cv::Mat` of floats as the
list of its `rows*cols` entries, a descriptor matrix by its rows, and the key `key_` of a
keyframe by its `symbolChr` and `symbolIndex`. -/
structure PublishCollaborators where
  GetVectorCovisibleKeyFrames : KeyFrame → List KeyFrame
  isBad : KeyFrame → Bool
  mBowVec : KeyFrame → BowVector
  score : BowVector → BowVector → ℚ
  mFeatVec : KeyFrame → FeatureVector
  mvKeysUn : KeyFrame → List Keypoint
  mDescriptors : KeyFrame → List (List Nat)
  GetMapPointMatches : KeyFrame → List (Option MapPoint)
  isBadMapPoint : MapPoint → Bool
  GetIndexInKeyFrame : MapPoint → KeyFrame → Int
  GetWorldPos : MapPoint → List ℚ
  GetMaxDistanceInvariance : MapPoint → ℚ
  GetMinDistanceInvariance : MapPoint → ℚ
  mfMaxDistance : MapPoint → ℚ
  GetDescriptor : MapPoint → List Nat
  mvLevelSigma2 : KeyFrame → List ℚ
  mvInvLevelSigma2 : KeyFrame → List ℚ
  mvScaleFactors : KeyFrame → List ℚ
  GetPose : KeyFrame → List ℚ
  mK : KeyFrame → List ℚ
  fx : KeyFrame → ℚ
  fy : KeyFrame → ℚ
  cx : KeyFrame → ℚ
  cy : KeyFrame → ℚ
  mfLogScaleFactor : KeyFrame → ℚ
  mnScaleLevels : KeyFrame → Int
  mfGridElementWidthInv : KeyFrame → ℚ
  mfGridElementHeightInv : KeyFrame → ℚ
  mnMinX : KeyFrame → ℚ
  mnMinY : KeyFrame → ℚ
  mnMaxX : KeyFrame → ℚ
  mnMaxY : KeyFrame → ℚ
  symbolChr : KeyFrame → Nat
  symbolIndex : KeyFrame → Int

/-- Lines 391-408: the reference score `minScore`, starting from `1` and lowered by the score
against each covisible keyframe that is not bad. -/
def referenceScore (env : PublishCollaborators) (mpCurrentKF : KeyFrame) : ℚ :=
  (env.GetVectorCovisibleKeyFrames mpCurrentKF).foldl (fun minScore pKF =>
    if env.isBad pKF then minScore
    else
      let score := env.score (env.mBowVec mpCurrentKF) (env.mBowVec pKF)
      if score < minScore then score else minScore) 1

/-- The test of line 469 on a slot of the map-point matches: `none` when the pointer is null
or the map point is bad. -/
def validMapPoint (env : PublishCollaborators) (mapPoint : Option MapPoint) : Option MapPoint :=
  match mapPoint with
  | none => none
  | some p => if env.isBadMapPoint p then none else some p

/-- Lines 383-530: the message `keyFrameMsg` built for the keyframe `mpCurrentKF`.  Each loop
that pushes one entry per element of a vector is the map of that vector; the loop of lines
466-494 pushes, for each slot of the map-point matches, one entry to `indices`,
`maxDistInvariance`, `minDistInvariance` and `mfMaxDistance`, the entries of the world
position to `worldPoints`, and fills one row of `pointDesc` (zero for an empty or bad slot, the
descriptor of the map point, one row of 32 bytes, otherwise). -/
def keyFrameMsg (env : PublishCollaborators) (robotID_ : Int) (mpCurrentKF : KeyFrame) :
    Keyframe :=
  let vpMapPoints := (env.GetMapPointMatches mpCurrentKF).map (validMapPoint env)
  { minScore := referenceScore env mpCurrentKF,
    mfLogScaleFactor := env.mfLogScaleFactor mpCurrentKF,
    mnScaleLevels := env.mnScaleLevels mpCurrentKF,
    mfGridElementWidthInv := env.mfGridElementWidthInv mpCurrentKF,
    mfGridElementHeightInv := env.mfGridElementHeightInv mpCurrentKF,
    mnMinX := env.mnMinX mpCurrentKF,
    mnMinY := env.mnMinY mpCurrentKF,
    mnMaxX := env.mnMaxX mpCurrentKF,
    mnMaxY := env.mnMaxY mpCurrentKF,
    wordIds := (env.mBowVec mpCurrentKF).map fun vit => vit.1,
    wordValues := (env.mBowVec mpCurrentKF).map fun vit => vit.2,
    symbolChr := env.symbolChr mpCurrentKF,
    symbolIndex := env.symbolIndex mpCurrentKF,
    robotID := robotID_,
    keypoints := (env.mvKeysUn mpCurrentKF).map fun keypoint =>
      { x := keypoint.x, y := keypoint.y, angle := keypoint.angle, octave := keypoint.octave,
        response := keypoint.response, size := keypoint.size, class_id := keypoint.class_id },
    nodeIds := (env.mFeatVec mpCurrentKF).map fun vit => vit.1,
    indicesVec := (env.mFeatVec mpCurrentKF).map fun vit => vit.2.map fun feature => feature,
    desc := env.mDescriptors mpCurrentKF,
    indices := vpMapPoints.map fun mapPoint =>
      match mapPoint with
      | none => -1
      | some p => env.GetIndexInKeyFrame p mpCurrentKF,
    worldPoints := (vpMapPoints.map fun mapPoint =>
      match mapPoint with
      | none => [-1, -1, -1]
      | some p => env.GetWorldPos p).flatten,
    maxDistInvariance := vpMapPoints.map fun mapPoint =>
      match mapPoint with
      | none => -1
      | some p => env.GetMaxDistanceInvariance p,
    minDistInvariance := vpMapPoints.map fun mapPoint =>
      match mapPoint with
      | none => -1
      | some p => env.GetMinDistanceInvariance p,
    mfMaxDistance := vpMapPoints.map fun mapPoint =>
      match mapPoint with
      | none => -1
      | some p => env.mfMaxDistance p,
    pointDesc := vpMapPoints.map fun mapPoint =>
      match mapPoint with
      | none => List.replicate 32 0
      | some p => env.GetDescriptor p,
    nrMapPoints := vpMapPoints.length,
    mvLevelSigma2 := (env.mvLevelSigma2 mpCurrentKF).map fun x => x,
    mvInvLevelSigma2 := (env.mvInvLevelSigma2 mpCurrentKF).map fun x => x,
    mvScaleFactors := (env.mvScaleFactors mpCurrentKF).map fun x => x,
    pose := (env.GetPose mpCurrentKF).map fun x => x,
    K := (env.mK mpCurrentKF).map fun x => x,
    fx := env.fx mpCurrentKF,
    fy := env.fy mpCurrentKF,
    cx := env.cx mpCurrentKF,
    cy := env.cy mpCurrentKF }

/-- The function `publishKeyFrame`: the keyframe at the front of `mlpLoopKeyFrameQueue` becomes
`mpCurrentKF` and its message is published; the result is the coordinator and the message
handed to `keyframe_pub_`.  `none` stands for the call on an empty queue (`front()` of an
empty list), which `Publish` excludes by testing `CheckNewKeyFrames` first. -/
def publishKeyFrame (env : PublishCollaborators) (robotID_ : Int) (s : LoopCorrection) :
    Option (LoopCorrection × Keyframe) :=
  match s.mlpLoopKeyFrameQueue with
  | [] => none
  | pKF :: rest =>
    some ({ s with mpCurrentKF := pKF, mlpLoopKeyFrameQueue := rest },
      keyFrameMsg env robotID_ pKF)

/-- The scores of the keyframe `pKF` against its covisible keyframes that are not bad. -/
def neighbourScores (env : PublishCollaborators) (pKF : KeyFrame) : List ℚ :=
  ((env.GetVectorCovisibleKeyFrames pKF).filter fun k => !env.isBad k).map fun k =>
    env.score (env.mBowVec pKF) (env.mBowVec k)

/-- An example local map for `publishKeyFrame`: keyframe `5` has the covisible keyframes `3`,
`4` (bad) and `6` with scores `1/2`, `1/10` and `1/4`, the appearance vector
`{2 ↦ 1/3, 7 ↦ 2/3}`, the feature vector `{1 ↦ [4, 0], 9 ↦ [2]}`, and the map-point slots
`[some 0, none, some 1]` with map point `1` bad. -/
def examplePublisher : PublishCollaborators :=
  { GetVectorCovisibleKeyFrames := fun k => if k = 5 then [3, 4, 6] else [],
    isBad := fun k => decide (k = 4),
    mBowVec := fun k => if k = 5 then [(2, 1/3), (7, 2/3)] else [(k, 1)],
    score := fun _ b => if b = [(3, 1)] then 1/2 else if b = [(4, 1)] then 1/10 else 1/4,
    mFeatVec := fun _ => [(1, [4, 0]), (9, [2])],
    mvKeysUn := fun _ => [],
    mDescriptors := fun _ => [],
    GetMapPointMatches := fun _ => [some 0, none, some 1],
    isBadMapPoint := fun p => decide (p = 1),
    GetIndexInKeyFrame := fun _ _ => 0,
    GetWorldPos := fun _ => [1, 2, 3],
    GetMaxDistanceInvariance := fun _ => 2,
    GetMinDistanceInvariance := fun _ => 1,
    mfMaxDistance := fun _ => 2,
    GetDescriptor := fun _ => List.replicate 32 1,
    mvLevelSigma2 := fun _ => [1],
    mvInvLevelSigma2 := fun _ => [1],
    mvScaleFactors := fun _ => [1],
    GetPose := fun _ => [1, 0, 0, 0, 0, 1, 0, 0, 0, 0, 1, 0, 0, 0, 0, 1],
    mK := fun _ => [1, 0, 0, 0, 1, 0, 0, 0, 1],
    fx := fun _ => 1, fy := fun _ => 1, cx := fun _ => 0, cy := fun _ => 0,
    mfLogScaleFactor := fun _ => 0, mnScaleLevels := fun _ => 8,
    mfGridElementWidthInv := fun _ => 1, mfGridElementHeightInv := fun _ => 1,
    mnMinX := fun _ => 0, mnMinY := fun _ => 0, mnMaxX := fun _ => 1, mnMaxY := fun _ => 1,
    symbolChr := fun _ => 98, symbolIndex := fun k => k }

/-- Example collaborators of `Match` for which `DetectLoop` succeeds on a coordinator that
carries the group `{1, 2}` with counter `2`: the database returns keyframe `1`, the
covisibility graph is `pathGraph`, and `ComputeSim3` works with `oneCandidate 20 40`, whose
solver and refinement estimate a transform of scale `2`. -/
def loopMatchCollaborators : Collaborators :=
  { DetectLoopCandidatesInterRobot := fun _ _ _ => [1],
    GetConnectedKeyFrames := pathGraph,
    sim3 := fun _ => oneCandidate 20 40 }

/-- A coordinator of robot `0` that carries the group `{1, 2}` with counter `2`. -/
def carriedCoordinator : LoopClosingInterRobot :=
  { exampleCoordinator 0 [] with toDetectState := carriedState }

/-- Two candidates that would both be accepted: keyframe `10` with 30 initial matches and
keyframe `11` with 20; every solver returns a transform at once and every refinement reports
20 inliers. -/
def twoAcceptable : Sim3Collaborators :=
  exampleCollaborators (fun k => if k = 10 then 30 else 20) (fun _ _ => hypothesisResult) 20 40

/-- Lines 919-923: the uncorrected pose of keyframe `k` as a similarity of scale `1`, the
value `CorrectLoop` stores in `NonCorrectedSim3`. -/
def uncorrectedSiw (pose : KeyFrame → SE3) (k : KeyFrame) : g2o.Sim3 :=
  { r := (pose k).R, t := (pose k).t, s := 1 }

/-- What the correction loop keeps true of the moved points, `w0` being the map before the
loop: observations and keyframe ids are untouched, and every moved point was moved by an entry
of `CorrectedSim3` whose keyframe observes it, to the position obtained from its old one
through the uncorrected similarity read from `NonCorrectedSim3` and the inverse of the
corrected one, with the id of that keyframe as corrected reference. -/
structure MovedBy (NonCorrectedSim3 CorrectedSim3 : KeyFrameAndPose) (w0 : World)
    (acc : World × List MapPoint) : Prop where
  obs : acc.1.obs = w0.obs
  mnId : acc.1.mnId = w0.mnId
  moved : ∀ p ∈ acc.2, ∃ mit ∈ CorrectedSim3, some p ∈ w0.obs.GetMapPointMatches mit.1 ∧
    (acc.1.point p).mnCorrectedReference = w0.mnId mit.1 ∧
    (acc.1.point p).worldPos =
      mit.2.inverse.map ((readPose NonCorrectedSim3 mit.1).map (w0.point p).worldPos)

/-- The example map with every map point at `(1, 2, 3)`. -/
def shiftedWorld : World :=
  { connectedWorld with point := fun _ => ⟨![1, 2, 3], 0, 0, [], 0, 0, 0⟩ }

/-! ## Lemmas on `DetectLoop` -/

theorem bConsistent_self (GetConnectedKeyFrames : KeyFrame → Finset KeyFrame) (c : KeyFrame) :
    bConsistent (candidateGroup GetConnectedKeyFrames c)
      (candidateGroup GetConnectedKeyFrames c) = true := by
  simp only [bConsistent, decide_eq_true_eq]
  exact ⟨c, by simp [candidateGroup], by simp [candidateGroup]⟩

theorem scanGroups_fst (c : KeyFrame) (G : Finset KeyFrame) (l : List (ConsistentGroup × Bool))
    (st : GroupScan) : (scanGroups c G l st).1.map Prod.fst = l.map Prod.fst := by
  induction l generalizing st with
  | nil => simp [scanGroups]
  | cons p rest ih =>
    obtain ⟨g, vb⟩ := p
    by_cases h : bConsistent G g.1 = true
    · simp [scanGroups, h, ih]
    · simp [scanGroups, h, ih]

theorem scanGroups_enough (c : KeyFrame) (G : Finset KeyFrame) (l : List (ConsistentGroup × Bool))
    (st : GroupScan) :
    (scanGroups c G l st).2.mvpEnoughConsistentCandidates =
      if st.bEnoughConsistent = false ∧
          (l.any fun p => bConsistent G p.1.1 && decide (p.1.2 + 1 ≥ mnCovisibilityConsistencyTh))
            = true
      then st.mvpEnoughConsistentCandidates ++ [c] else st.mvpEnoughConsistentCandidates := by
  induction l generalizing st with
  | nil => simp [scanGroups]
  | cons p rest ih =>
    obtain ⟨g, vb⟩ := p
    cases h : bConsistent G g.1
    · simp only [scanGroups, h, ih, List.any_cons, Bool.false_and, Bool.false_or,
        Bool.false_eq_true, if_false]
    · cases hth : decide (g.2 + 1 ≥ mnCovisibilityConsistencyTh) <;>
        cases hb : st.bEnoughConsistent <;> cases vb <;>
          simp only [scanGroups, h, hth, hb, ih, List.any_cons, Bool.and_true, Bool.and_false,
            Bool.true_or, Bool.false_or, Bool.not_true, Bool.not_false, if_true, if_false,
            and_true, true_and, and_false, false_and, Bool.true_and, Bool.false_and,
            Bool.false_eq_true, reduceCtorEq, ite_true, ite_false, reduceIte, and_self]

theorem candidateStep_fst (conn : KeyFrame → Finset KeyFrame) (cs : CandidateScan)
    (c : KeyFrame) :
    (candidateStep conn cs c).vbConsistentGroup.map Prod.fst
      = cs.vbConsistentGroup.map Prod.fst := by
  simp [candidateStep, scanGroups_fst]

theorem candidateStep_enough (conn : KeyFrame → Finset KeyFrame) (cs : CandidateScan)
    (c : KeyFrame) :
    (candidateStep conn cs c).mvpEnoughConsistentCandidates =
      cs.mvpEnoughConsistentCandidates ++
        (if reachesThreshold (cs.vbConsistentGroup.map Prod.fst) conn c then [c] else []) := by
  have hany : (cs.vbConsistentGroup.any fun p => bConsistent (candidateGroup conn c) p.1.1
        && decide (p.1.2 + 1 ≥ mnCovisibilityConsistencyTh))
      = reachesThreshold (cs.vbConsistentGroup.map Prod.fst) conn c := by
    unfold reachesThreshold
    induction cs.vbConsistentGroup with
    | nil => rfl
    | cons p rest ih => simp only [List.any_cons, List.map_cons, ih]
  simp only [candidateStep, scanGroups_enough, true_and, hany]
  cases reachesThreshold (cs.vbConsistentGroup.map Prod.fst) conn c <;> simp

theorem foldl_candidateStep_fst (conn : KeyFrame → Finset KeyFrame) (cands : List KeyFrame)
    (cs : CandidateScan) :
    (cands.foldl (candidateStep conn) cs).vbConsistentGroup.map Prod.fst
      = cs.vbConsistentGroup.map Prod.fst := by
  induction cands generalizing cs with
  | nil => rfl
  | cons c rest ih => rw [List.foldl_cons, ih, candidateStep_fst]

theorem foldl_candidateStep_enough (conn : KeyFrame → Finset KeyFrame) (cands : List KeyFrame)
    (cs : CandidateScan) :
    (cands.foldl (candidateStep conn) cs).mvpEnoughConsistentCandidates =
      cs.mvpEnoughConsistentCandidates ++
        cands.filter (reachesThreshold (cs.vbConsistentGroup.map Prod.fst) conn) := by
  induction cands generalizing cs with
  | nil => simp
  | cons c rest ih =>
    rw [List.foldl_cons, ih, candidateStep_fst, candidateStep_enough, List.filter_cons]
    split <;> simp

/-- Every group stored by a scan is either one that was there before or the candidate's
group with the incremented counter of a previous group it shares a keyframe with. -/
theorem scanGroups_current_mem (c : KeyFrame) (G : Finset KeyFrame)
    (l : List (ConsistentGroup × Bool)) (st : GroupScan) (x : ConsistentGroup)
    (hx : x ∈ (scanGroups c G l st).2.vCurrentConsistentGroups) :
    x ∈ st.vCurrentConsistentGroups ∨
      (x.1 = G ∧ ∃ p ∈ l, bConsistent G p.1.1 = true ∧ x.2 = p.1.2 + 1) := by
  induction l generalizing st with
  | nil => left; simpa [scanGroups] using hx
  | cons p rest ih =>
    obtain ⟨g, vb⟩ := p
    cases h : bConsistent G g.1
    · simp only [scanGroups, h, Bool.false_eq_true, if_false] at hx
      rcases ih _ hx with h1 | ⟨h1, q, hq, h2⟩
      · exact Or.inl h1
      · exact Or.inr ⟨h1, q, List.mem_cons_of_mem _ hq, h2⟩
    · simp only [scanGroups, h, if_true] at hx
      rcases ih _ hx with h1 | ⟨h1, q, hq, h2⟩
      · cases vb
        · by_cases hth : (decide (g.2 + 1 ≥ mnCovisibilityConsistencyTh) && !st.bEnoughConsistent) = true
          · simp [hth] at h1
            rcases h1 with h1 | h1
            · exact Or.inl h1
            · exact Or.inr ⟨by rw [h1], (g, false), List.mem_cons_self _ _, h, by rw [h1]⟩
          · simp [hth] at h1
            rcases h1 with h1 | h1
            · exact Or.inl h1
            · exact Or.inr ⟨by rw [h1], (g, false), List.mem_cons_self _ _, h, by rw [h1]⟩
        · by_cases hth : (decide (g.2 + 1 ≥ mnCovisibilityConsistencyTh) && !st.bEnoughConsistent) = true
          · simp [hth] at h1
            exact Or.inl h1
          · simp [hth] at h1
            exact Or.inl h1
      · exact Or.inr ⟨h1, q, List.mem_cons_of_mem _ hq, h2⟩

theorem scanGroups_current_mono (c : KeyFrame) (G : Finset KeyFrame)
    (l : List (ConsistentGroup × Bool)) (st : GroupScan) (x : ConsistentGroup)
    (hx : x ∈ st.vCurrentConsistentGroups) :
    x ∈ (scanGroups c G l st).2.vCurrentConsistentGroups := by
  induction l generalizing st with
  | nil => simpa [scanGroups] using hx
  | cons p rest ih =>
    obtain ⟨g, vb⟩ := p
    cases h : bConsistent G g.1
    · simp only [scanGroups, h, Bool.false_eq_true, if_false]
      exact ih _ hx
    · simp only [scanGroups, h, if_true]
      apply ih
      cases vb <;>
        by_cases hth : (decide (g.2 + 1 ≥ mnCovisibilityConsistencyTh) && !st.bEnoughConsistent) = true <;>
        simp [hth, hx]

/-- A previous group whose flag is still clear and that shares a keyframe with the candidate
group is carried over with its counter plus one. -/
theorem scanGroups_push (c : KeyFrame) (G : Finset KeyFrame)
    (l : List (ConsistentGroup × Bool)) (st : GroupScan) (g : ConsistentGroup)
    (hg : (g, false) ∈ l) (hc : bConsistent G g.1 = true) :
    (G, g.2 + 1) ∈ (scanGroups c G l st).2.vCurrentConsistentGroups := by
  induction l generalizing st with
  | nil => simp at hg
  | cons p rest ih =>
    obtain ⟨g', vb⟩ := p
    rcases List.mem_cons.1 hg with h | h
    · injection h with h1 h2
      subst h1; subst h2
      simp only [scanGroups, hc, if_true]
      apply scanGroups_current_mono
      by_cases hth : (decide (g.2 + 1 ≥ mnCovisibilityConsistencyTh) && !st.bEnoughConsistent) = true <;>
        simp [hth]
    · cases h' : bConsistent G g'.1
      · simp only [scanGroups, h', Bool.false_eq_true, if_false]
        exact ih _ h
      · simp only [scanGroups, h', if_true]
        exact ih _ h

theorem scanGroups_forSome (c : KeyFrame) (G : Finset KeyFrame)
    (l : List (ConsistentGroup × Bool)) (st : GroupScan) (g : ConsistentGroup) (vb : Bool)
    (hg : (g, vb) ∈ l) (hc : bConsistent G g.1 = true) :
    (scanGroups c G l st).2.bConsistentForSomeGroup = true := by
  have keep : ∀ (l : List (ConsistentGroup × Bool)) (st : GroupScan),
      st.bConsistentForSomeGroup = true →
        (scanGroups c G l st).2.bConsistentForSomeGroup = true := by
    intro l
    induction l with
    | nil => intro st h; simpa [scanGroups] using h
    | cons p rest ih =>
      intro st h
      obtain ⟨g', vb'⟩ := p
      cases h' : bConsistent G g'.1
      · simp only [scanGroups, h', Bool.false_eq_true, if_false]
        exact ih _ h
      · simp only [scanGroups, h', if_true]
        exact ih _ rfl
  induction l generalizing st with
  | nil => simp at hg
  | cons p rest ih =>
    obtain ⟨g', vb'⟩ := p
    rcases List.mem_cons.1 hg with h | h
    · injection h with h1 h2
      subst h1; subst h2
      simp only [scanGroups, hc, if_true]
      exact keep _ _ rfl
    · cases h' : bConsistent G g'.1
      · simp only [scanGroups, h', Bool.false_eq_true, if_false]
        exact ih _ h
      · simp only [scanGroups, h', if_true]
        exact keep _ _ rfl

theorem scanGroups_forSome_false (c : KeyFrame) (G : Finset KeyFrame)
    (l : List (ConsistentGroup × Bool)) (st : GroupScan)
    (hst : st.bConsistentForSomeGroup = false)
    (hl : ∀ p ∈ l, bConsistent G p.1.1 = false) :
    scanGroups c G l st = (l, st) := by
  induction l generalizing st with
  | nil => simp [scanGroups]
  | cons p rest ih =>
    obtain ⟨g', vb'⟩ := p
    have h' : bConsistent G g'.1 = false := hl (g', vb') (List.mem_cons_self _ _)
    simp only [scanGroups, h', Bool.false_eq_true, if_false]
    rw [ih st hst (fun p hp => hl p (List.mem_cons_of_mem _ hp))]

theorem candidateStep_current_mem (conn : KeyFrame → Finset KeyFrame) (cs : CandidateScan)
    (c : KeyFrame) (x : ConsistentGroup)
    (hx : x ∈ (candidateStep conn cs c).vCurrentConsistentGroups) :
    x ∈ cs.vCurrentConsistentGroups ∨
      (x.1 = candidateGroup conn c ∧
        (x.2 = 0 ∨ ∃ g ∈ cs.vbConsistentGroup.map Prod.fst,
          bConsistent (candidateGroup conn c) g.1 = true ∧ x.2 = g.2 + 1)) := by
  simp only [candidateStep] at hx
  split at hx
  · rcases scanGroups_current_mem _ _ _ _ _ hx with h | ⟨h1, p, hp, h2, h3⟩
    · exact Or.inl h
    · exact Or.inr ⟨h1, Or.inr ⟨p.1, List.mem_map_of_mem _ hp, h2, h3⟩⟩
  · rcases List.mem_append.1 hx with hx | hx
    · rcases scanGroups_current_mem _ _ _ _ _ hx with h | ⟨h1, p, hp, h2, h3⟩
      · exact Or.inl h
      · exact Or.inr ⟨h1, Or.inr ⟨p.1, List.mem_map_of_mem _ hp, h2, h3⟩⟩
    · rw [List.mem_singleton] at hx
      exact Or.inr ⟨by rw [hx], Or.inl (by rw [hx])⟩

theorem candidateStep_current_mono (conn : KeyFrame → Finset KeyFrame) (cs : CandidateScan)
    (c : KeyFrame) (x : ConsistentGroup) (hx : x ∈ cs.vCurrentConsistentGroups) :
    x ∈ (candidateStep conn cs c).vCurrentConsistentGroups := by
  simp only [candidateStep]
  split
  · exact scanGroups_current_mono _ _ _ _ _ hx
  · exact List.mem_append_left _ (scanGroups_current_mono _ _ _ _ _ hx)

theorem foldl_candidateStep_current_mono (conn : KeyFrame → Finset KeyFrame)
    (cands : List KeyFrame) (cs : CandidateScan) (x : ConsistentGroup)
    (hx : x ∈ cs.vCurrentConsistentGroups) :
    x ∈ (cands.foldl (candidateStep conn) cs).vCurrentConsistentGroups := by
  induction cands generalizing cs with
  | nil => exact hx
  | cons c rest ih =>
    rw [List.foldl_cons]
    exact ih _ (candidateStep_current_mono conn cs c x hx)

theorem foldl_candidateStep_current_mem (conn : KeyFrame → Finset KeyFrame)
    (cands : List KeyFrame) (cs : CandidateScan) (x : ConsistentGroup)
    (hx : x ∈ (cands.foldl (candidateStep conn) cs).vCurrentConsistentGroups) :
    x ∈ cs.vCurrentConsistentGroups ∨
      ∃ c ∈ cands, x.1 = candidateGroup conn c ∧
        (x.2 = 0 ∨ ∃ g ∈ cs.vbConsistentGroup.map Prod.fst,
          bConsistent (candidateGroup conn c) g.1 = true ∧ x.2 = g.2 + 1) := by
  induction cands generalizing cs with
  | nil => exact Or.inl hx
  | cons c rest ih =>
    rw [List.foldl_cons] at hx
    rcases ih _ hx with h | ⟨c', hc', h1, h2⟩
    · rcases candidateStep_current_mem conn cs c x h with h | ⟨h1, h2⟩
      · exact Or.inl h
      · exact Or.inr ⟨c, List.mem_cons_self _ _, h1, h2⟩
    · rw [candidateStep_fst] at h2
      exact Or.inr ⟨c', List.mem_cons_of_mem _ hc', h1, h2⟩

theorem map_pair_fst (l : List ConsistentGroup) :
    (l.map (fun g => (g, false))).map Prod.fst = l := by
  induction l with
  | nil => rfl
  | cons a rest ih => rw [List.map_cons, List.map_cons, ih]

theorem DetectLoop_nil (conn : KeyFrame → Finset KeyFrame) (s : DetectState) :
    DetectLoop [] conn s = (false, s) := rfl

theorem DetectLoop_cons (c : KeyFrame) (rest : List KeyFrame)
    (conn : KeyFrame → Finset KeyFrame) (s : DetectState) :
    DetectLoop (c :: rest) conn s =
      (let r := (c :: rest).foldl (candidateStep conn)
        { vbConsistentGroup := s.mvConsistentGroups.map (fun g => (g, false)),
          vCurrentConsistentGroups := [],
          mvpEnoughConsistentCandidates := [] }
       (!r.mvpEnoughConsistentCandidates.isEmpty,
        { mvConsistentGroups := r.vCurrentConsistentGroups,
          mvpEnoughConsistentCandidates := r.mvpEnoughConsistentCandidates })) := rfl

/-- After a round with at least one candidate every stored group is the group of one of the
round's candidates, with counter `0` or the counter of a previous group it shares a keyframe
with plus one. -/
theorem DetectLoop_groups_mem (cands : List KeyFrame) (conn : KeyFrame → Finset KeyFrame)
    (s : DetectState) (hne : cands ≠ []) (x : ConsistentGroup)
    (hx : x ∈ (DetectLoop cands conn s).2.mvConsistentGroups) :
    ∃ c ∈ cands, x.1 = candidateGroup conn c ∧
      (x.2 = 0 ∨ ∃ g ∈ s.mvConsistentGroups,
        bConsistent (candidateGroup conn c) g.1 = true ∧ x.2 = g.2 + 1) := by
  cases cands with
  | nil => exact absurd rfl hne
  | cons c rest =>
    rw [DetectLoop_cons] at hx
    rcases foldl_candidateStep_current_mem conn (c :: rest) _ x hx with h | h
    · simp at h
    · simpa only [map_pair_fst] using h

theorem DetectLoop_enough (cands : List KeyFrame) (conn : KeyFrame → Finset KeyFrame)
    (s : DetectState) (hne : cands ≠ []) :
    (DetectLoop cands conn s).2.mvpEnoughConsistentCandidates =
      cands.filter (reachesThreshold s.mvConsistentGroups conn) := by
  cases cands with
  | nil => exact absurd rfl hne
  | cons c rest =>
    rw [DetectLoop_cons]
    simp only [foldl_candidateStep_enough, map_pair_fst, List.nil_append]

theorem DetectLoop_ret (cands : List KeyFrame) (conn : KeyFrame → Finset KeyFrame)
    (s : DetectState) :
    (DetectLoop cands conn s).1 =
      !(cands.filter (reachesThreshold s.mvConsistentGroups conn)).isEmpty := by
  cases cands with
  | nil => rfl
  | cons c rest =>
    rw [DetectLoop_cons]
    simp only [foldl_candidateStep_enough, map_pair_fst, List.nil_append]

theorem reachesThreshold_iff (prev : List ConsistentGroup) (conn : KeyFrame → Finset KeyFrame)
    (c : KeyFrame) :
    reachesThreshold prev conn c = true ↔
      ∃ g ∈ prev, bConsistent (candidateGroup conn c) g.1 = true ∧ g.2 + 1 ≥ 3 := by
  simp [reachesThreshold, mnCovisibilityConsistencyTh]

theorem DetectLoop_single_fresh (c : KeyFrame) (conn : KeyFrame → Finset KeyFrame)
    (s : DetectState) (h : s.mvConsistentGroups = []) :
    (DetectLoop [c] conn s).2.mvConsistentGroups = [(candidateGroup conn c, 0)] := by
  simp [DetectLoop, candidateStep, scanGroups, h]

theorem DetectLoop_single_carry (c : KeyFrame) (conn : KeyFrame → Finset KeyFrame)
    (s : DetectState) (G : Finset KeyFrame) (n : Int) (h : s.mvConsistentGroups = [(G, n)])
    (hc : bConsistent (candidateGroup conn c) G = true) :
    (DetectLoop [c] conn s).2.mvConsistentGroups = [(candidateGroup conn c, n + 1)] := by
  simp only [DetectLoop, candidateStep, scanGroups, h, hc, List.isEmpty_cons, Bool.false_eq_true,
    if_false, List.foldl_cons, List.foldl_nil, List.map_cons, List.map_nil, if_true,
    List.nil_append, Bool.not_false, Bool.and_true]
  split <;> rfl

theorem detectRounds_single_carry (rs : List (KeyFrame × (KeyFrame → Finset KeyFrame))) :
    ∀ (s : DetectState) (first last : KeyFrame × (KeyFrame → Finset KeyFrame)) (n : Int),
      s.mvConsistentGroups = [(candidateGroup first.2 first.1, n)] →
      (first :: rs).getLast? = some last →
      List.Chain (fun a b => bConsistent (candidateGroup b.2 b.1) (candidateGroup a.2 a.1) = true)
        first rs →
      (detectRounds s (rs.map fun p => ⟨[p.1], p.2⟩)).1.mvConsistentGroups
        = [(candidateGroup last.2 last.1, n + rs.length)] := by
  induction rs with
  | nil =>
    intro s first last n hs hlast _
    simp at hlast
    subst hlast
    simpa [detectRounds] using hs
  | cons r rest ih =>
    intro s first last n hs hlast hchain
    rw [List.chain_cons] at hchain
    have h1 := DetectLoop_single_carry r.1 r.2 s _ n hs hchain.1
    have hlast' : (r :: rest).getLast? = some last := by
      rw [List.getLast?_cons_cons] at hlast
      exact hlast
    have := ih (DetectLoop [r.1] r.2 s).2 r last (n + 1) h1 hlast' hchain.2
    simp only [List.map_cons, detectRounds, this, List.length_cons, Nat.cast_add, Nat.cast_one]
    congr 2
    ring

theorem DetectLoop_head_fresh (c : KeyFrame) (rest : List KeyFrame)
    (conn : KeyFrame → Finset KeyFrame) (s : DetectState) (h : s.mvConsistentGroups = []) :
    (candidateGroup conn c, 0) ∈ (DetectLoop (c :: rest) conn s).2.mvConsistentGroups := by
  rw [DetectLoop_cons]
  simp only [List.foldl_cons]
  apply foldl_candidateStep_current_mono
  simp [candidateStep, scanGroups, h]

theorem DetectLoop_head_carry (c : KeyFrame) (rest : List KeyFrame)
    (conn : KeyFrame → Finset KeyFrame) (s : DetectState) (g : ConsistentGroup)
    (hg : g ∈ s.mvConsistentGroups) (hc : bConsistent (candidateGroup conn c) g.1 = true) :
    (candidateGroup conn c, g.2 + 1) ∈ (DetectLoop (c :: rest) conn s).2.mvConsistentGroups := by
  rw [DetectLoop_cons]
  simp only [List.foldl_cons]
  apply foldl_candidateStep_current_mono
  have hmem : (g, false) ∈ s.mvConsistentGroups.map (fun g => (g, false)) :=
    List.mem_map_of_mem _ hg
  simp only [candidateStep]
  rw [scanGroups_forSome _ _ _ _ g false hmem hc]
  exact scanGroups_push _ _ _ _ g hmem hc

theorem bConsistent_of_mem (A B : Finset KeyFrame) (k : KeyFrame) (hA : k ∈ A) (hB : k ∈ B) :
    bConsistent A B = true := by
  simp only [bConsistent, decide_eq_true_eq]
  exact ⟨k, hA, hB⟩

theorem mem_candidateGroup (conn : KeyFrame → Finset KeyFrame) (c : KeyFrame) :
    c ∈ candidateGroup conn c := by
  simp [candidateGroup]

/-- Counters grow by at most one per round. -/
theorem DetectLoop_counter_bound (cands : List KeyFrame) (conn : KeyFrame → Finset KeyFrame)
    (s : DetectState) (b : Int) (hb : -1 ≤ b) (hs : ∀ g ∈ s.mvConsistentGroups, g.2 ≤ b) :
    ∀ g ∈ (DetectLoop cands conn s).2.mvConsistentGroups, g.2 ≤ b + 1 := by
  intro x hx
  by_cases hne : cands = []
  · subst hne
    rw [DetectLoop_nil] at hx
    have := hs x hx
    omega
  · obtain ⟨c, _, _, h | ⟨g, hg, _, h⟩⟩ := DetectLoop_groups_mem cands conn s hne x hx
    · omega
    · have := hs g hg
      omega

theorem DetectLoop_ret_false_of_bound (cands : List KeyFrame)
    (conn : KeyFrame → Finset KeyFrame) (s : DetectState)
    (hs : ∀ g ∈ s.mvConsistentGroups, g.2 ≤ 1) :
    (DetectLoop cands conn s).1 = false := by
  rw [DetectLoop_ret]
  have : cands.filter (reachesThreshold s.mvConsistentGroups conn) = [] := by
    rw [List.filter_eq_nil_iff]
    intro c _ hc
    obtain ⟨g, hg, _, h⟩ := (reachesThreshold_iff _ _ _).1 hc
    have := hs g hg
    omega
  rw [this]
  rfl

theorem detectRounds_bound (rounds : List Round) :
    ∀ (s : DetectState) (b : Int), -1 ≤ b → (∀ g ∈ s.mvConsistentGroups, g.2 ≤ b) →
      (∀ g ∈ (detectRounds s rounds).1.mvConsistentGroups, g.2 ≤ b + rounds.length) ∧
      (∀ k : Nat, b + k ≤ 1 → ∀ r, (detectRounds s rounds).2[k]? = some r → r = false) := by
  induction rounds with
  | nil =>
    intro s b _ hs
    simpa [detectRounds] using hs
  | cons r rest ih =>
    intro s b hb hs
    have h1 := DetectLoop_counter_bound r.vpCandidateKFs r.GetConnectedKeyFrames s b hb hs
    obtain ⟨ih1, ih2⟩ := ih (DetectLoop r.vpCandidateKFs r.GetConnectedKeyFrames s).2 (b + 1)
      (by omega) h1
    constructor
    · intro g hg
      have := ih1 g hg
      simp only [List.length_cons, Nat.cast_add, Nat.cast_one]
      omega
    · intro k hk res hres
      cases k with
      | zero =>
        simp only [detectRounds, List.getElem?_cons_zero, Option.some.injEq] at hres
        rw [← hres]
        apply DetectLoop_ret_false_of_bound
        intro g hg
        have := hs g hg
        simp at hk
        omega
      | succ k =>
        simp only [detectRounds, List.getElem?_cons_succ] at hres
        apply ih2 k _ res hres
        push_cast at hk
        omega

theorem DetectLoop_true_iff_enough_aux (cands : List KeyFrame)
    (conn : KeyFrame → Finset KeyFrame) (s : DetectState) :
    (DetectLoop cands conn s).1 = true ↔
      ∃ c ∈ cands, ∃ g ∈ s.mvConsistentGroups,
        bConsistent (candidateGroup conn c) g.1 = true ∧ g.2 + 1 ≥ 3 := by
  rw [DetectLoop_ret]
  constructor
  · intro h
    cases hf : cands.filter (reachesThreshold s.mvConsistentGroups conn) with
    | nil => rw [hf] at h; exact Bool.noConfusion h
    | cons c rest =>
      have hc : c ∈ cands.filter (reachesThreshold s.mvConsistentGroups conn) := by
        rw [hf]; exact List.mem_cons_self _ _
      rw [List.mem_filter] at hc
      exact ⟨c, hc.1, (reachesThreshold_iff _ _ _).1 hc.2⟩
  · rintro ⟨c, hc, hg⟩
    have hmem : c ∈ cands.filter (reachesThreshold s.mvConsistentGroups conn) :=
      List.mem_filter.2 ⟨hc, (reachesThreshold_iff _ _ _).2 hg⟩
    cases hf : cands.filter (reachesThreshold s.mvConsistentGroups conn) with
    | nil => rw [hf] at hmem; simp at hmem
    | cons c rest => rfl

/-! ## Theorems on `DetectLoop` -/

/-- C2: starting from an empty consistency-group state, when each of `N ≥ 1` consecutive
`DetectLoop` rounds gets exactly one candidate from the query and, from the second round on,
the candidate's group shares a keyframe with the group of the round before, the stored
`mvConsistentGroups` after round `N` is exactly one group, the candidate group of round `N`,
with counter `N - 1`. -/
theorem DetectLoop_single_candidate_counter (s0 : DetectState)
    (rs : List (KeyFrame × (KeyFrame → Finset KeyFrame)))
    (last : KeyFrame × (KeyFrame → Finset KeyFrame))
    (h0 : s0.mvConsistentGroups = [])
    (hlast : rs.getLast? = some last)
    (hchain : List.Chain'
      (fun a b => bConsistent (candidateGroup b.2 b.1) (candidateGroup a.2 a.1) = true) rs) :
    (detectRounds s0 (rs.map fun p => ⟨[p.1], p.2⟩)).1.mvConsistentGroups
      = [(candidateGroup last.2 last.1, (rs.length : Int) - 1)] := by
  cases rs with
  | nil => simp at hlast
  | cons r rest =>
    have h1 := DetectLoop_single_fresh r.1 r.2 s0 h0
    have := detectRounds_single_carry rest (DetectLoop [r.1] r.2 s0).2 r last 0 h1 hlast hchain
    simp only [List.map_cons, detectRounds, this, List.length_cons, Nat.cast_add, Nat.cast_one]
    congr 2
    ring

/-- C2, at a concrete input: keyframe `1` alone in four rounds on the path graph ends with the
single group `{1, 2}` and counter `3`. -/
theorem DetectLoop_single_candidate_counter_witness :
    (detectRounds ⟨[], []⟩
        ([(1, pathGraph), (1, pathGraph), (1, pathGraph), (1, pathGraph)].map
          fun p => ⟨[p.1], p.2⟩)).1.mvConsistentGroups
      = [(candidateGroup pathGraph 1, ((4 : Nat) : Int) - 1)] :=
  DetectLoop_single_candidate_counter ⟨[], []⟩
    [(1, pathGraph), (1, pathGraph), (1, pathGraph), (1, pathGraph)] (1, pathGraph)
    rfl rfl (by simp [List.Chain', bConsistent_self])

/-- C3, as the claim states it, fails for a round without candidates: the group `{1, 2}`
stored by a first round is shared by no candidate group of an empty second round, and it is
still stored after that round. -/
theorem DetectLoop_empty_round_keeps_groups :
    ∃ G ∈ (DetectLoop [1] pathGraph ⟨[], []⟩).2.mvConsistentGroups,
      (∀ c ∈ ([] : List KeyFrame), bConsistent (candidateGroup pathGraph c) G.1 = false) ∧
      G ∈ (DetectLoop [] pathGraph (DetectLoop [1] pathGraph ⟨[], []⟩).2).2.mvConsistentGroups :=
  ⟨(candidateGroup pathGraph 1, 0), by decide, by simp, by decide⟩

/-- C3 (amended): in a `DetectLoop` round whose query returns at least one candidate, a stored
group that shares no keyframe with any candidate group of the round is not stored after the
round (no stored group even has its keyframe set), and every group stored after the round is
the group of one of the round's candidates. -/
theorem DetectLoop_untouched_group_dropped (cands : List KeyFrame)
    (conn : KeyFrame → Finset KeyFrame) (s : DetectState) (hne : cands ≠ []) :
    (∀ G ∈ s.mvConsistentGroups,
      (∀ c ∈ cands, bConsistent (candidateGroup conn c) G.1 = false) →
        G ∉ (DetectLoop cands conn s).2.mvConsistentGroups ∧
        ∀ x ∈ (DetectLoop cands conn s).2.mvConsistentGroups, x.1 ≠ G.1) ∧
    (∀ x ∈ (DetectLoop cands conn s).2.mvConsistentGroups,
      ∃ c ∈ cands, x.1 = candidateGroup conn c) := by
  refine ⟨?_, ?_⟩
  · intro G _ hG
    have key : ∀ x ∈ (DetectLoop cands conn s).2.mvConsistentGroups, x.1 ≠ G.1 := by
      intro x hx hxG
      obtain ⟨c, hc, h1, _⟩ := DetectLoop_groups_mem cands conn s hne x hx
      have h2 := hG c hc
      rw [← hxG, h1, bConsistent_self] at h2
      exact Bool.noConfusion h2
    exact ⟨fun hmem => key G hmem rfl, key⟩
  · intro x hx
    obtain ⟨c, hc, h1, _⟩ := DetectLoop_groups_mem cands conn s hne x hx
    exact ⟨c, hc, h1⟩

/-- C3 (amended), at a concrete input: the stored group `{3, 4}` shares no keyframe with the
group `{1, 2}` of the only candidate `1` and is gone after the round. -/
theorem DetectLoop_untouched_group_dropped_witness :
    (([1] : List KeyFrame) ≠ []) ∧
      (({3, 4}, 0) : ConsistentGroup) ∉
        (DetectLoop [1] pathGraph ⟨[({3, 4}, 0)], []⟩).2.mvConsistentGroups :=
  ⟨by decide,
   ((DetectLoop_untouched_group_dropped [1] pathGraph ⟨[({3, 4}, 0)], []⟩ (by decide)).1
      ({3, 4}, 0) (by simp) (by decide)).1⟩

/-- C4, as the claim states it, fails for a round without candidates: after four rounds that
return keyframe `1` the list `mvpEnoughConsistentCandidates` is `[1]`; a fifth round whose
query returns nothing has no candidate that reaches the threshold, yet on return the list is
still `[1]`. -/
theorem DetectLoop_empty_round_keeps_enough :
    (DetectLoop [] pathGraph
        (detectRounds ⟨[], []⟩ sameCandidateRounds).1).2.mvpEnoughConsistentCandidates = [1] ∧
    (DetectLoop [] pathGraph
        (detectRounds ⟨[], []⟩ sameCandidateRounds).1).2.mvpEnoughConsistentCandidates ≠
      ([] : List KeyFrame).filter (fun c => decide (∃ g ∈
        (detectRounds ⟨[], []⟩ sameCandidateRounds).1.mvConsistentGroups,
          bConsistent (candidateGroup pathGraph c) g.1 = true ∧ g.2 + 1 ≥ 3)) :=
  ⟨by decide, by decide⟩

/-- C4 (amended): `DetectLoop` returns `true` exactly when some candidate `c` returned by the
query and some group `g` stored by the previous round are such that the group of `c` shares a
keyframe with `g` and `counter(g) + 1 ≥ 3`; on return from a round with at least one candidate
`mvpEnoughConsistentCandidates` is exactly the list of such candidates, in query order. -/
theorem DetectLoop_true_iff_enough (cands : List KeyFrame)
    (conn : KeyFrame → Finset KeyFrame) (s : DetectState) :
    ((DetectLoop cands conn s).1 = true ↔
      ∃ c ∈ cands, ∃ g ∈ s.mvConsistentGroups,
        bConsistent (candidateGroup conn c) g.1 = true ∧ g.2 + 1 ≥ 3) ∧
    (cands ≠ [] →
      (DetectLoop cands conn s).2.mvpEnoughConsistentCandidates =
        cands.filter (fun c => decide (∃ g ∈ s.mvConsistentGroups,
          bConsistent (candidateGroup conn c) g.1 = true ∧ g.2 + 1 ≥ 3))) := by
  have hfun : reachesThreshold s.mvConsistentGroups conn =
      fun c => decide (∃ g ∈ s.mvConsistentGroups,
        bConsistent (candidateGroup conn c) g.1 = true ∧ g.2 + 1 ≥ 3) := by
    funext c
    rw [Bool.eq_iff_iff, reachesThreshold_iff, decide_eq_true_eq]
  refine ⟨DetectLoop_true_iff_enough_aux cands conn s, fun hne => ?_⟩
  rw [DetectLoop_enough cands conn s hne, hfun]

/-- C4 (amended), at a concrete input: the fourth round returning keyframe `1` records
exactly `[1]`. -/
theorem DetectLoop_true_iff_enough_witness :
    (([1] : List KeyFrame) ≠ []) ∧
      (DetectLoop [1] pathGraph carriedState).2.mvpEnoughConsistentCandidates =
        [1].filter (fun c => decide (∃ g ∈ carriedState.mvConsistentGroups,
          bConsistent (candidateGroup pathGraph c) g.1 = true ∧ g.2 + 1 ≥ 3)) :=
  ⟨by decide, (DetectLoop_true_iff_enough [1] pathGraph carriedState).2 (by decide)⟩

/-- C5, as the claim states it, fails when another candidate precedes the recurring one:
keyframe `1` is returned with the same group `{1, 2}` in four consecutive rounds from the
empty state, and the fourth call returns `false`. -/
theorem DetectLoop_recurring_candidate_rejected :
    (∀ r ∈ stolenLineageRounds,
      1 ∈ r.vpCandidateKFs ∧ candidateGroup r.GetConnectedKeyFrames 1 = {1, 2}) ∧
    (detectRounds ⟨[], []⟩ stolenLineageRounds).2 = [false, false, false, false] :=
  ⟨by decide, by decide⟩

/-- C5 (amended): starting from an empty consistency-group state, for every sequence of
query results none of the first three `DetectLoop` calls returns `true` and every stored
counter after round `r` is at most `r - 1`; and when the same candidate keyframe is the first
(or the only) candidate returned in four consecutive calls, the fourth call returns `true`. -/
theorem DetectLoop_three_rounds_before_acceptance (s0 : DetectState)
    (h0 : s0.mvConsistentGroups = []) :
    (∀ rounds : List Round,
      (∀ k : Nat, k < 3 → ∀ r, (detectRounds s0 rounds).2[k]? = some r → r = false) ∧
      (∀ g ∈ (detectRounds s0 rounds).1.mvConsistentGroups, g.2 ≤ (rounds.length : Int) - 1)) ∧
    (∀ (c : KeyFrame) (rest1 rest2 rest3 rest4 : List KeyFrame)
        (conn1 conn2 conn3 conn4 : KeyFrame → Finset KeyFrame),
      (detectRounds s0 [⟨c :: rest1, conn1⟩, ⟨c :: rest2, conn2⟩, ⟨c :: rest3, conn3⟩,
        ⟨c :: rest4, conn4⟩]).2 = [false, false, false, true]) := by
  have hb0 : ∀ g ∈ s0.mvConsistentGroups, g.2 ≤ (-1 : Int) := by
    intro g hg
    rw [h0] at hg
    simp at hg
  constructor
  · intro rounds
    obtain ⟨h1, h2⟩ := detectRounds_bound rounds s0 (-1) (le_refl _) hb0
    refine ⟨fun k hk r hr => h2 k (by omega) r hr, fun g hg => ?_⟩
    have := h1 g hg
    omega
  · intro c rest1 rest2 rest3 rest4 conn1 conn2 conn3 conn4
    obtain ⟨_, h2⟩ := detectRounds_bound
      [⟨c :: rest1, conn1⟩, ⟨c :: rest2, conn2⟩, ⟨c :: rest3, conn3⟩, ⟨c :: rest4, conn4⟩]
      s0 (-1) (le_refl _) hb0
    have r0 := h2 0 (by norm_num)
    have r1 := h2 1 (by norm_num)
    have r2 := h2 2 (by norm_num)
    simp only [detectRounds, List.getElem?_cons_zero, List.getElem?_cons_succ,
      Option.some.injEq, forall_eq'] at r0 r1 r2
    have m1 := DetectLoop_head_fresh c rest1 conn1 s0 h0
    have m2 := DetectLoop_head_carry c rest2 conn2 _ _ m1
      (bConsistent_of_mem _ _ c (mem_candidateGroup _ _) (mem_candidateGroup _ _))
    have m3 := DetectLoop_head_carry c rest3 conn3 _ _ m2
      (bConsistent_of_mem _ _ c (mem_candidateGroup _ _) (mem_candidateGroup _ _))
    have r3 := (DetectLoop_true_iff_enough_aux (c :: rest4) conn4 _).2
      ⟨c, List.mem_cons_self _ _, _, m3,
        bConsistent_of_mem _ _ c (mem_candidateGroup _ _) (mem_candidateGroup _ _),
        by norm_num⟩
    simp only [detectRounds, r0, r1, r2, r3]

/-- C5 (amended), at a concrete input: from the empty state, keyframe `1` returned alone in
four rounds on the path graph is accepted by the fourth call only. -/
theorem DetectLoop_three_rounds_before_acceptance_witness :
    (detectRounds ⟨[], []⟩ [⟨1 :: [], pathGraph⟩, ⟨1 :: [], pathGraph⟩, ⟨1 :: [], pathGraph⟩,
      ⟨1 :: [], pathGraph⟩]).2 = [false, false, false, true] :=
  (DetectLoop_three_rounds_before_acceptance ⟨[], []⟩ rfl).2 1 [] [] [] []
    pathGraph pathGraph pathGraph pathGraph

/-! ## Lemmas on `ComputeSim3` -/

theorem mem_multimapInsert (kv e : Int × Nat) (l : List (Int × Nat)) :
    e ∈ multimapInsert kv l ↔ e = kv ∨ e ∈ l := by
  induction l with
  | nil => simp [multimapInsert]
  | cons x xs ih =>
    simp only [multimapInsert]
    split
    · simp
    · simp only [List.mem_cons, ih]
      tauto

theorem multimapInsert_perm (kv : Int × Nat) (l : List (Int × Nat)) :
    (multimapInsert kv l).Perm (kv :: l) := by
  induction l with
  | nil => simp [multimapInsert]
  | cons x xs ih =>
    simp only [multimapInsert]
    split
    · exact List.Perm.refl _
    · exact (List.Perm.cons x ih).trans (List.Perm.swap kv x xs)

theorem multimapInsert_sorted (kv : Int × Nat) (l : List (Int × Nat))
    (h : (l.map Prod.fst).Sorted (· ≤ ·)) :
    ((multimapInsert kv l).map Prod.fst).Sorted (· ≤ ·) := by
  induction l with
  | nil => simp [multimapInsert]
  | cons x xs ih =>
    simp only [List.map_cons, List.sorted_cons] at h
    simp only [multimapInsert]
    split
    · rename_i hlt
      simp only [List.map_cons, List.sorted_cons, List.mem_cons, forall_eq_or_imp]
      refine ⟨⟨le_of_lt hlt, fun b hb => le_trans (le_of_lt hlt) (h.1 b hb)⟩, h.1, h.2⟩
    · rename_i hge
      simp only [List.map_cons, List.sorted_cons]
      refine ⟨?_, ih h.2⟩
      intro b hb
      rw [List.mem_map] at hb
      obtain ⟨e, he, rfl⟩ := hb
      rcases (mem_multimapInsert kv e xs).1 he with h1 | h1
      · rw [h1]; exact not_lt.1 hge
      · exact h.1 _ (List.mem_map_of_mem _ h1)

theorem snoc_getElem?_eq_some {α : Type} (l : List α) (x a : α) (i : Nat) :
    (l ++ [x])[i]? = some a ↔ l[i]? = some a ∨ (i = l.length ∧ a = x) := by
  rcases Nat.lt_trichotomy i l.length with h | h | h
  · rw [List.getElem?_append_left h]
    constructor
    · exact Or.inl
    · rintro (h1 | ⟨h1, _⟩)
      · exact h1
      · omega
  · subst h
    rw [List.getElem?_append_right (le_refl _)]
    simp [eq_comm]
  · rw [List.getElem?_append_right (le_of_lt h)]
    have h1 : l[i]? = none := List.getElem?_eq_none (le_of_lt h)
    have h2 : ([x] : List α)[i - l.length]? = none := by
      apply List.getElem?_eq_none
      simp only [List.length_singleton]
      omega
    rw [h1, h2]
    constructor
    · intro h3; exact absurd h3 (by simp)
    · rintro (h3 | ⟨h3, _⟩)
      · exact absurd h3 (by simp)
      · omega

theorem lt_length_of_getElem?_eq_some {α : Type} (l : List α) (a : α) (i : Nat)
    (h : l[i]? = some a) : i < l.length := by
  by_contra hcon
  rw [List.getElem?_eq_none (not_lt.1 hcon)] at h
  exact absurd h (by simp)

theorem setupOK_init (env : Sim3Collaborators) :
    SetupOK env []
      { vpSim3Solvers := [], vvpMapPointMatches := [], vbDiscarded := [], sortedMatches := [],
        nCandidates := 0 } where
  len_disc := rfl
  len_solv := rfl
  alive := by intro i h; simp at h
  dead := by intro i k h; simp at h
  kept := by intro i k h; simp at h
  entries := by intro e h; simp at h
  nodup := by simp
  ascending := by simp
  count := by simp

theorem setupOK_step (env : Sim3Collaborators) (pre : List KeyFrame) (st : Sim3Setup)
    (k : KeyFrame) (h : SetupOK env pre st) :
    SetupOK env (pre ++ [k]) (setupStep env st k) := by
  have hold_entries : ∀ e ∈ st.sortedMatches, ∃ k', (pre ++ [k])[e.2]? = some k' ∧
      env.isBad k' = false ∧ e.1 = (env.SearchByBoWInterRobot k').1 := by
    intro e he
    obtain ⟨k', h1, h2, h3⟩ := h.entries e he
    exact ⟨k', (snoc_getElem?_eq_some _ _ _ _).2 (Or.inl h1), h2, h3⟩
  have hfresh : st.vbDiscarded.length ∉ st.sortedMatches.map Prod.snd := by
    intro hmem
    rw [List.mem_map] at hmem
    obtain ⟨e, he, he2⟩ := hmem
    obtain ⟨k', h1, _⟩ := h.entries e he
    have := lt_length_of_getElem?_eq_some _ _ _ h1
    rw [he2, h.len_disc] at this
    exact lt_irrefl _ this
  have hold_alive : ∀ i : Nat, st.vbDiscarded[i]? = some false →
      (∀ x, (st.vpSim3Solvers ++ [x])[i]? = some (some i)) ∧
      (∃ m, (m, i) ∈ st.sortedMatches) ∧
      ∃ k', (pre ++ [k])[i]? = some k' ∧ env.isBad k' = false ∧
        (env.SearchByBoWInterRobot k').1 ≥ 20 := by
    intro i hi
    obtain ⟨h1, h2, k', h3, h4⟩ := h.alive i hi
    exact ⟨fun x => (snoc_getElem?_eq_some _ _ _ _).2 (Or.inl h1), h2, k',
      (snoc_getElem?_eq_some _ _ _ _).2 (Or.inl h3), h4⟩
  have hold_dead : ∀ (i : Nat) (k' : KeyFrame), pre[i]? = some k' →
      (env.isBad k' = true ∨ (env.SearchByBoWInterRobot k').1 < 20) →
      ∀ x, (st.vbDiscarded ++ [x])[i]? = some true := by
    intro i k' h1 h2 x
    exact (snoc_getElem?_eq_some _ _ _ _).2 (Or.inl (h.dead i k' h1 h2))
  have hold_kept : ∀ (i : Nat) (k' : KeyFrame), pre[i]? = some k' →
      env.isBad k' = false → (env.SearchByBoWInterRobot k').1 ≥ 20 →
      ∀ x, (st.vbDiscarded ++ [x])[i]? = some false := by
    intro i k' h1 h2 h3 x
    exact (snoc_getElem?_eq_some _ _ _ _).2 (Or.inl (h.kept i k' h1 h2 h3))
  have hins_nodup : ∀ m : Int,
      ((multimapInsert (m, st.vbDiscarded.length) st.sortedMatches).map Prod.snd).Nodup := by
    intro m
    have hp := (multimapInsert_perm (m, st.vbDiscarded.length) st.sortedMatches).map Prod.snd
    rw [hp.nodup_iff]
    simp only [List.map_cons, List.nodup_cons]
    exact ⟨hfresh, h.nodup⟩
  have hins_entries : env.isBad k = false →
      ∀ e ∈ multimapInsert ((env.SearchByBoWInterRobot k).1, st.vbDiscarded.length)
        st.sortedMatches,
      ∃ k', (pre ++ [k])[e.2]? = some k' ∧ env.isBad k' = false ∧
        e.1 = (env.SearchByBoWInterRobot k').1 := by
    intro hbad e he
    rcases (mem_multimapInsert _ _ _).1 he with h1 | h1
    · subst h1
      exact ⟨k, (snoc_getElem?_eq_some _ _ _ _).2 (Or.inr ⟨h.len_disc, rfl⟩), hbad, rfl⟩
    · exact hold_entries e h1
  cases hbad : env.isBad k
  · by_cases hlt : (env.SearchByBoWInterRobot k).1 < 20
    · simp only [setupStep, hbad, Bool.false_eq_true, if_false, hlt, if_true]
      refine ⟨by simp [h.len_disc], by simp [h.len_solv], ?_, ?_, ?_, hins_entries hbad,
        hins_nodup _, multimapInsert_sorted _ _ h.ascending, ?_⟩
      · intro i hi
        rcases (snoc_getElem?_eq_some _ _ _ _).1 hi with h1 | ⟨_, h1⟩
        · obtain ⟨a1, ⟨m, a2⟩, a3⟩ := hold_alive i h1
          exact ⟨a1 _, ⟨m, (mem_multimapInsert _ _ _).2 (Or.inr a2)⟩, a3⟩
        · exact absurd h1 (by simp)
      · intro i k' h1 h2
        rcases (snoc_getElem?_eq_some _ _ _ _).1 h1 with h3 | ⟨h3, _⟩
        · exact hold_dead i k' h3 h2 _
        · exact (snoc_getElem?_eq_some _ _ _ _).2 (Or.inr ⟨by rw [h3, h.len_disc], rfl⟩)
      · intro i k' h1 h2 h3
        rcases (snoc_getElem?_eq_some _ _ _ _).1 h1 with h4 | ⟨_, h4⟩
        · exact hold_kept i k' h4 h2 h3 _
        · subst h4
          exact absurd hlt (not_lt.2 h3)
      · simp [List.count_append, h.count]
    · simp only [setupStep, hbad, Bool.false_eq_true, if_false, hlt]
      refine ⟨by simp [h.len_disc], by simp [h.len_solv], ?_, ?_, ?_, hins_entries hbad,
        hins_nodup _, multimapInsert_sorted _ _ h.ascending, ?_⟩
      · intro i hi
        rcases (snoc_getElem?_eq_some _ _ _ _).1 hi with h1 | ⟨h1, _⟩
        · obtain ⟨a1, ⟨m, a2⟩, a3⟩ := hold_alive i h1
          exact ⟨a1 _, ⟨m, (mem_multimapInsert _ _ _).2 (Or.inr a2)⟩, a3⟩
        · refine ⟨?_, ⟨(env.SearchByBoWInterRobot k).1,
            (mem_multimapInsert _ _ _).2 (Or.inl (by rw [h1]))⟩, k, ?_, hbad, not_lt.1 hlt⟩
          · rw [h1]
            exact (snoc_getElem?_eq_some _ _ _ _).2
              (Or.inr ⟨by rw [h.len_disc, h.len_solv], rfl⟩)
          · exact (snoc_getElem?_eq_some _ _ _ _).2 (Or.inr ⟨by rw [h1, h.len_disc], rfl⟩)
      · intro i k' h1 h2
        rcases (snoc_getElem?_eq_some _ _ _ _).1 h1 with h3 | ⟨_, h3⟩
        · exact hold_dead i k' h3 h2 _
        · subst h3
          rcases h2 with h2 | h2
          · rw [hbad] at h2; exact absurd h2 (by simp)
          · exact absurd h2 hlt
      · intro i k' h1 h2 h3
        rcases (snoc_getElem?_eq_some _ _ _ _).1 h1 with h4 | ⟨h4, _⟩
        · exact hold_kept i k' h4 h2 h3 _
        · exact (snoc_getElem?_eq_some _ _ _ _).2 (Or.inr ⟨by rw [h4, h.len_disc], rfl⟩)
      · simp [List.count_append, h.count]
  · simp only [setupStep, hbad, if_true]
    refine ⟨by simp [h.len_disc], by simp [h.len_solv], ?_, ?_, ?_, hold_entries, h.nodup,
      h.ascending, ?_⟩
    · intro i hi
      rcases (snoc_getElem?_eq_some _ _ _ _).1 hi with h1 | ⟨_, h1⟩
      · obtain ⟨a1, a2, a3⟩ := hold_alive i h1
        exact ⟨a1 _, a2, a3⟩
      · exact absurd h1 (by simp)
    · intro i k' h1 h2
      rcases (snoc_getElem?_eq_some _ _ _ _).1 h1 with h3 | ⟨h3, _⟩
      · exact hold_dead i k' h3 h2 _
      · exact (snoc_getElem?_eq_some _ _ _ _).2 (Or.inr ⟨by rw [h3, h.len_disc], rfl⟩)
    · intro i k' h1 h2 h3
      rcases (snoc_getElem?_eq_some _ _ _ _).1 h1 with h4 | ⟨_, h4⟩
      · exact hold_kept i k' h4 h2 h3 _
      · subst h4
        rw [hbad] at h2
        exact absurd h2 (by simp)
    · simp [List.count_append, h.count]

theorem setupOK_foldl (env : Sim3Collaborators) (l : List KeyFrame) :
    ∀ (pre : List KeyFrame) (st : Sim3Setup), SetupOK env pre st →
      SetupOK env (pre ++ l) (l.foldl (setupStep env) st) := by
  induction l with
  | nil => intro pre st h; simpa using h
  | cons k rest ih =>
    intro pre st h
    have := ih (pre ++ [k]) (setupStep env st k) (setupOK_step env pre st k h)
    simpa using this

theorem sim3Setup_ok (env : Sim3Collaborators) (cands : List KeyFrame) :
    SetupOK env cands (sim3Setup env cands) := by
  have := setupOK_foldl env cands [] _ (setupOK_init env)
  simpa [sim3Setup] using this

theorem count_set_true (l : List Bool) (i : Nat) (h : l[i]? = some false) :
    ((l.set i true).count false : Int) = (l.count false : Int) - 1 := by
  obtain ⟨hlt, hget⟩ := List.getElem?_eq_some_iff.1 h
  have hpos : 0 < l.count false := by
    rw [List.count_pos_iff]
    exact List.mem_iff_getElem?.2 ⟨i, h⟩
  rw [List.count_set true false l i hlt, hget]
  have h1 : (if ((false : Bool) == false) = true then 1 else 0) = 1 := rfl
  have h2 : (if ((true : Bool) == false) = true then 1 else 0) = 0 := rfl
  rw [h1, h2]
  omega

theorem ransacInit_ok (env : Sim3Collaborators) (cands : List KeyFrame) (setup : Sim3Setup)
    (hs : SetupOK env cands setup) : RansacOK env cands setup (ransacInit setup) where
  len := hs.len_disc
  mono := fun _ h => h
  called := by intro i h; simp [ransacInit] at h
  exhausted := by intro i k h; simp [ransacInit] at h
  last := by intro i k h; simp [ransacInit] at h
  count := hs.count
  flag := by simp [ransacInit]
  accepted := by intro a h; simp [ransacInit] at h

theorem afterIterate_iterated (st : RansacState) (i p : Nat) (r : IterateResult) :
    (afterIterate st i p r).iterated = st.iterated ++ [p] := by
  unfold afterIterate
  split <;> rfl

theorem afterIterate_bMatch (st : RansacState) (i p : Nat) (r : IterateResult) :
    (afterIterate st i p r).bMatch = st.bMatch ∧
      (afterIterate st i p r).accepted = st.accepted := by
  unfold afterIterate
  split <;> exact ⟨rfl, rfl⟩

theorem afterIterate_discarded (st : RansacState) (i p : Nat) (r : IterateResult) :
    (afterIterate st i p r).vbDiscarded =
      if r.bNoMore = true then st.vbDiscarded.set i true else st.vbDiscarded := by
  unfold afterIterate
  split <;> rfl

theorem afterIterate_ok (env : Sim3Collaborators) (cands : List KeyFrame) (setup : Sim3Setup)
    (st : RansacState) (i : Nat) (h : RansacOK env cands setup st)
    (halive : st.vbDiscarded[i]? = some false) :
    RansacOK env cands setup (afterIterate st i i (env.iterate i (st.iterated.count i))) := by
  have hlt : i < st.vbDiscarded.length := lt_length_of_getElem?_eq_some _ _ _ halive
  have hcount : ∀ j, (st.iterated ++ [i]).count j = st.iterated.count j + if i = j then 1 else 0 := by
    intro j
    rw [List.count_append, List.count_singleton]
    simp only [beq_iff_eq]
  have hnot : ∀ k, k < st.iterated.count i → (env.iterate i k).bNoMore = false := by
    intro k hk
    cases hb : (env.iterate i k).bNoMore
    · rfl
    · have := h.exhausted i k hk hb
      rw [halive] at this
      exact absurd this (by simp)
  have hdisc := afterIterate_discarded st i i (env.iterate i (st.iterated.count i))
  have hbm := afterIterate_bMatch st i i (env.iterate i (st.iterated.count i))
  have hit := afterIterate_iterated st i i (env.iterate i (st.iterated.count i))
  have hmono : ∀ j : Nat,
      (afterIterate st i i (env.iterate i (st.iterated.count i))).vbDiscarded[j]? = some false →
        st.vbDiscarded[j]? = some false := by
    intro j hj
    rw [hdisc] at hj
    split at hj
    · rw [List.getElem?_set] at hj
      split at hj
      · simp [hlt] at hj
      · exact hj
    · exact hj
  have hkeep : ∀ j : Nat, st.vbDiscarded[j]? = some true →
      (afterIterate st i i (env.iterate i (st.iterated.count i))).vbDiscarded[j]? = some true := by
    intro j hj
    rw [hdisc]
    split
    · rw [List.getElem?_set]
      split
      · simp [hlt]
      · exact hj
    · exact hj
  refine ⟨?_, ?_, ?_, ?_, ?_, ?_, ?_, ?_⟩
  · rw [hdisc]
    split
    · rw [List.length_set]; exact h.len
    · exact h.len
  · exact fun j hj => h.mono j (hmono j hj)
  · intro j hj
    rw [hit, List.mem_append, List.mem_singleton] at hj
    rcases hj with hj | hj
    · exact h.called j hj
    · rw [hj]; exact h.mono i halive
  · intro j k hk hb
    rw [hit, hcount] at hk
    by_cases hij : i = j
    · subst hij
      simp only [if_true] at hk
      rcases Nat.lt_succ_iff_lt_or_eq.1 hk with hk | hk
      · rw [hnot k hk] at hb
        exact absurd hb (by simp)
      · subst hk
        rw [hdisc, hb]
        simp only [if_true]
        rw [List.getElem?_set]
        simp [hlt]
    · simp only [hij, if_false, add_zero] at hk
      exact hkeep j (h.exhausted j k hk hb)
  · intro j k hk
    rw [hit, hcount] at hk
    by_cases hij : i = j
    · subst hij
      simp only [if_true] at hk
      exact hnot k (by omega)
    · simp only [hij, if_false, add_zero] at hk
      exact h.last j k hk
  · unfold afterIterate
    split
    · simp only
      rw [count_set_true _ _ halive, h.count]
    · exact h.count
  · rw [hbm.1, hbm.2]; exact h.flag
  · intro a ha
    rw [hbm.2] at ha
    obtain ⟨j, k, opt, h1, h2⟩ := h.accepted a ha
    refine ⟨j, k, opt, ?_, h2⟩
    rw [hit, hcount]
    omega

theorem accept_ok (env : Sim3Collaborators) (cands : List KeyFrame) (setup : Sim3Setup)
    (st : RansacState) (i k : Nat) (opt : Int × Sim3 × List (Option MapPoint))
    (h : RansacOK env cands setup st) (hk : k < st.iterated.count i)
    (hopt : refine env cands setup i (env.iterate i k) = some opt) (h20 : opt.1 ≥ 20) :
    RansacOK env cands setup
      { st with bMatch := true,
                accepted := some (acceptLoop env (cands.getD i 0) opt.2.1 opt.2.2) } where
  len := h.len
  mono := h.mono
  called := h.called
  exhausted := h.exhausted
  last := h.last
  count := h.count
  flag := by simp
  accepted := by
    intro a ha
    simp only [Option.some.injEq] at ha
    exact ⟨i, k, opt, hk, hopt, h20, ha.symm⟩

/-- What one visit of the `for` loop does: a discarded entry is skipped; otherwise `iterate`
is called on the candidate's own solver (never a null pointer), and the visit ends the pass
exactly when the refinement of the returned hypothesis has at least 20 inliers. -/
theorem ransacVisit_spec (env : Sim3Collaborators) (cands : List KeyFrame) (setup : Sim3Setup)
    (st : RansacState) (i : Nat) (hs : SetupOK env cands setup)
    (h : RansacOK env cands setup st) (hi : i < cands.length) :
    (st.vbDiscarded[i]? = some true ∧ ransacVisit env cands setup st i = .done (st, false)) ∨
    (st.vbDiscarded[i]? = some false ∧
      ((∃ opt, refine env cands setup i (env.iterate i (st.iterated.count i)) = some opt ∧
          opt.1 ≥ 20 ∧
          ransacVisit env cands setup st i = .done
            ({ afterIterate st i i (env.iterate i (st.iterated.count i)) with
                bMatch := true,
                accepted := some (acceptLoop env (cands.getD i 0) opt.2.1 opt.2.2) }, true)) ∨
        ((∀ opt, refine env cands setup i (env.iterate i (st.iterated.count i)) = some opt →
            opt.1 < 20) ∧
          ransacVisit env cands setup st i = .done
            (afterIterate st i i (env.iterate i (st.iterated.count i)), false)))) := by
  have hlt : i < st.vbDiscarded.length := by rw [h.len]; exact hi
  have hget : st.vbDiscarded[i]? = some (st.vbDiscarded[i]) := List.getElem?_eq_getElem hlt
  cases hd : st.vbDiscarded[i]
  · right
    rw [hd] at hget
    refine ⟨hget, ?_⟩
    have hsolver := (hs.alive i (h.mono i hget)).1
    have e1 : st.vbDiscarded.getD i false = false := by
      rw [List.getD_eq_getElem?_getD, hget]; rfl
    have e2 : setup.vpSim3Solvers.getD i none = some i := by
      rw [List.getD_eq_getElem?_getD, hsolver]; rfl
    cases hr : refine env cands setup i (env.iterate i (st.iterated.count i)) with
    | none =>
      right
      refine ⟨fun opt ho => absurd ho (by simp), ?_⟩
      simp only [ransacVisit, e1, e2, hr, Bool.false_eq_true, if_false]
    | some opt =>
      by_cases h20 : opt.1 ≥ 20
      · left
        refine ⟨opt, rfl, h20, ?_⟩
        simp only [ransacVisit, e1, e2, hr, Bool.false_eq_true, if_false, h20, if_true]
      · right
        refine ⟨fun o ho => ?_, ?_⟩
        · simp only [Option.some.injEq] at ho
          rw [← ho]
          exact not_le.1 h20
        · simp only [ransacVisit, e1, e2, hr, Bool.false_eq_true, if_false, h20]
  · left
    rw [hd] at hget
    refine ⟨hget, ?_⟩
    have e1 : st.vbDiscarded.getD i false = true := by
      rw [List.getD_eq_getElem?_getD, hget]; rfl
    simp only [ransacVisit, e1, if_true]

theorem entry_lt (env : Sim3Collaborators) (cands : List KeyFrame) (setup : Sim3Setup)
    (hs : SetupOK env cands setup) (e : Int × Nat) (he : e ∈ setup.sortedMatches) :
    e.2 < cands.length := by
  obtain ⟨k, hk, _⟩ := hs.entries e he
  exact lt_length_of_getElem?_eq_some _ _ _ hk

/-- A pass of the `for` loop ends normally and keeps the invariant; it only appends to the
log of `iterate` calls. -/
theorem ransacPass_ok (env : Sim3Collaborators) (cands : List KeyFrame) (setup : Sim3Setup)
    (hs : SetupOK env cands setup) (rest : List (Int × Nat)) :
    ∀ st : RansacState, (∀ e ∈ rest, e ∈ setup.sortedMatches) → RansacOK env cands setup st →
      ∃ st', ransacPass env cands setup rest st = .done st' ∧ RansacOK env cands setup st' := by
  induction rest with
  | nil => intro st _ h; exact ⟨st, rfl, h⟩
  | cons e rest ih =>
    intro st hsub h
    obtain ⟨m, i⟩ := e
    have hi : i < cands.length :=
      entry_lt env cands setup hs (m, i) (hsub _ (List.mem_cons_self _ _))
    have hsub' : ∀ e ∈ rest, e ∈ setup.sortedMatches :=
      fun e he => hsub e (List.mem_cons_of_mem _ he)
    rcases ransacVisit_spec env cands setup st i hs h hi with
      ⟨_, hv⟩ | ⟨halive, ⟨opt, ho, h20, hv⟩ | ⟨_, hv⟩⟩
    · simp only [ransacPass, hv, Outcome.bind, Bool.false_eq_true, if_false]
      exact ih st hsub' h
    · have hp : ransacPass env cands setup ((m, i) :: rest) st = .done
          { afterIterate st i i (env.iterate i (st.iterated.count i)) with
              bMatch := true,
              accepted := some (acceptLoop env (cands.getD i 0) opt.2.1 opt.2.2) } := by
        simp only [ransacPass, hv, Outcome.bind, if_true]
      refine ⟨_, hp, ?_⟩
      apply accept_ok env cands setup _ i (st.iterated.count i) opt
        (afterIterate_ok env cands setup st i h halive) _ ho h20
      rw [afterIterate_iterated, List.count_append, List.count_singleton]
      simp
    · simp only [ransacPass, hv, Outcome.bind, Bool.false_eq_true, if_false]
      exact ih _ hsub' (afterIterate_ok env cands setup st i h halive)

/-- The `while` loop never dereferences a null solver: after any number of passes it is in
a state that satisfies the invariant, and when it has ended the loop condition is false. -/
theorem ransacLoop_ok (env : Sim3Collaborators) (cands : List KeyFrame) (setup : Sim3Setup)
    (hs : SetupOK env cands setup) (fuel : Nat) :
    ∀ st : RansacState, RansacOK env cands setup st →
      ∃ st' fin, ransacLoop env cands setup fuel st = .done (st', fin) ∧
        RansacOK env cands setup st' ∧
        (fin = true → (decide (st'.nCandidates > 0) && !st'.bMatch) = false) := by
  induction fuel with
  | zero =>
    intro st h
    unfold ransacLoop
    cases hc : (decide (st.nCandidates > 0) && !st.bMatch)
    · exact ⟨st, true, by simp, h, fun _ => hc⟩
    · exact ⟨st, false, by simp, h, fun hf => absurd hf (by simp)⟩
  | succ fuel ih =>
    intro st h
    unfold ransacLoop
    cases hc : (decide (st.nCandidates > 0) && !st.bMatch)
    · exact ⟨st, true, by simp, h, fun _ => hc⟩
    · obtain ⟨st1, h1, hok⟩ := ransacPass_ok env cands setup hs setup.sortedMatches st
        (fun _ he => he) h
      simp only [if_true, h1, Outcome.bind]
      exact ih st1 hok

theorem ransacRun_ok (env : Sim3Collaborators) (cands : List KeyFrame) (fuel : Nat) :
    ∃ st fin, ransacRun env cands fuel = .done (st, fin) ∧
      RansacOK env cands (sim3Setup env cands) st ∧
      (fin = true → (decide (st.nCandidates > 0) && !st.bMatch) = false) :=
  ransacLoop_ok env cands _ (sim3Setup_ok env cands) fuel _
    (ransacInit_ok env cands _ (sim3Setup_ok env cands))

/-- A pass in which no refinement reaches 20 inliers calls `iterate` exactly once on every
candidate that is not discarded, and accepts nothing. -/
theorem ransacPass_noaccept (env : Sim3Collaborators) (cands : List KeyFrame)
    (setup : Sim3Setup) (hs : SetupOK env cands setup)
    (hno : ∀ i k opt, refine env cands setup i (env.iterate i k) = some opt → opt.1 < 20)
    (p : Nat) (rest : List (Int × Nat)) :
    ∀ st : RansacState, (∀ e ∈ rest, e ∈ setup.sortedMatches) → (rest.map Prod.snd).Nodup →
      RansacOK env cands setup st →
      (∀ i : Nat, st.vbDiscarded[i]? = some false →
        st.iterated.count i = if i ∈ rest.map Prod.snd then p else p + 1) →
      ∃ st', ransacPass env cands setup rest st = .done st' ∧ RansacOK env cands setup st' ∧
        st'.bMatch = st.bMatch ∧
        ∀ i : Nat, st'.vbDiscarded[i]? = some false → st'.iterated.count i = p + 1 := by
  induction rest with
  | nil =>
    intro st _ _ h hacc
    exact ⟨st, rfl, h, rfl, fun i hi => by simpa using hacc i hi⟩
  | cons e rest ih =>
    intro st hsub hnd h hacc
    obtain ⟨m, i⟩ := e
    have hi : i < cands.length :=
      entry_lt env cands setup hs (m, i) (hsub _ (List.mem_cons_self _ _))
    have hsub' : ∀ e ∈ rest, e ∈ setup.sortedMatches :=
      fun e he => hsub e (List.mem_cons_of_mem _ he)
    simp only [List.map_cons, List.nodup_cons] at hnd
    rcases ransacVisit_spec env cands setup st i hs h hi with
      ⟨hdead, hv⟩ | ⟨halive, ⟨opt, ho, h20, _⟩ | ⟨_, hv⟩⟩
    · simp only [ransacPass, hv, Outcome.bind, Bool.false_eq_true, if_false]
      apply ih st hsub' hnd.2 h
      intro j hj
      have hne : j ≠ i := by
        intro hji
        rw [hji, hdead] at hj
        exact absurd hj (by simp)
      rw [hacc j hj]
      by_cases hm : j ∈ List.map Prod.snd rest
      · rw [if_pos hm, if_pos (by simp [hm])]
      · rw [if_neg hm, if_neg (by simp [hm, hne])]
    · have := hno i _ opt ho
      omega
    · simp only [ransacPass, hv, Outcome.bind, Bool.false_eq_true, if_false]
      obtain ⟨st', h1, h2, h3, h4⟩ := ih _ hsub' hnd.2
        (afterIterate_ok env cands setup st i h halive) (by
          intro j hj
          have hj' : st.vbDiscarded[j]? = some false := by
            rw [afterIterate_discarded] at hj
            split at hj
            · rw [List.getElem?_set] at hj
              split at hj
              · split at hj
                · exact absurd hj (by simp)
                · exact absurd hj (by simp)
              · exact hj
            · exact hj
          rw [afterIterate_iterated, List.count_append, List.count_singleton, hacc j hj']
          by_cases hji : j = i
          · subst hji
            rw [if_pos (by simp), if_neg hnd.1, if_pos (by simp)]
          · have hij : ¬ (i == j) = true := by simpa using fun h => hji h.symm
            rw [if_neg hij, add_zero]
            by_cases hm : j ∈ List.map Prod.snd rest
            · rw [if_pos hm, if_pos (by simp [hm])]
            · rw [if_neg hm, if_neg (by simp [hm, hji])])
      exact ⟨st', h1, h2, by rw [h3, (afterIterate_bMatch _ _ _ _).1], h4⟩

/-- When no refinement reaches 20 inliers and every solver reports `bNoMore` within its first
`K` calls, the `while` loop ends after at most `K` passes without a match. -/
theorem ransacLoop_terminates (env : Sim3Collaborators) (cands : List KeyFrame)
    (setup : Sim3Setup) (hs : SetupOK env cands setup)
    (hno : ∀ i k opt, refine env cands setup i (env.iterate i k) = some opt → opt.1 < 20)
    (K : Nat) (hK : ∀ i, i < cands.length → ∃ k, k < K ∧ (env.iterate i k).bNoMore = true)
    (fuel : Nat) :
    ∀ (st : RansacState) (p : Nat), RansacOK env cands setup st → st.bMatch = false →
      (∀ i : Nat, st.vbDiscarded[i]? = some false → st.iterated.count i = p) →
      K ≤ p + fuel →
      ∃ st', ransacLoop env cands setup fuel st = .done (st', true) ∧
        RansacOK env cands setup st' ∧ st'.bMatch = false := by
  induction fuel with
  | zero =>
    intro st p h hb hacc hKp
    unfold ransacLoop
    cases hc : (decide (st.nCandidates > 0) && !st.bMatch)
    · exact ⟨st, by simp, h, hb⟩
    · exfalso
      rw [hb] at hc
      simp only [Bool.not_false, Bool.and_true, decide_eq_true_eq] at hc
      rw [h.count] at hc
      have hpos : 0 < st.vbDiscarded.count false := by exact_mod_cast hc
      rw [List.count_pos_iff, List.mem_iff_getElem?] at hpos
      obtain ⟨i, hi⟩ := hpos
      have hlt : i < cands.length := by
        rw [← h.len]; exact lt_length_of_getElem?_eq_some _ _ _ hi
      obtain ⟨k, hk, hbk⟩ := hK i hlt
      have := h.exhausted i k (by rw [hacc i hi]; omega) hbk
      rw [hi] at this
      exact absurd this (by simp)
  | succ fuel ih =>
    intro st p h hb hacc hKp
    unfold ransacLoop
    cases hc : (decide (st.nCandidates > 0) && !st.bMatch)
    · exact ⟨st, by simp, h, hb⟩
    · have hp : p < K := by
        rw [hb] at hc
        simp only [Bool.not_false, Bool.and_true, decide_eq_true_eq] at hc
        rw [h.count] at hc
        have hpos : 0 < st.vbDiscarded.count false := by exact_mod_cast hc
        rw [List.count_pos_iff, List.mem_iff_getElem?] at hpos
        obtain ⟨i, hi⟩ := hpos
        have hlt : i < cands.length := by
          rw [← h.len]; exact lt_length_of_getElem?_eq_some _ _ _ hi
        obtain ⟨k, hk, hbk⟩ := hK i hlt
        by_contra hcon
        have := h.exhausted i k (by rw [hacc i hi]; omega) hbk
        rw [hi] at this
        exact absurd this (by simp)
      obtain ⟨st1, h1, hok, hb1, hacc1⟩ := ransacPass_noaccept env cands setup hs hno p
        setup.sortedMatches st (fun _ he => he) hs.nodup h (by
          intro i hi
          obtain ⟨_, ⟨m, hm⟩, _⟩ := hs.alive i (h.mono i hi)
          have : i ∈ setup.sortedMatches.map Prod.snd := List.mem_map_of_mem Prod.snd hm
          simp only [this, if_true]
          exact hacc i hi)
      simp only [if_true, h1, Outcome.bind]
      exact ih st1 (p + 1) hok (by rw [hb1, hb]) hacc1 (by omega)

theorem ComputeSim3_of_run (env : Sim3Collaborators) (s : LoopClosingInterRobot) (fuel : Nat)
    (st : RansacState)
    (hrun : ransacRun env s.mvpEnoughConsistentCandidates fuel = .done (st, true)) :
    ComputeSim3 env fuel s = .done (sim3Finish env s st) := by
  simp only [ComputeSim3, hrun, Outcome.bind, if_true]

theorem ComputeSim3_of_unfinished (env : Sim3Collaborators) (s : LoopClosingInterRobot)
    (fuel : Nat) (st : RansacState)
    (hrun : ransacRun env s.mvpEnoughConsistentCandidates fuel = .done (st, false)) :
    ComputeSim3 env fuel s = .running := by
  simp only [ComputeSim3, hrun, Outcome.bind, Bool.false_eq_true, if_false]

theorem sim3Finish_no_match (env : Sim3Collaborators) (s : LoopClosingInterRobot)
    (st : RansacState) (hb : st.bMatch = false) : sim3Finish env s st = (false, s) := by
  simp only [sim3Finish, hb, Bool.not_false, if_true]

theorem sim3Finish_match (env : Sim3Collaborators) (s : LoopClosingInterRobot)
    (st : RansacState) (a : AcceptedLoop) (hb : st.bMatch = true) (ha : st.accepted = some a) :
    (sim3Finish env s st).2.mpMatchedKF = some a.mpMatchedKF ∧
    (sim3Finish env s st).2.mg2oScw = a.mg2oScw ∧
    (sim3Finish env s st).2.mvpCurrentMatchedPoints =
      env.SearchByProjectionInterRobot (sim3Finish env s st).2.mScw
        (sim3Finish env s st).2.mvpLoopMapPoints a.mvpCurrentMatchedPoints ∧
    (sim3Finish env s st).1 =
      decide (nTotalMatches (sim3Finish env s st).2.mvpCurrentMatchedPoints ≥ 40) ∧
    (sim3Finish env s st).2.estimatedS_ = a.estimatedS_ ∧
    (sim3Finish env s st).2.matchedSymbol_ = a.matchedSymbol_ ∧
    (sim3Finish env s st).2.matchedIndex_ = a.matchedIndex_ := by
  simp only [sim3Finish, hb, ha, Bool.not_true, Bool.false_eq_true, if_false,
    LoopClosingInterRobot.record, and_self]

/-! ## Theorems on `ComputeSim3` -/

/-- C6: the code does not attempt the candidates in descending order of their initial match
count.  With two candidates, index `0` having 30 matches and index `1` having 20, the single
pass of the RANSAC loop calls `iterate` on candidate `1` first and on candidate `0` second:
`sortedMatches` is read from `begin()`, that is in ascending key order. -/
theorem ComputeSim3_iterates_fewest_matches_first :
    ((twoCandidates.SearchByBoWInterRobot 10).1 = 30 ∧
      (twoCandidates.SearchByBoWInterRobot 11).1 = 20) ∧
    (sim3Setup twoCandidates [10, 11]).sortedMatches = [(20, 1), (30, 0)] ∧
    ∃ st, ransacRun twoCandidates [10, 11] 1 = .done (st, true) ∧ st.iterated = [1, 0] :=
  ⟨by decide, by decide,
    { vbDiscarded := [true, true], nCandidates := 0, bMatch := false, iterated := [1, 0],
      accepted := none }, by decide, rfl⟩

/-- C7: after any number of passes of the RANSAC loop of `ComputeSim3` (no pass dereferences a
null solver), every candidate on which `iterate` was called is not bad, has at least 20
initial matches and has its own solver; a candidate that is bad or has fewer than 20 matches
is discarded by the setup and one with at least 20 is kept; and once a call of `iterate` on a
candidate reported `bNoMore`, no later call is made on that candidate. -/
theorem ComputeSim3_discarded_never_iterated (env : Sim3Collaborators)
    (cands : List KeyFrame) (fuel : Nat) :
    ∃ st fin, ransacRun env cands fuel = .done (st, fin) ∧
      (∀ i ∈ st.iterated, (sim3Setup env cands).vpSim3Solvers[i]? = some (some i) ∧
        ∃ k, cands[i]? = some k ∧ env.isBad k = false ∧
          (env.SearchByBoWInterRobot k).1 ≥ 20) ∧
      (∀ (i : Nat) (k : KeyFrame), cands[i]? = some k →
        (sim3Setup env cands).vbDiscarded[i]? =
          some (env.isBad k || decide ((env.SearchByBoWInterRobot k).1 < 20))) ∧
      (∀ (l1 l2 : List Nat) (i : Nat), st.iterated = l1 ++ i :: l2 →
        (env.iterate i (l1.count i)).bNoMore = true → i ∉ l2) := by
  obtain ⟨st, fin, hrun, hok, _⟩ := ransacRun_ok env cands fuel
  have hs := sim3Setup_ok env cands
  refine ⟨st, fin, hrun, ?_, ?_, ?_⟩
  · intro i hi
    obtain ⟨h1, _, h3⟩ := hs.alive i (hok.called i hi)
    exact ⟨h1, h3⟩
  · intro i k hk
    cases hbad : env.isBad k
    · by_cases hlt : (env.SearchByBoWInterRobot k).1 < 20
      · simpa [hlt] using hs.dead i k hk (Or.inr hlt)
      · simpa [hlt] using hs.kept i k hk hbad (not_lt.1 hlt)
    · simpa using hs.dead i k hk (Or.inl hbad)
  · intro l1 l2 i hsplit hb hmem
    have hcount : l1.count i + 1 < st.iterated.count i := by
      rw [hsplit, List.count_append, List.count_cons_self]
      have : 0 < l2.count i := List.count_pos_iff.2 hmem
      omega
    rw [hok.last i (l1.count i) hcount] at hb
    exact absurd hb (by simp)

/-- C7, at a concrete input: with the two candidates of `twoCandidates`, whose solvers report
`bNoMore` at their first call, the statement holds for the state after up to five passes. -/
theorem ComputeSim3_discarded_never_iterated_witness :
    ∃ st fin, ransacRun twoCandidates [10, 11] 5 = .done (st, fin) ∧
      (∀ i ∈ st.iterated, (sim3Setup twoCandidates [10, 11]).vpSim3Solvers[i]? = some (some i) ∧
        ∃ k, ([10, 11] : List KeyFrame)[i]? = some k ∧ twoCandidates.isBad k = false ∧
          (twoCandidates.SearchByBoWInterRobot k).1 ≥ 20) ∧
      (∀ (i : Nat) (k : KeyFrame), ([10, 11] : List KeyFrame)[i]? = some k →
        (sim3Setup twoCandidates [10, 11]).vbDiscarded[i]? =
          some (twoCandidates.isBad k ||
            decide ((twoCandidates.SearchByBoWInterRobot k).1 < 20))) ∧
      (∀ (l1 l2 : List Nat) (i : Nat), st.iterated = l1 ++ i :: l2 →
        (twoCandidates.iterate i (l1.count i)).bNoMore = true → i ∉ l2) :=
  ComputeSim3_discarded_never_iterated twoCandidates [10, 11] 5

/-- C8: `ComputeSim3` records a matched keyframe only for a hypothesis whose refinement
returned at least 20 inliers.  A call either is still in its RANSAC loop, or returns `false`
with the coordinator unchanged, or returns with `mpMatchedKF`, `mg2oScw` and
`mvpCurrentMatchedPoints` written for a candidate `i` and a call `k` of its solver whose
refinement reported at least 20 inliers.  If no refinement reaches 20 inliers and every
solver reports its budget exhausted within its first `K` calls, the call returns `false`
within `K` passes.  With one candidate, an optimizer result of 19 is rejected and a result
of 20 is accepted. -/
theorem ComputeSim3_accepts_only_20_inliers (env : Sim3Collaborators)
    (s : LoopClosingInterRobot) :
    (∀ fuel, ComputeSim3 env fuel s = .running ∨ ComputeSim3 env fuel s = .done (false, s) ∨
      ∃ i k opt b s',
        refine env s.mvpEnoughConsistentCandidates
          (sim3Setup env s.mvpEnoughConsistentCandidates) i (env.iterate i k) = some opt ∧
        opt.1 ≥ 20 ∧
        ComputeSim3 env fuel s = .done (b, s') ∧
        s'.mpMatchedKF = some (s.mvpEnoughConsistentCandidates.getD i 0) ∧
        s'.mg2oScw = env.mulSim3 opt.2.1
          (env.GetPoseSim3 (s.mvpEnoughConsistentCandidates.getD i 0)) ∧
        s'.mvpCurrentMatchedPoints =
          env.SearchByProjectionInterRobot s'.mScw s'.mvpLoopMapPoints opt.2.2) ∧
    (∀ K : Nat,
      (∀ i k opt, refine env s.mvpEnoughConsistentCandidates
          (sim3Setup env s.mvpEnoughConsistentCandidates) i (env.iterate i k) = some opt →
        opt.1 < 20) →
      (∀ i, i < s.mvpEnoughConsistentCandidates.length →
        ∃ k, k < K ∧ (env.iterate i k).bNoMore = true) →
      ∀ fuel, K ≤ fuel → ComputeSim3 env fuel s = .done (false, s)) ∧
    ComputeSim3 (oneCandidate 19 40) 1 (exampleCoordinator 0 [10])
      = .done (false, exampleCoordinator 0 [10]) ∧
    (∃ s', ComputeSim3 (oneCandidate 20 40) 1 (exampleCoordinator 0 [10]) = .done (true, s') ∧
      s'.mpMatchedKF = some 10) := by
  refine ⟨?_, ?_, rfl, ⟨_, rfl, rfl⟩⟩
  · intro fuel
    obtain ⟨st, fin, hrun, hok, _⟩ := ransacRun_ok env s.mvpEnoughConsistentCandidates fuel
    cases fin
    · left
      exact ComputeSim3_of_unfinished env s fuel st hrun
    · right
      cases hb : st.bMatch
      · left
        rw [ComputeSim3_of_run env s fuel st hrun, sim3Finish_no_match env s st hb]
      · right
        have hsome := hok.flag.1 hb
        cases ha : st.accepted with
        | none => rw [ha] at hsome; exact absurd hsome (by simp)
        | some a =>
          obtain ⟨i, k, opt, _, hopt, h20, hacc⟩ := hok.accepted a ha
          obtain ⟨m1, m2, m3, _⟩ := sim3Finish_match env s st a hb ha
          refine ⟨i, k, opt, (sim3Finish env s st).1, (sim3Finish env s st).2, hopt, h20,
            ComputeSim3_of_run env s fuel st hrun, ?_, ?_, ?_⟩
          · rw [m1, hacc]; rfl
          · rw [m2, hacc]; rfl
          · rw [m3, hacc]; rfl
  · intro K hno hK fuel hfuel
    obtain ⟨st, hrun, _, hb⟩ := ransacLoop_terminates env s.mvpEnoughConsistentCandidates _
      (sim3Setup_ok env _) hno K hK fuel _ 0
      (ransacInit_ok env _ _ (sim3Setup_ok env _)) rfl
      (fun i _ => by simp [ransacInit]) (by omega)
    rw [ComputeSim3_of_run env s fuel st hrun, sim3Finish_no_match env s st hb]

/-- C8, at a concrete input: one candidate whose refinement reports 19 inliers and whose
solver is exhausted after its first call; `ComputeSim3` returns `false` for every fuel from
`1` on. -/
theorem ComputeSim3_accepts_only_20_inliers_witness :
    ComputeSim3 (oneCandidate 19 40) 3 (exampleCoordinator 0 [10])
      = .done (false, exampleCoordinator 0 [10]) :=
  (ComputeSim3_accepts_only_20_inliers (oneCandidate 19 40) (exampleCoordinator 0 [10])).2.1 1
    (by
      intro i k opt h
      simp only [refine, oneCandidate, exampleCollaborators, hypothesisResult,
        Option.some.injEq] at h
      rw [← h]
      exact (by decide : (19 : Int) < 20))
    (fun _ _ => ⟨0, by decide, rfl⟩) 3 (by decide)

/-- C9: once the RANSAC loop of `ComputeSim3` has ended the call returns, and it returns
`true` exactly when a hypothesis was accepted (`bMatch`) and the number of non-null entries of
`mvpCurrentMatchedPoints` after the projection search is at least 40; with an accepted
hypothesis, 39 matched points give `false` and 40 give `true`. -/
theorem ComputeSim3_true_iff_40_matches (env : Sim3Collaborators)
    (s : LoopClosingInterRobot) (fuel : Nat) :
    ((ComputeSim3 env fuel s = .running ∧
        ∃ st, ransacRun env s.mvpEnoughConsistentCandidates fuel = .done (st, false)) ∨
      (∃ st b s', ransacRun env s.mvpEnoughConsistentCandidates fuel = .done (st, true) ∧
        ComputeSim3 env fuel s = .done (b, s') ∧
        (b = true ↔ st.bMatch = true ∧ nTotalMatches s'.mvpCurrentMatchedPoints ≥ 40))) ∧
    (∃ s', ComputeSim3 (oneCandidate 20 39) 1 (exampleCoordinator 0 [10]) = .done (false, s') ∧
      s'.mpMatchedKF = some 10 ∧ nTotalMatches s'.mvpCurrentMatchedPoints = 39) ∧
    (∃ s', ComputeSim3 (oneCandidate 20 40) 1 (exampleCoordinator 0 [10]) = .done (true, s') ∧
      s'.mpMatchedKF = some 10 ∧ nTotalMatches s'.mvpCurrentMatchedPoints = 40) := by
  refine ⟨?_, ⟨_, rfl, rfl, by decide⟩, ⟨_, rfl, rfl, by decide⟩⟩
  obtain ⟨st, fin, hrun, hok, _⟩ := ransacRun_ok env s.mvpEnoughConsistentCandidates fuel
  cases fin
  · left
    exact ⟨ComputeSim3_of_unfinished env s fuel st hrun, st, hrun⟩
  · right
    cases hb : st.bMatch
    · refine ⟨st, false, s, hrun, ?_, by simp [hb]⟩
      rw [ComputeSim3_of_run env s fuel st hrun, sim3Finish_no_match env s st hb]
    · have hsome := hok.flag.1 hb
      cases ha : st.accepted with
      | none => rw [ha] at hsome; exact absurd hsome (by simp)
      | some a =>
        obtain ⟨_, _, _, m4, _⟩ := sim3Finish_match env s st a hb ha
        refine ⟨st, (sim3Finish env s st).1, (sim3Finish env s st).2, hrun,
          ComputeSim3_of_run env s fuel st hrun, ?_⟩
        rw [m4]
        simp [hb]

/-- C9, at a concrete input: one candidate whose refinement reports 20 inliers; the loop ends
in the first pass and the call returns. -/
theorem ComputeSim3_true_iff_40_matches_witness :
    ∃ st b s', ransacRun (oneCandidate 20 40) [10] 1 = .done (st, true) ∧
      ComputeSim3 (oneCandidate 20 40) 1 (exampleCoordinator 0 [10]) = .done (b, s') ∧
      (b = true ↔ st.bMatch = true ∧ nTotalMatches s'.mvpCurrentMatchedPoints ≥ 40) :=
  ((ComputeSim3_true_iff_40_matches (oneCandidate 20 40) (exampleCoordinator 0 [10]) 1).1).resolve_left
    (fun h => Outcome.noConfusion h.1)

/-! ## Lemmas on `Match` and `Subscribe` -/

theorem Outcome.at_of_lt {α : Type} (v : List α) (i : Nat) (h : i < v.length) :
    Outcome.at v i = .done v[i] := by
  simp [Outcome.at, List.getElem?_eq_getElem h]

theorem Outcome.at_of_ge {α : Type} (v : List α) (i : Nat) (h : v.length ≤ i) :
    Outcome.at v i = .outOfRange := by
  simp [Outcome.at, List.getElem?_eq_none h]

theorem Outcome.row_of_lt (m : List (List Nat)) (i : Nat) (h : i < m.length) :
    Outcome.row m i = .done m[i] := by
  simp [Outcome.row, List.getElem?_eq_getElem h]

theorem Outcome.forRange_succ {σ : Type} (n : Nat) (body : σ → Nat → Outcome σ) (init : σ) :
    Outcome.forRange (n + 1) body init =
      (Outcome.forRange n body init).bind fun st => body st n := by
  simp [Outcome.forRange, List.range_succ, List.foldl_append]

/-- A counted loop whose body returns at every index below the bound returns. -/
theorem Outcome.forRange_done {σ : Type} (n : Nat) (body : σ → Nat → Outcome σ) (init : σ)
    (h : ∀ st i, i < n → ∃ st', body st i = .done st') :
    ∃ r, Outcome.forRange n body init = .done r := by
  induction n with
  | zero => exact ⟨init, rfl⟩
  | succ n ih =>
    obtain ⟨r, hr⟩ := ih (fun st i hi => h st i (Nat.lt_succ_of_lt hi))
    obtain ⟨r', hr'⟩ := h r n (Nat.lt_succ_self n)
    exact ⟨r', by rw [Outcome.forRange_succ, hr]; exact hr'⟩

/-- A counted loop whose body returns below index `j` and throws at index `j` throws. -/
theorem Outcome.forRange_outOfRange {σ : Type} (n j : Nat) (body : σ → Nat → Outcome σ)
    (init : σ) (hj : j < n) (hbefore : ∀ st i, i < j → ∃ st', body st i = .done st')
    (hat : ∀ st, body st j = .outOfRange) :
    Outcome.forRange n body init = .outOfRange := by
  induction n with
  | zero => omega
  | succ n ih =>
    rw [Outcome.forRange_succ]
    rcases Nat.lt_succ_iff_lt_or_eq.1 hj with h | h
    · rw [ih h]; rfl
    · subst h
      obtain ⟨r, hr⟩ := Outcome.forRange_done j body init hbefore
      rw [hr]
      exact hat r

theorem decodeBowVec_done (keyframe : Keyframe)
    (h : keyframe.wordIds.length ≤ keyframe.wordValues.length) :
    ∃ r, decodeBowVec keyframe = .done r := by
  apply Outcome.forRange_done
  intro st i hi
  rw [Outcome.at_of_lt _ _ hi, Outcome.at_of_lt _ _ (lt_of_lt_of_le hi h)]
  exact ⟨_, rfl⟩

theorem decodeBowVec_outOfRange (keyframe : Keyframe)
    (h : keyframe.wordValues.length < keyframe.wordIds.length) :
    decodeBowVec keyframe = .outOfRange := by
  apply Outcome.forRange_outOfRange _ keyframe.wordValues.length _ _ h
  · intro st i hi
    rw [Outcome.at_of_lt _ _ (lt_trans hi h), Outcome.at_of_lt _ _ hi]
    exact ⟨_, rfl⟩
  · intro st
    rw [Outcome.at_of_lt _ _ h, Outcome.at_of_ge _ _ (le_refl _)]
    rfl

theorem decodeFeatVec_done (keyframe : Keyframe)
    (h : keyframe.nodeIds.length ≤ keyframe.indicesVec.length) :
    ∃ r, decodeFeatVec keyframe = .done r := by
  apply Outcome.forRange_done
  intro st i hi
  rw [Outcome.at_of_lt _ _ hi, Outcome.at_of_lt _ _ (lt_of_lt_of_le hi h)]
  simp only [Outcome.bind]
  apply Outcome.forRange_done
  intro fv j hj
  rw [Outcome.at_of_lt _ _ hj]
  exact ⟨_, rfl⟩

theorem decodePointColumns_done (keyframe : Keyframe)
    (h1 : keyframe.indices.length ≤ keyframe.maxDistInvariance.length)
    (h2 : keyframe.indices.length ≤ keyframe.minDistInvariance.length)
    (h3 : keyframe.indices.length ≤ keyframe.pointDesc.length) :
    ∃ r, decodePointColumns keyframe = .done r := by
  apply Outcome.forRange_done
  intro st i hi
  rw [Outcome.at_of_lt _ _ hi, Outcome.at_of_lt _ _ (lt_of_lt_of_le hi h1),
    Outcome.at_of_lt _ _ (lt_of_lt_of_le hi h2), Outcome.row_of_lt _ _ (lt_of_lt_of_le hi h3)]
  exact ⟨_, rfl⟩

theorem decodeWorldPoints_done (keyframe : Keyframe)
    (h : 3 * keyframe.nrMapPoints.toNat ≤ keyframe.worldPoints.length) :
    ∃ r, decodeWorldPoints keyframe = .done r := by
  apply Outcome.forRange_done
  intro st i hi
  obtain ⟨r, hr⟩ := Outcome.forRange_done 3 (fun worldPoint dim =>
      (Outcome.at keyframe.worldPoints (i * 3 + dim)).bind fun v =>
        (.done (worldPoint ++ [v]) : Outcome (List ℚ))) [] (by
    intro wp dim hdim
    have hlt : i * 3 + dim < keyframe.worldPoints.length := by omega
    exact ⟨wp ++ [keyframe.worldPoints[i * 3 + dim]], by
      show (Outcome.at keyframe.worldPoints (i * 3 + dim)).bind _ = _
      rw [Outcome.at_of_lt _ _ hlt]
      rfl⟩)
  rw [hr]
  exact ⟨_, rfl⟩

theorem decodeMat_done (v : List ℚ) (rows cols : Nat) (h : rows * cols ≤ v.length) :
    ∃ r, decodeMat v rows cols = .done r := by
  apply Outcome.forRange_done
  intro st i hi
  apply Outcome.forRange_done
  intro m j hj
  have : i * cols + j < v.length := by
    have h1 : (i + 1) * cols ≤ rows * cols := Nat.mul_le_mul_right _ hi
    have h2 : (i + 1) * cols = i * cols + cols := by ring
    omega
  rw [Outcome.at_of_lt _ _ this]
  exact ⟨_, rfl⟩

theorem decodeSim3Args_done (keyframe : Keyframe)
    (h2 : keyframe.nodeIds.length ≤ keyframe.indicesVec.length)
    (h3 : keyframe.indices.length ≤ keyframe.maxDistInvariance.length)
    (h4 : keyframe.indices.length ≤ keyframe.minDistInvariance.length)
    (h5 : keyframe.indices.length ≤ keyframe.pointDesc.length)
    (h6 : 3 * keyframe.nrMapPoints.toNat ≤ keyframe.worldPoints.length)
    (h7 : 12 ≤ keyframe.pose.length) (h8 : 9 ≤ keyframe.K.length) :
    ∃ r, decodeSim3Args keyframe = .done r := by
  obtain ⟨r1, e1⟩ := decodeFeatVec_done keyframe h2
  obtain ⟨r2, e2⟩ := decodePointColumns_done keyframe h3 h4 h5
  obtain ⟨r3, e3⟩ := decodeWorldPoints_done keyframe h6
  obtain ⟨r4, e4⟩ := decodeMat_done keyframe.pose 3 4 h7
  obtain ⟨r5, e5⟩ := decodeMat_done keyframe.K 3 3 h8
  simp only [decodeSim3Args, e1, e2, e3, e4, e5, Outcome.bind]
  exact ⟨_, rfl⟩

theorem ComputeSim3_outcome (env : Sim3Collaborators) (s : LoopClosingInterRobot)
    (fuel : Nat) :
    ComputeSim3 env fuel s = .running ∨
      ∃ st, ComputeSim3 env fuel s = .done (sim3Finish env s st) := by
  obtain ⟨st, fin, hrun, _⟩ := ransacRun_ok env s.mvpEnoughConsistentCandidates fuel
  cases fin
  · exact Or.inl (ComputeSim3_of_unfinished env s fuel st hrun)
  · exact Or.inr ⟨st, ComputeSim3_of_run env s fuel st hrun⟩

theorem sim3Finish_keyframes (env : Sim3Collaborators) (s : LoopClosingInterRobot)
    (st : RansacState) :
    (sim3Finish env s st).2.keyframes_ = s.keyframes_ ∧
      (sim3Finish env s st).2.robotID_ = s.robotID_ := by
  unfold sim3Finish
  split
  · exact ⟨rfl, rfl⟩
  · split <;> exact ⟨rfl, rfl⟩

theorem Match_keyframes (env : Collaborators) (fuel : Nat) (keyframe : Keyframe)
    (s : LoopClosingInterRobot) (b : Bool) (s' : LoopClosingInterRobot)
    (h : Match env fuel keyframe s = .done (b, s')) :
    s'.keyframes_ = s.keyframes_ ∧ s'.robotID_ = s.robotID_ := by
  unfold Match at h
  cases hbow : decodeBowVec keyframe with
  | done bow =>
    rw [hbow] at h
    simp only [Outcome.bind] at h
    split at h
    · cases hargs : decodeSim3Args keyframe with
      | done args =>
        rw [hargs] at h
        simp only [Outcome.bind] at h
        rcases ComputeSim3_outcome (env.sim3 args) _ fuel with hc | ⟨st, hc⟩
        · rw [hc] at h
          exact Outcome.noConfusion h
        · rw [hc] at h
          simp only [Outcome.bind] at h
          have hk := sim3Finish_keyframes (env.sim3 args)
            { s with toDetectState := (DetectLoop
              (env.DetectLoopCandidatesInterRobot bow keyframe.symbolIndex keyframe.minScore)
              env.GetConnectedKeyFrames s.toDetectState).2 } st
          split at h
          · injection h with h
            injection h with _ h
            rw [← h]
            exact hk
          · injection h with h
            injection h with _ h
            rw [← h]
            exact hk
      | nullSolver => rw [hargs] at h; exact Outcome.noConfusion h
      | outOfRange => rw [hargs] at h; exact Outcome.noConfusion h
      | badRow => rw [hargs] at h; exact Outcome.noConfusion h
      | running => rw [hargs] at h; exact Outcome.noConfusion h
    · injection h with h
      injection h with _ h
      rw [← h]
      exact ⟨rfl, rfl⟩
  | nullSolver => rw [hbow] at h; exact Outcome.noConfusion h
  | outOfRange => rw [hbow] at h; exact Outcome.noConfusion h
  | badRow => rw [hbow] at h; exact Outcome.noConfusion h
  | running => rw [hbow] at h; exact Outcome.noConfusion h

theorem bufferKeyframe_lookup (keyframe : Keyframe) (m : Int → Option (List Keyframe)) :
    bufferKeyframe keyframe m keyframe.robotID =
      some ((m keyframe.robotID).getD [] ++ [keyframe]) := by
  unfold bufferKeyframe
  cases h : m keyframe.robotID <;> simp

theorem bufferKeyframe_other (keyframe : Keyframe) (m : Int → Option (List Keyframe))
    (robotID : Int) (h : robotID ≠ keyframe.robotID) :
    bufferKeyframe keyframe m robotID = m robotID := by
  unfold bufferKeyframe
  cases m keyframe.robotID <;> simp [Function.update, h]

theorem bufferKeyframe_ne (keyframe : Keyframe) (m : Int → Option (List Keyframe)) :
    bufferKeyframe keyframe m ≠ m := by
  intro h
  have h1 := bufferKeyframe_lookup keyframe m
  rw [h] at h1
  cases hl : m keyframe.robotID with
  | none => rw [hl] at h1; exact absurd h1 (by simp)
  | some v =>
    rw [hl] at h1
    simp only [Option.getD_some, Option.some.injEq] at h1
    have := congrArg List.length h1
    simp at this

/-! ## Theorems on `Match` and `Subscribe` -/

/-- C1: `Subscribe` processes a received keyframe message exactly when the message's
`robotID` is strictly greater than the local `robotID_`: then it appends the message to the
sender's buffer in `keyframes_` and calls `Match` on it; otherwise it returns with the state
unchanged.  Whenever `Subscribe` returns, the state is unchanged exactly when the message was
not accepted.  Hence for robot identifiers `A < B` a message from `A` leaves `B` unchanged
and a message from `B` is processed by `A`, and for distinct identifiers exactly one of the
two robots processes the other's messages. -/
theorem Subscribe_precedence (env : Collaborators) (fuel : Nat) (keyframe : Keyframe)
    (s : LoopClosingInterRobot) :
    (keyframe.robotID > s.robotID_ →
      Subscribe env fuel keyframe s =
        (Match env fuel keyframe
          { s with keyframes_ := bufferKeyframe keyframe s.keyframes_ }).bind
          fun r => .done r.2) ∧
    (¬ keyframe.robotID > s.robotID_ → Subscribe env fuel keyframe s = .done s) ∧
    (∀ s', Subscribe env fuel keyframe s = .done s' →
      (keyframe.robotID > s.robotID_ →
        s'.keyframes_ keyframe.robotID =
          some ((s.keyframes_ keyframe.robotID).getD [] ++ [keyframe]) ∧
        ∀ robotID, robotID ≠ keyframe.robotID → s'.keyframes_ robotID = s.keyframes_ robotID) ∧
      (s' = s ↔ ¬ keyframe.robotID > s.robotID_)) ∧
    (∀ (sA sB : LoopClosingInterRobot) (kA kB : Keyframe),
      kA.robotID = sA.robotID_ → kB.robotID = sB.robotID_ →
      (sA.robotID_ < sB.robotID_ →
        Subscribe env fuel kA sB = .done sB ∧
        Subscribe env fuel kB sA =
          (Match env fuel kB { sA with keyframes_ := bufferKeyframe kB sA.keyframes_ }).bind
            fun r => .done r.2) ∧
      (sA.robotID_ ≠ sB.robotID_ →
        Xor' (kB.robotID > sA.robotID_) (kA.robotID > sB.robotID_))) := by
  have hacc : ∀ (k : Keyframe) (t : LoopClosingInterRobot), k.robotID > t.robotID_ →
      Subscribe env fuel k t =
        (Match env fuel k { t with keyframes_ := bufferKeyframe k t.keyframes_ }).bind
          fun r => .done r.2 := by
    intro k t h
    simp only [Subscribe, h, if_true]
  have hrej : ∀ (k : Keyframe) (t : LoopClosingInterRobot), ¬ k.robotID > t.robotID_ →
      Subscribe env fuel k t = .done t := by
    intro k t h
    simp only [Subscribe, h, if_false]
  refine ⟨hacc keyframe s, hrej keyframe s, ?_, ?_⟩
  · intro s' hs'
    by_cases hgt : keyframe.robotID > s.robotID_
    · rw [hacc keyframe s hgt] at hs'
      cases hm : Match env fuel keyframe
          { s with keyframes_ := bufferKeyframe keyframe s.keyframes_ } with
      | done r =>
        rw [hm] at hs'
        simp only [Outcome.bind] at hs'
        injection hs' with hs'
        obtain ⟨b, t⟩ := r
        have hk := (Match_keyframes env fuel keyframe _ b t hm).1
        simp only at hs'
        subst hs'
        refine ⟨fun _ => ?_, ?_⟩
        · rw [hk]
          exact ⟨bufferKeyframe_lookup keyframe s.keyframes_,
            bufferKeyframe_other keyframe s.keyframes_⟩
        · constructor
          · intro heq
            rw [heq] at hk
            exact absurd hk.symm (bufferKeyframe_ne keyframe s.keyframes_)
          · intro hn
            exact absurd hgt hn
      | nullSolver => rw [hm] at hs'; exact Outcome.noConfusion hs'
      | outOfRange => rw [hm] at hs'; exact Outcome.noConfusion hs'
      | badRow => rw [hm] at hs'; exact Outcome.noConfusion hs'
      | running => rw [hm] at hs'; exact Outcome.noConfusion hs'
    · rw [hrej keyframe s hgt] at hs'
      injection hs' with hs'
      exact ⟨fun h => absurd h hgt, fun _ => hgt, fun _ => hs'.symm⟩
  · intro sA sB kA kB hA hB
    refine ⟨fun hlt => ⟨hrej kA sB (by rw [hA]; omega), hacc kB sA (by rw [hB]; omega)⟩,
      fun hne => ?_⟩
    rw [hA, hB]
    rcases lt_or_gt_of_ne hne with h | h
    · exact Or.inl ⟨h, by omega⟩
    · exact Or.inr ⟨h, by omega⟩

/-- C1, at a concrete input: robot `0` receives the message of robot `1` and buffers it;
robot `1` leaves the message of robot `0` alone. -/
theorem Subscribe_precedence_witness :
    Subscribe (exampleMatchCollaborators pathGraph) 1 (emptyKeyframe 0)
        (exampleCoordinator 1 []) = .done (exampleCoordinator 1 []) ∧
    Subscribe (exampleMatchCollaborators pathGraph) 1 (emptyKeyframe 1)
        (exampleCoordinator 0 []) =
      (Match (exampleMatchCollaborators pathGraph) 1 (emptyKeyframe 1)
        { exampleCoordinator 0 [] with
            keyframes_ := bufferKeyframe (emptyKeyframe 1) (exampleCoordinator 0 []).keyframes_ }).bind
        fun r => .done r.2 :=
  ((Subscribe_precedence (exampleMatchCollaborators pathGraph) 1 (emptyKeyframe 1)
      (exampleCoordinator 0 [])).2.2.2 (exampleCoordinator 0 []) (exampleCoordinator 1 [])
      (emptyKeyframe 0) (emptyKeyframe 1) rfl rfl).1 (by decide)

/-- C10, as the claim states it, fails: for a message with one word id and no word value the
first checked read `wordValues.at(0)` of `Match` throws `std::out_of_range`. -/
theorem Match_truncated_throws :
    truncatedKeyframe.wordValues.length < truncatedKeyframe.wordIds.length ∧
    Match (exampleMatchCollaborators pathGraph) 1 truncatedKeyframe (exampleCoordinator 0 [])
      = .outOfRange :=
  ⟨by decide, rfl⟩

/-- C10 (amended): `Match` has no validation of the message and no exception handler.  A
message whose `wordValues` is shorter than `wordIds` makes it throw `std::out_of_range` before
`DetectLoop` is called.  A message whose `wordValues` is long enough is dropped, `Match`
returning `false`, when `DetectLoop` reports no loop, whatever the lengths of its other
arrays.  When moreover `indicesVec` is at least as long as `nodeIds`, `maxDistInvariance`,
`minDistInvariance` and the rows of `pointDesc` at least as many as `indices`, `worldPoints` has
at least `3 * nrMapPoints` entries, `pose` at least 12 and `K` at least 9, `Match` raises no
out-of-range error and dereferences no null solver: it returns, or is still in the RANSAC
loop of `ComputeSim3`. -/
theorem Match_out_of_range (env : Collaborators) (fuel : Nat) (keyframe : Keyframe)
    (s : LoopClosingInterRobot) :
    (keyframe.wordValues.length < keyframe.wordIds.length →
      Match env fuel keyframe s = .outOfRange) ∧
    (∀ mBowVec, decodeBowVec keyframe = .done mBowVec →
      (DetectLoop
        (env.DetectLoopCandidatesInterRobot mBowVec keyframe.symbolIndex keyframe.minScore)
        env.GetConnectedKeyFrames s.toDetectState).1 = false →
      ∃ s', Match env fuel keyframe s = .done (false, s')) ∧
    (keyframe.wordIds.length ≤ keyframe.wordValues.length →
      keyframe.nodeIds.length ≤ keyframe.indicesVec.length →
      keyframe.indices.length ≤ keyframe.maxDistInvariance.length →
      keyframe.indices.length ≤ keyframe.minDistInvariance.length →
      keyframe.indices.length ≤ keyframe.pointDesc.length →
      3 * keyframe.nrMapPoints.toNat ≤ keyframe.worldPoints.length →
      12 ≤ keyframe.pose.length → 9 ≤ keyframe.K.length →
      Match env fuel keyframe s = .running ∨
        ∃ b s', Match env fuel keyframe s = .done (b, s')) := by
  refine ⟨fun h => ?_, fun bow hbow hd => ?_, fun h1 h2 h3 h4 h5 h6 h7 h8 => ?_⟩
  · simp only [Match, decodeBowVec_outOfRange keyframe h, Outcome.bind]
  · have hm : Match env fuel keyframe s = .done (false, { s with toDetectState := (DetectLoop
        (env.DetectLoopCandidatesInterRobot bow keyframe.symbolIndex keyframe.minScore)
        env.GetConnectedKeyFrames s.toDetectState).2 }) := by
      simp only [Match, hbow, Outcome.bind, hd, Bool.false_eq_true, if_false]
    exact ⟨_, hm⟩
  · obtain ⟨bow, hbow⟩ := decodeBowVec_done keyframe h1
    obtain ⟨args, hargs⟩ := decodeSim3Args_done keyframe h2 h3 h4 h5 h6 h7 h8
    simp only [Match, hbow, hargs, Outcome.bind]
    split
    · rcases ComputeSim3_outcome (env.sim3 args) _ fuel with hc | ⟨st, hc⟩
      · left
        rw [hc]
      · right
        rw [hc]
        simp only [Outcome.bind]
        split
        · exact ⟨_, _, rfl⟩
        · exact ⟨_, _, rfl⟩
    · right
      exact ⟨_, _, rfl⟩

/-- C10 (amended), at a concrete input: the message with empty arrays and full `pose` and `K`
raises no error. -/
theorem Match_out_of_range_witness :
    Match (exampleMatchCollaborators pathGraph) 1 (emptyKeyframe 1) (exampleCoordinator 0 [])
        = .running ∨
      ∃ b s', Match (exampleMatchCollaborators pathGraph) 1 (emptyKeyframe 1)
        (exampleCoordinator 0 []) = .done (b, s') :=
  (Match_out_of_range (exampleMatchCollaborators pathGraph) 1 (emptyKeyframe 1)
    (exampleCoordinator 0 [])).2.2 (by decide) (by decide) (by decide) (by decide) (by decide)
    (by decide) (by decide) (by decide)

/-! ## Lemmas on the order of attempts in `ComputeSim3` -/

theorem allRejected_nil (env : Sim3Collaborators) (cands : List KeyFrame) (setup : Sim3Setup) :
    AllRejected env cands setup [] := by
  intro l1 l2 i h
  exact absurd h (by simp)

theorem allRejected_snoc (env : Sim3Collaborators) (cands : List KeyFrame) (setup : Sim3Setup)
    (l : List Nat) (i : Nat) (h : AllRejected env cands setup l)
    (hi : ∀ opt, refine env cands setup i (env.iterate i (l.count i)) = some opt → opt.1 < 20) :
    AllRejected env cands setup (l ++ [i]) := by
  intro l1 l2 j hsplit opt hopt
  rcases List.eq_nil_or_concat l2 with h2 | ⟨l2', x, h2⟩
  · subst h2
    have := List.append_inj' hsplit (by simp)
    obtain ⟨h3, h4⟩ := this
    simp only [List.cons.injEq, and_true] at h4
    subst h3; subst h4
    exact hi opt hopt
  · subst h2
    have h3 : l ++ [i] = (l1 ++ j :: l2') ++ [x] := by
      rw [hsplit]; simp
    have := List.append_inj' h3 (by simp)
    exact h l1 l2' j this.1 opt hopt

theorem firstWins_init (env : Sim3Collaborators) (cands : List KeyFrame) (setup : Sim3Setup) :
    FirstWins env cands setup (ransacInit setup) where
  rejected := fun _ => allRejected_nil env cands setup
  won := by intro h; simp [ransacInit] at h

/-- A visit made while `bMatch` is not set keeps the invariant; when it ends the pass the
flag is set, otherwise the flag stays clear. -/
theorem ransacVisit_firstWins (env : Sim3Collaborators) (cands : List KeyFrame)
    (setup : Sim3Setup) (st : RansacState) (i : Nat) (hs : SetupOK env cands setup)
    (h : RansacOK env cands setup st) (hi : i < cands.length)
    (hf : FirstWins env cands setup st) (hb : st.bMatch = false) :
    ∃ st' b, ransacVisit env cands setup st i = .done (st', b) ∧
      RansacOK env cands setup st' ∧ FirstWins env cands setup st' ∧ st'.bMatch = b := by
  rcases ransacVisit_spec env cands setup st i hs h hi with
    ⟨_, hv⟩ | ⟨halive, ⟨opt, ho, h20, hv⟩ | ⟨hrej, hv⟩⟩
  · exact ⟨st, false, hv, h, hf, hb⟩
  · refine ⟨_, true, hv, ?_, ?_, rfl⟩
    · apply accept_ok env cands setup _ i (st.iterated.count i) opt
        (afterIterate_ok env cands setup st i h halive) _ ho h20
      rw [afterIterate_iterated, List.count_append, List.count_singleton]
      simp
    · refine ⟨fun hc => absurd hc (by simp), fun _ => ?_⟩
      exact ⟨st.iterated, i, opt, afterIterate_iterated _ _ _ _, ho, h20, rfl, hf.rejected hb⟩
  · refine ⟨_, false, hv, afterIterate_ok env cands setup st i h halive, ?_,
      by rw [(afterIterate_bMatch _ _ _ _).1, hb]⟩
    refine ⟨fun _ => ?_, fun hc => ?_⟩
    · rw [afterIterate_iterated]
      exact allRejected_snoc env cands setup _ _ (hf.rejected hb) hrej
    · rw [(afterIterate_bMatch _ _ _ _).1, hb] at hc
      exact absurd hc (by simp)

theorem ransacPass_firstWins (env : Sim3Collaborators) (cands : List KeyFrame)
    (setup : Sim3Setup) (hs : SetupOK env cands setup) (rest : List (Int × Nat)) :
    ∀ st : RansacState, (∀ e ∈ rest, e ∈ setup.sortedMatches) → RansacOK env cands setup st →
      FirstWins env cands setup st → st.bMatch = false →
      ∃ st', ransacPass env cands setup rest st = .done st' ∧ RansacOK env cands setup st' ∧
        FirstWins env cands setup st' := by
  induction rest with
  | nil => intro st _ h hf _; exact ⟨st, rfl, h, hf⟩
  | cons e rest ih =>
    intro st hsub h hf hb
    obtain ⟨m, i⟩ := e
    have hi : i < cands.length :=
      entry_lt env cands setup hs (m, i) (hsub _ (List.mem_cons_self _ _))
    obtain ⟨st1, b, hv, hok, hf1, hb1⟩ := ransacVisit_firstWins env cands setup st i hs h hi hf hb
    cases b
    · simp only [ransacPass, hv, Outcome.bind, Bool.false_eq_true, if_false]
      exact ih st1 (fun e he => hsub e (List.mem_cons_of_mem _ he)) hok hf1 hb1
    · exact ⟨st1, by simp only [ransacPass, hv, Outcome.bind, if_true], hok, hf1⟩

theorem ransacLoop_firstWins (env : Sim3Collaborators) (cands : List KeyFrame)
    (setup : Sim3Setup) (hs : SetupOK env cands setup) (fuel : Nat) :
    ∀ st : RansacState, RansacOK env cands setup st → FirstWins env cands setup st →
      ∃ st' fin, ransacLoop env cands setup fuel st = .done (st', fin) ∧
        RansacOK env cands setup st' ∧ FirstWins env cands setup st' ∧
        (st'.bMatch = true → fin = true) := by
  induction fuel with
  | zero =>
    intro st h hf
    unfold ransacLoop
    cases hc : (decide (st.nCandidates > 0) && !st.bMatch)
    · exact ⟨st, true, by simp, h, hf, fun _ => rfl⟩
    · refine ⟨st, false, by simp, h, hf, fun hb => ?_⟩
      rw [hb] at hc
      simp at hc
  | succ fuel ih =>
    intro st h hf
    unfold ransacLoop
    cases hc : (decide (st.nCandidates > 0) && !st.bMatch)
    · exact ⟨st, true, by simp, h, hf, fun _ => rfl⟩
    · have hb : st.bMatch = false := by
        cases hb : st.bMatch
        · rfl
        · rw [hb] at hc; simp at hc
      obtain ⟨st1, h1, hok, hf1⟩ := ransacPass_firstWins env cands setup hs
        setup.sortedMatches st (fun _ he => he) h hf hb
      simp only [if_true, h1, Outcome.bind]
      exact ih st1 hok hf1

/-- Once the loop has ended, more fuel does not change its result. -/
theorem ransacLoop_stable (env : Sim3Collaborators) (cands : List KeyFrame)
    (setup : Sim3Setup) (fuel : Nat) :
    ∀ (st st' : RansacState), ransacLoop env cands setup fuel st = .done (st', true) →
      ∀ extra, ransacLoop env cands setup (fuel + extra) st = .done (st', true) := by
  induction fuel with
  | zero =>
    intro st st' h extra
    unfold ransacLoop at h
    cases hc : (decide (st.nCandidates > 0) && !st.bMatch)
    · rw [hc] at h
      unfold ransacLoop
      rw [hc]
      exact h
    · rw [hc] at h
      simp at h
  | succ fuel ih =>
    intro st st' h extra
    unfold ransacLoop at h
    cases hc : (decide (st.nCandidates > 0) && !st.bMatch)
    · rw [hc] at h
      unfold ransacLoop
      rw [hc]
      exact h
    · rw [hc] at h
      simp only [if_true] at h
      have hfuel : fuel + 1 + extra = (fuel + extra) + 1 := by omega
      rw [hfuel]
      unfold ransacLoop
      rw [hc]
      simp only [if_true]
      cases hp : ransacPass env cands setup setup.sortedMatches st with
      | done st1 =>
        rw [hp] at h
        simp only [Outcome.bind] at h ⊢
        exact ih st1 st' h extra
      | nullSolver => rw [hp] at h; exact Outcome.noConfusion h
      | outOfRange => rw [hp] at h; exact Outcome.noConfusion h
      | badRow => rw [hp] at h; exact Outcome.noConfusion h
      | running => rw [hp] at h; exact Outcome.noConfusion h

/-- A pass either sets `bMatch`, or calls `iterate` exactly once on every candidate that is
not discarded. -/
theorem ransacPass_account (env : Sim3Collaborators) (cands : List KeyFrame)
    (setup : Sim3Setup) (hs : SetupOK env cands setup)
    (p : Nat) (rest : List (Int × Nat)) :
    ∀ st : RansacState, (∀ e ∈ rest, e ∈ setup.sortedMatches) → (rest.map Prod.snd).Nodup →
      RansacOK env cands setup st →
      (∀ i : Nat, st.vbDiscarded[i]? = some false →
        st.iterated.count i = if i ∈ rest.map Prod.snd then p else p + 1) →
      ∃ st', ransacPass env cands setup rest st = .done st' ∧ RansacOK env cands setup st' ∧
        (st'.bMatch = true ∨
          ∀ i : Nat, st'.vbDiscarded[i]? = some false → st'.iterated.count i = p + 1) := by
  induction rest with
  | nil =>
    intro st _ _ h hacc
    exact ⟨st, rfl, h, Or.inr fun i hi => by simpa using hacc i hi⟩
  | cons e rest ih =>
    intro st hsub hnd h hacc
    obtain ⟨m, i⟩ := e
    have hi : i < cands.length :=
      entry_lt env cands setup hs (m, i) (hsub _ (List.mem_cons_self _ _))
    have hsub' : ∀ e ∈ rest, e ∈ setup.sortedMatches :=
      fun e he => hsub e (List.mem_cons_of_mem _ he)
    simp only [List.map_cons, List.nodup_cons] at hnd
    rcases ransacVisit_spec env cands setup st i hs h hi with
      ⟨hdead, hv⟩ | ⟨halive, ⟨opt, ho, h20, hv⟩ | ⟨_, hv⟩⟩
    · simp only [ransacPass, hv, Outcome.bind, Bool.false_eq_true, if_false]
      apply ih st hsub' hnd.2 h
      intro j hj
      have hne : j ≠ i := by
        intro hji
        rw [hji, hdead] at hj
        exact absurd hj (by simp)
      rw [hacc j hj]
      by_cases hm : j ∈ List.map Prod.snd rest
      · rw [if_pos hm, if_pos (by simp [hm])]
      · rw [if_neg hm, if_neg (by simp [hm, hne])]
    · have hp : ransacPass env cands setup ((m, i) :: rest) st = .done
          { afterIterate st i i (env.iterate i (st.iterated.count i)) with
              bMatch := true,
              accepted := some (acceptLoop env (cands.getD i 0) opt.2.1 opt.2.2) } := by
        simp only [ransacPass, hv, Outcome.bind, if_true]
      refine ⟨_, hp, ?_, Or.inl rfl⟩
      apply accept_ok env cands setup _ i (st.iterated.count i) opt
        (afterIterate_ok env cands setup st i h halive) _ ho h20
      rw [afterIterate_iterated, List.count_append, List.count_singleton]
      simp
    · simp only [ransacPass, hv, Outcome.bind, Bool.false_eq_true, if_false]
      exact ih _ hsub' hnd.2
        (afterIterate_ok env cands setup st i h halive) (by
          intro j hj
          have hj' : st.vbDiscarded[j]? = some false := by
            rw [afterIterate_discarded] at hj
            split at hj
            · rw [List.getElem?_set] at hj
              split at hj
              · split at hj
                · exact absurd hj (by simp)
                · exact absurd hj (by simp)
              · exact hj
            · exact hj
          rw [afterIterate_iterated, List.count_append, List.count_singleton, hacc j hj']
          by_cases hji : j = i
          · subst hji
            rw [if_pos (by simp), if_neg hnd.1, if_pos (by simp)]
          · have hij : ¬ (i == j) = true := by simpa using fun h => hji h.symm
            rw [if_neg hij, add_zero]
            by_cases hm : j ∈ List.map Prod.snd rest
            · rw [if_pos hm, if_pos (by simp [hm])]
            · rw [if_neg hm, if_neg (by simp [hm, hji])])

/-- When every solver reports `bNoMore` within its first `K` calls, the `while` loop ends
within `K` passes. -/
theorem ransacLoop_ends (env : Sim3Collaborators) (cands : List KeyFrame)
    (setup : Sim3Setup) (hs : SetupOK env cands setup)
    (K : Nat) (hK : ∀ i, i < cands.length → ∃ k, k < K ∧ (env.iterate i k).bNoMore = true)
    (fuel : Nat) :
    ∀ (st : RansacState) (p : Nat), RansacOK env cands setup st →
      (st.bMatch = true ∨
        ∀ i : Nat, st.vbDiscarded[i]? = some false → st.iterated.count i = p) →
      K ≤ p + fuel →
      ∃ st', ransacLoop env cands setup fuel st = .done (st', true) ∧
        RansacOK env cands setup st' := by
  induction fuel with
  | zero =>
    intro st p h hacc hKp
    unfold ransacLoop
    cases hc : (decide (st.nCandidates > 0) && !st.bMatch)
    · exact ⟨st, by simp, h⟩
    · exfalso
      simp only [Bool.and_eq_true, decide_eq_true_eq, Bool.not_eq_true'] at hc
      rcases hacc with hb | hacc
      · rw [hc.2] at hb; exact absurd hb (by simp)
      · have hcnt := hc.1
        rw [h.count] at hcnt
        have hpos : 0 < st.vbDiscarded.count false := by exact_mod_cast hcnt
        rw [List.count_pos_iff, List.mem_iff_getElem?] at hpos
        obtain ⟨i, hi⟩ := hpos
        have hlt : i < cands.length := by
          rw [← h.len]; exact lt_length_of_getElem?_eq_some _ _ _ hi
        obtain ⟨k, hk, hbk⟩ := hK i hlt
        have := h.exhausted i k (by rw [hacc i hi]; omega) hbk
        rw [hi] at this
        exact absurd this (by simp)
  | succ fuel ih =>
    intro st p h hacc hKp
    unfold ransacLoop
    cases hc : (decide (st.nCandidates > 0) && !st.bMatch)
    · exact ⟨st, by simp, h⟩
    · simp only [Bool.and_eq_true, decide_eq_true_eq, Bool.not_eq_true'] at hc
      have hacc' : ∀ i : Nat, st.vbDiscarded[i]? = some false → st.iterated.count i = p := by
        rcases hacc with hb | hacc
        · rw [hc.2] at hb; exact absurd hb (by simp)
        · exact hacc
      have hp : p < K := by
        have hcnt := hc.1
        rw [h.count] at hcnt
        have hpos : 0 < st.vbDiscarded.count false := by exact_mod_cast hcnt
        rw [List.count_pos_iff, List.mem_iff_getElem?] at hpos
        obtain ⟨i, hi⟩ := hpos
        have hlt : i < cands.length := by
          rw [← h.len]; exact lt_length_of_getElem?_eq_some _ _ _ hi
        obtain ⟨k, hk, hbk⟩ := hK i hlt
        by_contra hcon
        have := h.exhausted i k (by rw [hacc' i hi]; omega) hbk
        rw [hi] at this
        exact absurd this (by simp)
      obtain ⟨st1, h1, hok, hacc1⟩ := ransacPass_account env cands setup hs p
        setup.sortedMatches st (fun _ he => he) hs.nodup h (by
          intro i hi
          obtain ⟨_, ⟨m, hm⟩, _⟩ := hs.alive i (h.mono i hi)
          have : i ∈ setup.sortedMatches.map Prod.snd := List.mem_map_of_mem Prod.snd hm
          simp only [this, if_true]
          exact hacc' i hi)
      simp only [if_true, h1, Outcome.bind]
      exact ih st1 (p + 1) hok hacc1 (by omega)

theorem ransacRun_ends (env : Sim3Collaborators) (cands : List KeyFrame) (K : Nat)
    (hK : ∀ i, i < cands.length → ∃ k, k < K ∧ (env.iterate i k).bNoMore = true) :
    ∃ st, ransacRun env cands K = .done (st, true) ∧
      RansacOK env cands (sim3Setup env cands) st :=
  ransacLoop_ends env cands _ (sim3Setup_ok env cands) K hK K _ 0
    (ransacInit_ok env cands _ (sim3Setup_ok env cands))
    (Or.inr fun i _ => by simp [ransacInit]) (by omega)

theorem ransacRun_firstWins (env : Sim3Collaborators) (cands : List KeyFrame) (fuel : Nat) :
    ∃ st fin, ransacRun env cands fuel = .done (st, fin) ∧
      RansacOK env cands (sim3Setup env cands) st ∧
      FirstWins env cands (sim3Setup env cands) st ∧ (st.bMatch = true → fin = true) :=
  ransacLoop_firstWins env cands _ (sim3Setup_ok env cands) fuel _
    (ransacInit_ok env cands _ (sim3Setup_ok env cands)) (firstWins_init env cands _)

/-- C15: first acceptable hypothesis wins.  After any number of passes of the RANSAC loop of
`ComputeSim3`: while no hypothesis was accepted, every `iterate` call made so far was rejected
(no transform, or fewer than 20 refined inliers); once one was accepted, the loop has ended,
the accepted call is the last entry of the log of `iterate` calls and stays the last however
many more passes are allowed, every earlier call was rejected, and the matched keyframe that
`ComputeSim3` records is the candidate of that call. -/
theorem ComputeSim3_first_acceptable_wins (env : Sim3Collaborators)
    (s : LoopClosingInterRobot) (fuel : Nat) :
    ∃ st fin, ransacRun env s.mvpEnoughConsistentCandidates fuel = .done (st, fin) ∧
      (st.bMatch = false →
        ∀ (l1 l2 : List Nat) (j : Nat), st.iterated = l1 ++ j :: l2 →
          ∀ o, refine env s.mvpEnoughConsistentCandidates
            (sim3Setup env s.mvpEnoughConsistentCandidates) j (env.iterate j (l1.count j))
              = some o → o.1 < 20) ∧
      (st.bMatch = true →
        fin = true ∧
        (∀ extra, ransacRun env s.mvpEnoughConsistentCandidates (fuel + extra)
          = .done (st, true)) ∧
        ∃ l i opt, st.iterated = l ++ [i] ∧
          refine env s.mvpEnoughConsistentCandidates
            (sim3Setup env s.mvpEnoughConsistentCandidates) i (env.iterate i (l.count i))
              = some opt ∧
          opt.1 ≥ 20 ∧
          (∀ (l1 l2 : List Nat) (j : Nat), l = l1 ++ j :: l2 →
            ∀ o, refine env s.mvpEnoughConsistentCandidates
              (sim3Setup env s.mvpEnoughConsistentCandidates) j (env.iterate j (l1.count j))
                = some o → o.1 < 20) ∧
          ∃ b s', ComputeSim3 env fuel s = .done (b, s') ∧
            s'.mpMatchedKF = some (s.mvpEnoughConsistentCandidates.getD i 0)) := by
  obtain ⟨st, fin, hrun, hok, hf, hfin⟩ :=
    ransacRun_firstWins env s.mvpEnoughConsistentCandidates fuel
  refine ⟨st, fin, hrun, fun hb => hf.rejected hb, fun hb => ?_⟩
  have hfin' := hfin hb
  subst hfin'
  obtain ⟨l, i, opt, h1, h2, h3, h4, h5⟩ := hf.won hb
  refine ⟨rfl, fun extra => ransacLoop_stable env _ _ fuel _ st hrun extra,
    l, i, opt, h1, h2, h3, h5, (sim3Finish env s st).1, (sim3Finish env s st).2,
    ComputeSim3_of_run env s fuel st hrun, ?_⟩
  rw [(sim3Finish_match env s st _ hb h4).1]
  rfl

theorem twoAcceptable_run :
    ∃ st, ransacRun twoAcceptable [10, 11] 1 = .done (st, true) ∧ st.bMatch = true ∧
      st.iterated = [1] :=
  ⟨_, rfl, rfl, rfl⟩

/-- C15, at a concrete input: of two candidates that would both be accepted, the one attempted
first (index `1`, keyframe `11`) is accepted in the first pass; `iterate` is called on no other
candidate, in that pass or with more passes allowed, and the matched keyframe recorded is
keyframe `11`. -/
theorem ComputeSim3_first_acceptable_wins_witness :
    ∃ st, ransacRun twoAcceptable [10, 11] 1 = .done (st, true) ∧
      st.bMatch = true ∧ st.iterated = [1] ∧
      (∀ extra, ransacRun twoAcceptable [10, 11] (1 + extra) = .done (st, true)) ∧
      ∃ b s', ComputeSim3 twoAcceptable 1 (exampleCoordinator 0 [10, 11]) = .done (b, s') ∧
        s'.mpMatchedKF = some 11 := by
  obtain ⟨st0, h0, hb0, hi0⟩ := twoAcceptable_run
  obtain ⟨st, fin, hrun, _, hwon⟩ :=
    ComputeSim3_first_acceptable_wins twoAcceptable (exampleCoordinator 0 [10, 11]) 1
  have e : (st, fin) = (st0, true) := by
    have h1 : ransacRun twoAcceptable [10, 11] 1 = .done (st, fin) := hrun
    rw [h0] at h1
    injection h1 with h1
    exact h1.symm
  injection e with e1 e2
  subst e1
  subst e2
  obtain ⟨_, hstable, l, i, opt, hit, _, _, _, b, s', hc, hm⟩ := hwon hb0
  have hi : i = 1 := by
    rw [hi0] at hit
    cases l with
    | nil => simpa using hit.symm
    | cons a tl =>
      have := congrArg List.length hit
      simp at this
  subst hi
  exact ⟨st, h0, hb0, hi0, hstable, b, s', hc, hm⟩

theorem all_discarded_of_count (l : List Bool) (h : l.count false = 0) (i : Nat)
    (hi : i < l.length) : l[i]? = some true := by
  rw [List.count_eq_zero] at h
  rw [List.getElem?_eq_getElem hi]
  cases hb : l[i]
  · exact absurd (hb ▸ List.getElem_mem hi) h
  · rfl

/-- C16: the alternating RANSAC loop of `ComputeSim3` terminates.  After any number of passes
`nCandidates` equals the number of candidates not marked discarded.  When every solver
reports its budget exhausted within its first `K` calls of `iterate` (`K = 60` for the
configured 300 iterations in batches of 5), the loop has ended after at most `K` passes,
either with an accepted hypothesis or with every candidate discarded, and in the latter case
`ComputeSim3` returns `false`. -/
theorem ComputeSim3_loop_terminates (env : Sim3Collaborators) (s : LoopClosingInterRobot) :
    (∀ fuel, ∃ st fin, ransacRun env s.mvpEnoughConsistentCandidates fuel = .done (st, fin) ∧
      st.vbDiscarded.length = s.mvpEnoughConsistentCandidates.length ∧
      st.nCandidates = st.vbDiscarded.count false) ∧
    (∀ K : Nat,
      (∀ i, i < s.mvpEnoughConsistentCandidates.length →
        ∃ k, k < K ∧ (env.iterate i k).bNoMore = true) →
      ∃ st, ransacRun env s.mvpEnoughConsistentCandidates K = .done (st, true) ∧
        (st.bMatch = true ∨
          ((∀ i, i < s.mvpEnoughConsistentCandidates.length →
              st.vbDiscarded[i]? = some true) ∧
            ComputeSim3 env K s = .done (false, s)))) ∧
    mRansacMaxIts / nIterations = 60 := by
  refine ⟨fun fuel => ?_, fun K hK => ?_, rfl⟩
  · obtain ⟨st, fin, hrun, hok, _⟩ := ransacRun_ok env s.mvpEnoughConsistentCandidates fuel
    exact ⟨st, fin, hrun, hok.len, hok.count⟩
  · obtain ⟨st, hrun, hok⟩ := ransacRun_ends env s.mvpEnoughConsistentCandidates K hK
    obtain ⟨st2, fin2, hrun2, _, hcond⟩ := ransacRun_ok env s.mvpEnoughConsistentCandidates K
    rw [hrun] at hrun2
    injection hrun2 with hrun2
    injection hrun2 with e1 e2
    subst e1; subst e2
    refine ⟨st, hrun, ?_⟩
    cases hb : st.bMatch
    · right
      have hc := hcond rfl
      rw [hb] at hc
      simp only [Bool.not_false, Bool.and_true, decide_eq_false_iff_not, not_lt] at hc
      have hzero : st.vbDiscarded.count false = 0 := by
        have := hok.count
        omega
      refine ⟨fun i hi => all_discarded_of_count _ hzero i (by rw [hok.len]; exact hi), ?_⟩
      rw [ComputeSim3_of_run env s K st hrun, sim3Finish_no_match env s st hb]
    · left; rfl

/-- C16, at a concrete input: the two solvers of `twoCandidates` report `bNoMore` at their
first call, and the loop has ended after one pass. -/
theorem ComputeSim3_loop_terminates_witness :
    ∃ st, ransacRun twoCandidates (exampleCoordinator 0 [10, 11]).mvpEnoughConsistentCandidates 1
        = .done (st, true) ∧
      (st.bMatch = true ∨
        ((∀ i, i < (exampleCoordinator 0 [10, 11]).mvpEnoughConsistentCandidates.length →
            st.vbDiscarded[i]? = some true) ∧
          ComputeSim3 twoCandidates 1 (exampleCoordinator 0 [10, 11])
            = .done (false, exampleCoordinator 0 [10, 11]))) :=
  (ComputeSim3_loop_terminates twoCandidates (exampleCoordinator 0 [10, 11])).2.1 1
    (fun _ _ => ⟨0, by decide, rfl⟩)

/-! ## Lemmas on the epoch counter -/

theorem CorrectLoop_mnFullBAIdx (env : CorrectCollaborators) (s : LoopCorrection) (w : World) :
    (CorrectLoop env s w).1.mnFullBAIdx = (abortGBA s).mnFullBAIdx := rfl

theorem abortGBA_running (s : LoopCorrection) (h : s.mbRunningGBA = true) :
    (abortGBA s).mnFullBAIdx = s.mnFullBAIdx + 1 := by
  simp [abortGBA, isRunningGBA, h]

theorem abortGBA_idle (s : LoopCorrection) (h : s.mbRunningGBA = false) :
    abortGBA s = s := by
  simp [abortGBA, isRunningGBA, h]

theorem finish_stale (idx : Int) (nLoopKF fuel : Nat) (s : LoopCorrection) (w : World)
    (h : idx ≠ s.mnFullBAIdx) :
    finishGlobalBundleAdjustment idx nLoopKF fuel s w = some (s, w) := by
  simp [finishGlobalBundleAdjustment, h]

theorem finish_mnFullBAIdx (idx : Int) (nLoopKF fuel : Nat) (s : LoopCorrection) (w : World)
    (r : LoopCorrection × World)
    (h : finishGlobalBundleAdjustment idx nLoopKF fuel s w = some r) :
    r.1.mnFullBAIdx = s.mnFullBAIdx := by
  unfold finishGlobalBundleAdjustment at h
  by_cases h1 : idx ≠ s.mnFullBAIdx
  · rw [if_pos h1] at h
    cases h; rfl
  · rw [if_neg h1] at h
    by_cases h2 : (!s.mbStopGBA) = true
    · rw [if_pos h2] at h
      simp only at h
      split at h
      · cases h
      · cases h; rfl
    · rw [if_neg h2] at h
      cases h; rfl

/-! ## Theorems on `ResetIfRequested` and the epoch counter -/

/-- C14: `ResetIfRequested`: when `mbResetRequested` is set, the result is the state
with `mvConsistentGroups` and `mlpLoopKeyFrameQueue` emptied, `mLastLoopKFid` set to `0` and
the flag cleared, every other member as before; when the flag is not set the state is
unchanged; in both cases the flag is false on return. -/
theorem ResetIfRequested_clears (s : LoopCorrection) :
    (s.mbResetRequested = true →
      ResetIfRequested s =
        { s with mvConsistentGroups := [], mlpLoopKeyFrameQueue := [], mLastLoopKFid := 0,
                 mbResetRequested := false }) ∧
    (s.mbResetRequested = false → ResetIfRequested s = s) ∧
    (ResetIfRequested s).mbResetRequested = false := by
  refine ⟨fun h => ?_, fun h => ?_, ?_⟩
  · simp [ResetIfRequested, h]
  · simp [ResetIfRequested, h]
  · unfold ResetIfRequested
    cases h : s.mbResetRequested
    · simp [h]
    · simp

/-- C14, at a concrete input: a coordinator with one stored group, one queued keyframe and
`mLastLoopKFid = 3`, with the flag set and with the flag clear. -/
theorem ResetIfRequested_clears_witness :
    (ResetIfRequested (exampleCorrection true false 0)).mvConsistentGroups = [] ∧
    (ResetIfRequested (exampleCorrection true false 0)).mlpLoopKeyFrameQueue = [] ∧
    (ResetIfRequested (exampleCorrection true false 0)).mLastLoopKFid = 0 ∧
    ResetIfRequested (exampleCorrection false false 0) = exampleCorrection false false 0 := by
  have h := ResetIfRequested_clears (exampleCorrection true false 0)
  have h2 := ResetIfRequested_clears (exampleCorrection false false 0)
  rw [h.1 rfl]
  exact ⟨rfl, rfl, rfl, h2.2.1 rfl⟩

/-- C13, as the claim states it, fails: a call of `CorrectLoop` made while no global bundle
adjustment is running (`mbRunningGBA` false, epoch `0`) leaves `mnFullBAIdx` at `0`; it does
not increase it by one. -/
theorem CorrectLoop_idle_keeps_epoch :
    (exampleCorrection false false 0).mnFullBAIdx = 0 ∧
    (CorrectLoop exampleCorrectCollaborators (exampleCorrection false false 0)
      exampleWorld).1.mnFullBAIdx = 0 ∧
    (CorrectLoop exampleCorrectCollaborators (exampleCorrection false false 0)
      exampleWorld).1.mnFullBAIdx ≠ (exampleCorrection false false 0).mnFullBAIdx + 1 := by
  rw [CorrectLoop_mnFullBAIdx, abortGBA_idle _ rfl]
  exact ⟨rfl, rfl, by decide⟩

/-- C13 (amended): a call of `CorrectLoop` made while a global bundle adjustment is
running increases `mnFullBAIdx` by exactly one; a call made while none is running leaves it
unchanged; and no operation decreases it: `CorrectLoop` never does, and `ResetIfRequested`,
`InsertKeyFrame` and the completion of `RunGlobalBundleAdjustment` leave it as it is. -/
theorem mnFullBAIdx_monotone (env : CorrectCollaborators) (s : LoopCorrection) (w : World) :
    (s.mbRunningGBA = true → (CorrectLoop env s w).1.mnFullBAIdx = s.mnFullBAIdx + 1) ∧
    (s.mbRunningGBA = false → (CorrectLoop env s w).1.mnFullBAIdx = s.mnFullBAIdx) ∧
    s.mnFullBAIdx ≤ (CorrectLoop env s w).1.mnFullBAIdx ∧
    (ResetIfRequested s).mnFullBAIdx = s.mnFullBAIdx ∧
    (∀ pKF, (InsertKeyFrame w pKF s).mnFullBAIdx = s.mnFullBAIdx) ∧
    (∀ idx nLoopKF fuel r, finishGlobalBundleAdjustment idx nLoopKF fuel s w = some r →
      r.1.mnFullBAIdx = s.mnFullBAIdx) ∧
    (∀ meanwhile nLoopKF fuel r,
      RunGlobalBundleAdjustment env meanwhile nLoopKF fuel s w = some r →
      r.1.mnFullBAIdx = (meanwhile (s, env.GlobalBundleAdjustemnt nLoopKF w)).1.mnFullBAIdx) := by
  refine ⟨fun h => ?_, fun h => ?_, ?_, ?_, fun pKF => ?_, ?_, ?_⟩
  · rw [CorrectLoop_mnFullBAIdx, abortGBA_running s h]
  · rw [CorrectLoop_mnFullBAIdx, abortGBA_idle s h]
  · rw [CorrectLoop_mnFullBAIdx]
    cases h : s.mbRunningGBA
    · rw [abortGBA_idle s h]
    · rw [abortGBA_running s h]; omega
  · unfold ResetIfRequested
    split <;> rfl
  · unfold InsertKeyFrame
    split <;> rfl
  · intro idx nLoopKF fuel r h
    exact finish_mnFullBAIdx idx nLoopKF fuel s w r h
  · intro meanwhile nLoopKF fuel r h
    exact finish_mnFullBAIdx _ nLoopKF fuel _ _ r h

/-- C13 (amended), at a concrete input: a call made at epoch `7` while a global bundle
adjustment is running ends at epoch `8`. -/
theorem mnFullBAIdx_monotone_witness :
    (CorrectLoop exampleCorrectCollaborators (exampleCorrection false true 7)
      exampleWorld).1.mnFullBAIdx = 8 :=
  (mnFullBAIdx_monotone exampleCorrectCollaborators (exampleCorrection false true 7)
    exampleWorld).1 rfl

/-- C12: epoch staleness: when the epoch `mnFullBAIdx` read after the optimizer has
returned differs from the epoch `idx` the task captured, `RunGlobalBundleAdjustment` returns
with the coordinator and the map exactly as they are (no pose, no map point, no flag changes,
and no call is made on the local mapper); and a `CorrectLoop` that runs while the task is in
flight (`mbRunningGBA` set) makes the two differ, so that the task ends with exactly the state
and map `CorrectLoop` produced. -/
theorem RunGlobalBundleAdjustment_stale_discarded (env : CorrectCollaborators)
    (s : LoopCorrection) (w : World) (nLoopKF fuel : Nat) :
    (∀ idx : Int, idx ≠ s.mnFullBAIdx →
      finishGlobalBundleAdjustment idx nLoopKF fuel s w = some (s, w)) ∧
    (s.mbRunningGBA = true →
      (CorrectLoop env s w).1.mnFullBAIdx ≠ s.mnFullBAIdx ∧
      finishGlobalBundleAdjustment s.mnFullBAIdx nLoopKF fuel (CorrectLoop env s w).1
        (CorrectLoop env s w).2 = some (CorrectLoop env s w) ∧
      RunGlobalBundleAdjustment env (fun x => CorrectLoop env x.1 x.2) nLoopKF fuel s w =
        some (CorrectLoop env s (env.GlobalBundleAdjustemnt nLoopKF w))) := by
  refine ⟨fun idx h => finish_stale idx nLoopKF fuel s w h, fun h => ?_⟩
  have hne : ∀ w1, s.mnFullBAIdx ≠ (CorrectLoop env s w1).1.mnFullBAIdx := by
    intro w1
    rw [CorrectLoop_mnFullBAIdx, abortGBA_running s h]; omega
  refine ⟨fun e => hne w e.symm, finish_stale _ nLoopKF fuel _ _ (hne w), ?_⟩
  exact finish_stale _ nLoopKF fuel _ _ (hne _)

/-- C12, at a concrete input: a task that captured epoch `7` and finds epoch `8`, and a task
started at epoch `7` during which `CorrectLoop` runs. -/
theorem RunGlobalBundleAdjustment_stale_discarded_witness :
    finishGlobalBundleAdjustment 7 5 0 (exampleCorrection false true 8) exampleWorld =
      some (exampleCorrection false true 8, exampleWorld) ∧
    RunGlobalBundleAdjustment exampleCorrectCollaborators
      (fun x => CorrectLoop exampleCorrectCollaborators x.1 x.2) 5 0
      (exampleCorrection false true 7) exampleWorld =
      some (CorrectLoop exampleCorrectCollaborators (exampleCorrection false true 7)
        (exampleCorrectCollaborators.GlobalBundleAdjustemnt 5 exampleWorld)) :=
  ⟨(RunGlobalBundleAdjustment_stale_discarded exampleCorrectCollaborators
      (exampleCorrection false true 8) exampleWorld 5 0).1 7 (by decide),
   ((RunGlobalBundleAdjustment_stale_discarded exampleCorrectCollaborators
      (exampleCorrection false true 7) exampleWorld 5 0).2 rfl).2.2⟩

/-! ## Lemmas on poses and similarity transforms -/

theorem transpose_mul_self_of_orthogonal (R : Mat3) (h : R * R.transpose = 1) :
    R.transpose * R = 1 :=
  (Matrix.mul_eq_one_comm).1 h

theorem Sim3_map_inverse_map (S : g2o.Sim3) (q : Vec3) (hs : S.s ≠ 0)
    (hr : S.r * S.r.transpose = 1) : S.map (S.inverse.map q) = q := by
  unfold g2o.Sim3.map g2o.Sim3.inverse
  simp only [Matrix.mulVec_add, Matrix.mulVec_smul, Matrix.mulVec_mulVec, hr,
    Matrix.one_mulVec, smul_add, smul_smul]
  have h1 : S.s * (1 / S.s) = 1 := by field_simp
  have h2 : S.s * (-1 / S.s) = -1 := by field_simp
  rw [h1, h2]
  simp

theorem Sim3_inverse_map_map (S : g2o.Sim3) (p : Vec3) (hs : S.s ≠ 0)
    (hr : S.r * S.r.transpose = 1) : S.inverse.map (S.map p) = p := by
  have hr2 := transpose_mul_self_of_orthogonal S.r hr
  unfold g2o.Sim3.map g2o.Sim3.inverse
  simp only [Matrix.mulVec_add, Matrix.mulVec_smul, Matrix.mulVec_mulVec, hr2,
    Matrix.one_mulVec, smul_add, smul_smul]
  have h1 : 1 / S.s * S.s = 1 := by field_simp
  rw [h1]
  have h3 : (1 / S.s) • S.r.transpose.mulVec S.t + (-1 / S.s) • S.r.transpose.mulVec S.t = 0 := by
    rw [← add_smul]
    have : 1 / S.s + -1 / S.s = 0 := by ring
    rw [this, zero_smul]
  rw [one_smul, add_assoc, h3, add_zero]

theorem SE3_mul_GetPoseInverse (a b : SE3) (h : b.R * b.R.transpose = 1) :
    (a.mul b).mul b.GetPoseInverse = a := by
  cases a with
  | mk aR at_ =>
  cases b with
  | mk bR bt =>
  simp only [SE3.mul, SE3.GetPoseInverse] at *
  congr 1
  · rw [Matrix.mul_assoc, h, Matrix.mul_one]
  · rw [Matrix.mulVec_neg, ← Matrix.mulVec_mulVec, Matrix.mulVec_mulVec bt, h,
      Matrix.one_mulVec]
    abel

/-! ## Lemmas on `KeyFrameAndPose` -/

theorem assignPose_mem (k : KeyFrame) (v : g2o.Sim3) (m : KeyFrameAndPose)
    (e : KeyFrame × g2o.Sim3) (h : e ∈ assignPose k v m) : e = (k, v) ∨ e ∈ m := by
  induction m with
  | nil => simpa [assignPose] using h
  | cons hd tl ih =>
    obtain ⟨k', v'⟩ := hd
    unfold assignPose at h
    by_cases h1 : k = k'
    · rw [if_pos h1] at h
      rcases List.mem_cons.1 h with h | h
      · exact Or.inl h
      · exact Or.inr (List.mem_cons_of_mem _ h)
    · rw [if_neg h1] at h
      by_cases h2 : k < k'
      · rw [if_pos h2] at h
        rcases List.mem_cons.1 h with h | h
        · exact Or.inl h
        · exact Or.inr h
      · rw [if_neg h2] at h
        rcases List.mem_cons.1 h with h | h
        · exact Or.inr (h ▸ List.mem_cons_self _ _)
        · rcases ih h with h | h
          · exact Or.inl h
          · exact Or.inr (List.mem_cons_of_mem _ h)

theorem assignPose_key_mem (k : KeyFrame) (v : g2o.Sim3) (m : KeyFrameAndPose) :
    k ∈ (assignPose k v m).map Prod.fst := by
  induction m with
  | nil => simp [assignPose]
  | cons hd tl ih =>
    obtain ⟨k', v'⟩ := hd
    unfold assignPose
    by_cases h1 : k = k'
    · rw [if_pos h1]; simp
    · rw [if_neg h1]
      by_cases h2 : k < k'
      · rw [if_pos h2]; simp
      · rw [if_neg h2]
        rw [List.map_cons]
        exact List.mem_cons_of_mem _ ih

theorem assignPose_keys_subset (k : KeyFrame) (v : g2o.Sim3) (m : KeyFrameAndPose)
    (x : KeyFrame) (h : x ∈ m.map Prod.fst) : x ∈ (assignPose k v m).map Prod.fst := by
  induction m with
  | nil => simp at h
  | cons hd tl ih =>
    obtain ⟨k', v'⟩ := hd
    unfold assignPose
    by_cases h1 : k = k'
    · rw [if_pos h1]
      rw [List.map_cons, List.mem_cons] at h
      rw [List.map_cons, List.mem_cons]
      rcases h with h | h
      · exact Or.inl (h.trans h1.symm)
      · exact Or.inr h
    · rw [if_neg h1]
      by_cases h2 : k < k'
      · rw [if_pos h2]
        rw [List.map_cons]
        exact List.mem_cons_of_mem _ h
      · rw [if_neg h2]
        rw [List.map_cons, List.mem_cons] at h
        rw [List.map_cons, List.mem_cons]
        rcases h with h | h
        · exact Or.inl h
        · exact Or.inr (ih h)

theorem assignPose_keys_mem (k : KeyFrame) (v : g2o.Sim3) (m : KeyFrameAndPose)
    (x : KeyFrame) (h : x ∈ (assignPose k v m).map Prod.fst) : x = k ∨ x ∈ m.map Prod.fst := by
  obtain ⟨e, he, rfl⟩ := List.mem_map.1 h
  rcases assignPose_mem k v m e he with h | h
  · exact Or.inl (by rw [h])
  · exact Or.inr (List.mem_map_of_mem _ h)

theorem assignPose_sorted (k : KeyFrame) (v : g2o.Sim3) (m : KeyFrameAndPose)
    (h : (m.map Prod.fst).Pairwise (· < ·)) :
    ((assignPose k v m).map Prod.fst).Pairwise (· < ·) := by
  induction m with
  | nil => simp [assignPose]
  | cons hd tl ih =>
    obtain ⟨k', v'⟩ := hd
    rw [List.map_cons, List.pairwise_cons] at h
    unfold assignPose
    by_cases h1 : k = k'
    · rw [if_pos h1, List.map_cons, List.pairwise_cons]
      exact ⟨fun x hx => h1 ▸ h.1 x hx, h.2⟩
    · rw [if_neg h1]
      by_cases h2 : k < k'
      · rw [if_pos h2, List.map_cons, List.map_cons, List.pairwise_cons, List.pairwise_cons]
        refine ⟨fun x hx => ?_, h.1, h.2⟩
        rcases List.mem_cons.1 hx with hx | hx
        · exact hx ▸ h2
        · exact lt_trans h2 (h.1 x hx)
      · rw [if_neg h2, List.map_cons, List.pairwise_cons]
        refine ⟨fun x hx => ?_, ih h.2⟩
        rcases assignPose_keys_mem k v tl x hx with hx | hx
        · have : k' < k := by
            have h1' : k ≠ k' := h1
            simp only [KeyFrame] at *
            omega
          exact hx ▸ this
        · exact h.1 x hx

theorem sorted_keys_nodup (m : KeyFrameAndPose) (h : (m.map Prod.fst).Pairwise (· < ·)) :
    (m.map Prod.fst).Nodup :=
  h.imp (fun hab => Nat.ne_of_lt hab)

/-! ## Lemmas on the pose propagation of `CorrectLoop` -/

theorem propagateStep_ok (cur : KeyFrame) (Scw : g2o.Sim3) (pose : KeyFrame → SE3)
    (l : List KeyFrame) (pm : PoseMaps) (k : KeyFrame)
    (h : PropagateOK cur Scw pose l pm) :
    PropagateOK cur Scw pose (l ++ [k])
      (propagateStep cur Scw (pose cur).GetPoseInverse pose pm k) := by
  by_cases hk : k = cur
  · have e : (propagateStep cur Scw (pose cur).GetPoseInverse pose pm k).CorrectedSim3 =
        pm.CorrectedSim3 := by
      simp [propagateStep, hk]
    refine ⟨by rw [e]; exact h.sorted, ?_, ?_⟩
    · intro x hx
      rw [e] at hx
      obtain ⟨h1, h2⟩ := h.value x hx
      refine ⟨h1, ?_⟩
      rcases h2 with h2 | h2
      · exact Or.inl h2
      · exact Or.inr (List.mem_append_left _ h2)
    · intro x hx
      rw [e]
      apply h.keys
      rcases hx with hx | hx
      · exact Or.inl hx
      · rcases List.mem_append.1 hx with hx | hx
        · exact Or.inr hx
        · exact Or.inl ((List.mem_singleton.1 hx).trans hk)
  · have e : (propagateStep cur Scw (pose cur).GetPoseInverse pose pm k).CorrectedSim3 =
        assignPose k ((g2oSic (pose k) (pose cur).GetPoseInverse).mul Scw)
          pm.CorrectedSim3 := by
      simp [propagateStep, hk]
    refine ⟨by rw [e]; exact assignPose_sorted _ _ _ h.sorted, ?_, ?_⟩
    · intro x hx
      rw [e] at hx
      rcases assignPose_mem _ _ _ x hx with hx | hx
      · subst hx
        refine ⟨?_, Or.inr (by simp)⟩
        simp [propagatedSiw, hk]
      · obtain ⟨h1, h2⟩ := h.value x hx
        refine ⟨h1, ?_⟩
        rcases h2 with h2 | h2
        · exact Or.inl h2
        · exact Or.inr (List.mem_append_left _ h2)
    · intro x hx
      rw [e]
      rcases hx with hx | hx
      · exact assignPose_keys_subset _ _ _ _ (h.keys x (Or.inl hx))
      · rcases List.mem_append.1 hx with hx | hx
        · exact assignPose_keys_subset _ _ _ _ (h.keys x (Or.inr hx))
        · rw [List.mem_singleton.1 hx]
          exact assignPose_key_mem _ _ _

theorem propagate_fold_ok (cur : KeyFrame) (Scw : g2o.Sim3) (pose : KeyFrame → SE3)
    (l2 : List KeyFrame) : ∀ (l1 : List KeyFrame) (pm : PoseMaps),
    PropagateOK cur Scw pose l1 pm →
    PropagateOK cur Scw pose (l1 ++ l2)
      (l2.foldl (propagateStep cur Scw (pose cur).GetPoseInverse pose) pm) := by
  induction l2 with
  | nil => intro l1 pm h; simpa using h
  | cons k tl ih =>
    intro l1 pm h
    rw [List.foldl_cons]
    have := ih (l1 ++ [k]) _ (propagateStep_ok cur Scw pose l1 pm k h)
    simpa using this

theorem propagate_ok (cur : KeyFrame) (Scw : g2o.Sim3) (pose : KeyFrame → SE3)
    (l : List KeyFrame) : PropagateOK cur Scw pose l (propagate cur Scw pose l) := by
  have h0 : PropagateOK cur Scw pose []
      { CorrectedSim3 := assignPose cur Scw [], NonCorrectedSim3 := [] } := by
    refine ⟨by simp [assignPose], ?_, ?_⟩
    · intro e he
      simp only [assignPose, List.mem_singleton] at he
      subst he
      simp [propagatedSiw]
    · intro k hk
      rcases hk with hk | hk
      · simp [assignPose, hk]
      · simp at hk
  have := propagate_fold_ok cur Scw pose l [] _ h0
  simpa [propagate] using this

/-! ## Lemmas on the correction loop of `CorrectLoop` -/

theorem correctMapPointStep_frame (env : CorrectCollaborators) (curId : Nat) (pKFi : KeyFrame)
    (Swi Siw : g2o.Sim3) (acc : World × List MapPoint) (x : Option MapPoint) :
    (correctMapPointStep env curId pKFi Swi Siw acc x).1.pose = acc.1.pose ∧
    (correctMapPointStep env curId pKFi Swi Siw acc x).1.obs = acc.1.obs ∧
    (correctMapPointStep env curId pKFi Swi Siw acc x).1.mnId = acc.1.mnId := by
  cases x with
  | none => exact ⟨rfl, rfl, rfl⟩
  | some p =>
    unfold correctMapPointStep
    simp only
    split
    · exact ⟨rfl, rfl, rfl⟩
    · split
      · exact ⟨rfl, rfl, rfl⟩
      · exact ⟨rfl, rfl, rfl⟩

theorem correctMapPoints_frame (env : CorrectCollaborators) (curId : Nat) (pKFi : KeyFrame)
    (Swi Siw : g2o.Sim3) (vp : List (Option MapPoint)) : ∀ acc : World × List MapPoint,
    (vp.foldl (correctMapPointStep env curId pKFi Swi Siw) acc).1.pose = acc.1.pose ∧
    (vp.foldl (correctMapPointStep env curId pKFi Swi Siw) acc).1.obs = acc.1.obs ∧
    (vp.foldl (correctMapPointStep env curId pKFi Swi Siw) acc).1.mnId = acc.1.mnId := by
  induction vp with
  | nil => intro acc; exact ⟨rfl, rfl, rfl⟩
  | cons x tl ih =>
    intro acc
    rw [List.foldl_cons]
    obtain ⟨h1, h2, h3⟩ := ih (correctMapPointStep env curId pKFi Swi Siw acc x)
    obtain ⟨g1, g2, g3⟩ := correctMapPointStep_frame env curId pKFi Swi Siw acc x
    exact ⟨h1.trans g1, h2.trans g2, h3.trans g3⟩

theorem correctKeyFrame_pose (env : CorrectCollaborators) (curId : Nat) (NC : KeyFrameAndPose)
    (acc : World × List MapPoint) (mit : KeyFrame × g2o.Sim3) :
    (correctKeyFrame env curId NC acc mit).1.pose =
      Function.update acc.1.pose mit.1 ⟨mit.2.r, (1 / mit.2.s) • mit.2.t⟩ := by
  unfold correctKeyFrame
  simp only
  rw [(correctMapPoints_frame env curId mit.1 mit.2.inverse (readPose NC mit.1)
    (acc.1.obs.GetMapPointMatches mit.1) acc).1]

theorem correctKeyFrame_frame (env : CorrectCollaborators) (curId : Nat) (NC : KeyFrameAndPose)
    (acc : World × List MapPoint) (mit : KeyFrame × g2o.Sim3) :
    (correctKeyFrame env curId NC acc mit).1.obs = acc.1.obs ∧
    (correctKeyFrame env curId NC acc mit).1.mnId = acc.1.mnId := by
  unfold correctKeyFrame
  simp only
  exact ⟨(correctMapPoints_frame env curId mit.1 mit.2.inverse (readPose NC mit.1)
    (acc.1.obs.GetMapPointMatches mit.1) acc).2.1,
    (correctMapPoints_frame env curId mit.1 mit.2.inverse (readPose NC mit.1)
    (acc.1.obs.GetMapPointMatches mit.1) acc).2.2⟩

theorem correctKeyFrames_frame (env : CorrectCollaborators) (curId : Nat) (NC : KeyFrameAndPose)
    (C : KeyFrameAndPose) : ∀ acc : World × List MapPoint,
    (correctKeyFrames env curId NC C acc).1.obs = acc.1.obs ∧
    (correctKeyFrames env curId NC C acc).1.mnId = acc.1.mnId := by
  induction C with
  | nil => intro acc; exact ⟨rfl, rfl⟩
  | cons x tl ih =>
    intro acc
    unfold correctKeyFrames at ih ⊢
    rw [List.foldl_cons]
    obtain ⟨h1, h2⟩ := ih (correctKeyFrame env curId NC acc x)
    obtain ⟨g1, g2⟩ := correctKeyFrame_frame env curId NC acc x
    exact ⟨h1.trans g1, h2.trans g2⟩

theorem correctKeyFrames_pose_other (env : CorrectCollaborators) (curId : Nat)
    (NC : KeyFrameAndPose) (C : KeyFrameAndPose) : ∀ (acc : World × List MapPoint)
    (k : KeyFrame), k ∉ C.map Prod.fst →
    (correctKeyFrames env curId NC C acc).1.pose k = acc.1.pose k := by
  induction C with
  | nil => intro acc k _; rfl
  | cons x tl ih =>
    intro acc k hk
    unfold correctKeyFrames at ih ⊢
    rw [List.foldl_cons, ih _ k (fun h => hk (by rw [List.map_cons]; exact List.mem_cons_of_mem _ h)),
      correctKeyFrame_pose]
    have : k ≠ x.1 := fun h => hk (by rw [List.map_cons, h]; exact List.mem_cons_self _ _)
    exact Function.update_noteq this _ _

theorem correctKeyFrames_pose_entry (env : CorrectCollaborators) (curId : Nat)
    (NC : KeyFrameAndPose) (C : KeyFrameAndPose) : ∀ (acc : World × List MapPoint),
    (C.map Prod.fst).Nodup → ∀ e ∈ C,
    (correctKeyFrames env curId NC C acc).1.pose e.1 = ⟨e.2.r, (1 / e.2.s) • e.2.t⟩ := by
  induction C with
  | nil => intro acc _ e he; simp at he
  | cons x tl ih =>
    intro acc hnd e he
    rw [List.map_cons, List.nodup_cons] at hnd
    rcases List.mem_cons.1 he with he | he
    · subst he
      have := correctKeyFrames_pose_other env curId NC tl (correctKeyFrame env curId NC acc e)
        e.1 hnd.1
      unfold correctKeyFrames at this ⊢
      rw [List.foldl_cons, this, correctKeyFrame_pose, Function.update_same]
    · have := ih (correctKeyFrame env curId NC acc x) hnd.2 e he
      unfold correctKeyFrames at this ⊢
      rw [List.foldl_cons, this]

theorem correctPoses_pose (env : CorrectCollaborators) (cur : KeyFrame) (Scw : g2o.Sim3)
    (w : World) (k : KeyFrame) :
    (correctPoses env cur Scw w).1.pose k =
      if k = cur ∨ k ∈ w.covis.GetVectorCovisibleKeyFrames cur then
        ⟨(propagatedSiw cur Scw w.pose k).r,
          (1 / (propagatedSiw cur Scw w.pose k).s) • (propagatedSiw cur Scw w.pose k).t⟩
      else w.pose k := by
  have hok := propagate_ok cur Scw w.pose (w.covis.GetVectorCovisibleKeyFrames cur ++ [cur])
  unfold correctPoses
  simp only
  by_cases hk : k = cur ∨ k ∈ w.covis.GetVectorCovisibleKeyFrames cur
  · rw [if_pos hk]
    have hmem := hok.keys k (by
      rcases hk with hk | hk
      · exact Or.inl hk
      · exact Or.inr (List.mem_append_left _ hk))
    obtain ⟨e, he, rfl⟩ := List.mem_map.1 hmem
    rw [correctKeyFrames_pose_entry env _ _ _ _ (sorted_keys_nodup _ hok.sorted) e he,
      (hok.value e he).1]
  · rw [if_neg hk]
    apply correctKeyFrames_pose_other
    intro hmem
    obtain ⟨e, he, rfl⟩ := List.mem_map.1 hmem
    apply hk
    rcases (hok.value e he).2 with h | h
    · exact Or.inl h
    · rcases List.mem_append.1 h with h | h
      · exact Or.inr h
      · exact Or.inl (List.mem_singleton.1 h)

/-! ## Theorems on the geometry of `CorrectLoop` -/

/-- C19: the pose `CorrectLoop` writes to a keyframe `i` covisible with the current
keyframe is `[R_ic R_cw | (R_ic t_cw + t_ic)/s]`, with `(R_ic, t_ic)` the pose of `i` relative
to the current keyframe computed from the uncorrected poses and `(R_cw, t_cw, s)` the accepted
similarity `mg2oScw`; the current keyframe receives `[R_cw | t_cw/s]`; keyframes outside the
connected set keep their pose.  Hence, `R_cw` being a rotation, the pose of `i` relative to
the current keyframe after the correction is `[R_ic | t_ic/s]`, and is unchanged when
`s = 1`. -/
theorem CorrectLoop_corrected_pose (env : CorrectCollaborators) (cur : KeyFrame)
    (Scw : g2o.Sim3) (w : World) (i : KeyFrame)
    (hi : i ∈ w.covis.GetVectorCovisibleKeyFrames cur) (hne : i ≠ cur) :
    (correctPoses env cur Scw w).1.pose i =
      ⟨((w.pose i).mul (w.pose cur).GetPoseInverse).R * Scw.r,
       (1 / Scw.s) • (((w.pose i).mul (w.pose cur).GetPoseInverse).R.mulVec Scw.t +
         ((w.pose i).mul (w.pose cur).GetPoseInverse).t)⟩ ∧
    (correctPoses env cur Scw w).1.pose cur = ⟨Scw.r, (1 / Scw.s) • Scw.t⟩ ∧
    (∀ k, k ≠ cur → k ∉ w.covis.GetVectorCovisibleKeyFrames cur →
      (correctPoses env cur Scw w).1.pose k = w.pose k) ∧
    (Scw.r * Scw.r.transpose = 1 →
      ((correctPoses env cur Scw w).1.pose i).mul
          ((correctPoses env cur Scw w).1.pose cur).GetPoseInverse =
        ⟨((w.pose i).mul (w.pose cur).GetPoseInverse).R,
         (1 / Scw.s) • ((w.pose i).mul (w.pose cur).GetPoseInverse).t⟩) ∧
    (Scw.r * Scw.r.transpose = 1 → Scw.s = 1 →
      ((correctPoses env cur Scw w).1.pose i).mul
          ((correctPoses env cur Scw w).1.pose cur).GetPoseInverse =
        (w.pose i).mul (w.pose cur).GetPoseInverse) := by
  have hposei : (correctPoses env cur Scw w).1.pose i =
      ⟨((w.pose i).mul (w.pose cur).GetPoseInverse).R * Scw.r,
       (1 / Scw.s) • (((w.pose i).mul (w.pose cur).GetPoseInverse).R.mulVec Scw.t +
         ((w.pose i).mul (w.pose cur).GetPoseInverse).t)⟩ := by
    rw [correctPoses_pose, if_pos (Or.inr hi)]
    simp [propagatedSiw, hne, g2oSic, g2o.Sim3.mul]
  have hposec : (correctPoses env cur Scw w).1.pose cur = ⟨Scw.r, (1 / Scw.s) • Scw.t⟩ := by
    rw [correctPoses_pose, if_pos (Or.inl rfl)]
    simp [propagatedSiw]
  have hrel : Scw.r * Scw.r.transpose = 1 →
      ((correctPoses env cur Scw w).1.pose i).mul
          ((correctPoses env cur Scw w).1.pose cur).GetPoseInverse =
        ⟨((w.pose i).mul (w.pose cur).GetPoseInverse).R,
         (1 / Scw.s) • ((w.pose i).mul (w.pose cur).GetPoseInverse).t⟩ := by
    intro hr
    rw [hposei, hposec]
    generalize (w.pose i).mul (w.pose cur).GetPoseInverse = Tic
    simp only [SE3.mul, SE3.GetPoseInverse]
    congr 1
    · rw [Matrix.mul_assoc, hr, Matrix.mul_one]
    · rw [Matrix.mulVec_neg, Matrix.mulVec_mulVec, Matrix.mul_assoc, hr, Matrix.mul_one,
        Matrix.mulVec_smul, smul_add]
      abel
  refine ⟨hposei, hposec, fun k hk1 hk2 => ?_, hrel, fun hr hs => ?_⟩
  · rw [correctPoses_pose, if_neg]
    rintro (h | h)
    · exact hk1 h
    · exact hk2 h
  · rw [hrel hr, hs]
    simp

/-- C19, at a concrete input: keyframe `4`, covisible with the current keyframe `5`, and an
accepted similarity of scale `2`. -/
theorem CorrectLoop_corrected_pose_witness :
    (correctPoses exampleCorrectCollaborators 5 ⟨1, 0, 2⟩ connectedWorld).1.pose 4 =
      ⟨((connectedWorld.pose 4).mul (connectedWorld.pose 5).GetPoseInverse).R * 1,
       (1 / (2 : ℚ)) • (((connectedWorld.pose 4).mul
          (connectedWorld.pose 5).GetPoseInverse).R.mulVec 0 +
         ((connectedWorld.pose 4).mul (connectedWorld.pose 5).GetPoseInverse).t)⟩ :=
  (CorrectLoop_corrected_pose exampleCorrectCollaborators 5 ⟨1, 0, 2⟩ connectedWorld 4
    (by simp [connectedWorld]) (by decide)).1

/-! ## Lemmas on the point-mapping step of `CorrectLoop` -/

theorem correctMapPoint_point_same (env : CorrectCollaborators) (curId : Nat) (pKFi : KeyFrame)
    (Swi Siw : g2o.Sim3) (w : World) (p : MapPoint) :
    ((correctMapPoint env curId pKFi Swi Siw w p).point p).mnCorrectedByKF = curId := by
  simp [correctMapPoint]

theorem correctMapPoint_point_other (env : CorrectCollaborators) (curId : Nat) (pKFi : KeyFrame)
    (Swi Siw : g2o.Sim3) (w : World) (p q : MapPoint) (h : q ≠ p) :
    (correctMapPoint env curId pKFi Swi Siw w p).point q = w.point q := by
  simp [correctMapPoint, Function.update_noteq h]

theorem correctMapPointStep_cases (env : CorrectCollaborators) (curId : Nat) (pKFi : KeyFrame)
    (Swi Siw : g2o.Sim3) (acc : World × List MapPoint) (x : Option MapPoint) :
    (correctMapPointStep env curId pKFi Swi Siw acc x = acc ∧
      ∀ p, x = some p → acc.1.obs.isBad p = false →
        (acc.1.point p).mnCorrectedByKF = curId) ∨
    ∃ p, x = some p ∧ acc.1.obs.isBad p = false ∧ (acc.1.point p).mnCorrectedByKF ≠ curId ∧
      correctMapPointStep env curId pKFi Swi Siw acc x =
        (correctMapPoint env curId pKFi Swi Siw acc.1 p, acc.2 ++ [p]) := by
  cases x with
  | none => exact Or.inl ⟨rfl, fun p hp => by cases hp⟩
  | some p =>
    unfold correctMapPointStep
    simp only
    by_cases h1 : acc.1.obs.isBad p = true
    · rw [if_pos h1]
      refine Or.inl ⟨rfl, fun q hq hb => ?_⟩
      cases hq
      rw [h1] at hb
      cases hb
    · rw [if_neg h1]
      by_cases h2 : (acc.1.point p).mnCorrectedByKF = curId
      · rw [if_pos h2]
        refine Or.inl ⟨rfl, fun q hq _ => ?_⟩
        cases hq
        exact h2
      · rw [if_neg h2]
        exact Or.inr ⟨p, rfl, by simpa using h1, h2, rfl⟩

theorem correctMapPointStep_ok (env : CorrectCollaborators) (curId : Nat) (pKFi : KeyFrame)
    (Swi Siw : g2o.Sim3) (pt0 : MapPoint → MapPointData) (acc : World × List MapPoint)
    (x : Option MapPoint) (h : MovedOK curId pt0 acc) :
    MovedOK curId pt0 (correctMapPointStep env curId pKFi Swi Siw acc x) := by
  rcases correctMapPointStep_cases env curId pKFi Swi Siw acc x with ⟨e, _⟩ | ⟨p, _, _, hp, e⟩
  · rw [e]; exact h
  · rw [e]
    have hnot : p ∉ acc.2 := fun hm => hp (h.tagged p hm)
    refine ⟨?_, ?_, ?_, ?_⟩
    · intro q hq
      by_cases hqp : q = p
      · rw [hqp]; exact correctMapPoint_point_same _ _ _ _ _ _ _
      · rw [correctMapPoint_point_other _ _ _ _ _ _ _ _ hqp]
        rcases List.mem_append.1 hq with hq | hq
        · exact h.tagged q hq
        · exact absurd (List.mem_singleton.1 hq) hqp
    · exact List.Nodup.append h.nodup (List.nodup_singleton p)
        (by
          intro a ha hb
          rw [List.mem_singleton.1 hb] at ha
          exact hnot ha)
    · intro q hq
      have hqp : q ≠ p := fun e => hq (by rw [e]; simp)
      rw [correctMapPoint_point_other _ _ _ _ _ _ _ _ hqp]
      exact h.frame q (fun hm => hq (List.mem_append_left _ hm))
    · intro q hq
      rcases List.mem_append.1 hq with hq | hq
      · exact h.fresh q hq
      · rw [List.mem_singleton.1 hq, ← h.frame p hnot]
        exact hp

theorem correctMapPoints_ok (env : CorrectCollaborators) (curId : Nat) (pKFi : KeyFrame)
    (Swi Siw : g2o.Sim3) (pt0 : MapPoint → MapPointData) (vp : List (Option MapPoint)) :
    ∀ acc : World × List MapPoint, MovedOK curId pt0 acc →
    MovedOK curId pt0 (vp.foldl (correctMapPointStep env curId pKFi Swi Siw) acc) := by
  induction vp with
  | nil => intro acc h; exact h
  | cons x tl ih =>
    intro acc h
    rw [List.foldl_cons]
    exact ih _ (correctMapPointStep_ok env curId pKFi Swi Siw pt0 acc x h)

theorem correctKeyFrame_point (env : CorrectCollaborators) (curId : Nat) (NC : KeyFrameAndPose)
    (acc : World × List MapPoint) (mit : KeyFrame × g2o.Sim3) :
    (correctKeyFrame env curId NC acc mit).1.point =
      ((acc.1.obs.GetMapPointMatches mit.1).foldl
        (correctMapPointStep env curId mit.1 mit.2.inverse (readPose NC mit.1)) acc).1.point ∧
    (correctKeyFrame env curId NC acc mit).2 =
      ((acc.1.obs.GetMapPointMatches mit.1).foldl
        (correctMapPointStep env curId mit.1 mit.2.inverse (readPose NC mit.1)) acc).2 :=
  ⟨rfl, rfl⟩

theorem MovedOK_congr (curId : Nat) (pt0 : MapPoint → MapPointData)
    (a b : World × List MapPoint) (h1 : a.1.point = b.1.point) (h2 : a.2 = b.2)
    (h : MovedOK curId pt0 b) : MovedOK curId pt0 a :=
  ⟨by rw [h1, h2]; exact h.tagged, by rw [h2]; exact h.nodup,
   by rw [h1, h2]; exact h.frame, by rw [h2]; exact h.fresh⟩

theorem correctKeyFrame_ok (env : CorrectCollaborators) (curId : Nat) (NC : KeyFrameAndPose)
    (pt0 : MapPoint → MapPointData) (acc : World × List MapPoint)
    (mit : KeyFrame × g2o.Sim3) (h : MovedOK curId pt0 acc) :
    MovedOK curId pt0 (correctKeyFrame env curId NC acc mit) :=
  MovedOK_congr curId pt0 _ _ (correctKeyFrame_point env curId NC acc mit).1
    (correctKeyFrame_point env curId NC acc mit).2
    (correctMapPoints_ok env curId mit.1 mit.2.inverse (readPose NC mit.1) pt0 _ acc h)

theorem correctKeyFrames_ok (env : CorrectCollaborators) (curId : Nat) (NC : KeyFrameAndPose)
    (pt0 : MapPoint → MapPointData) (C : KeyFrameAndPose) :
    ∀ acc : World × List MapPoint, MovedOK curId pt0 acc →
    MovedOK curId pt0 (correctKeyFrames env curId NC C acc) := by
  induction C with
  | nil => intro acc h; exact h
  | cons x tl ih =>
    intro acc h
    unfold correctKeyFrames at ih ⊢
    rw [List.foldl_cons]
    exact ih _ (correctKeyFrame_ok env curId NC pt0 acc x h)

/-! Tags only grow, and every point the loop looks at ends up tagged. -/

theorem correctMapPointStep_mono (env : CorrectCollaborators) (curId : Nat) (pKFi : KeyFrame)
    (Swi Siw : g2o.Sim3) (acc : World × List MapPoint) (x : Option MapPoint) (q : MapPoint)
    (h : (acc.1.point q).mnCorrectedByKF = curId) :
    ((correctMapPointStep env curId pKFi Swi Siw acc x).1.point q).mnCorrectedByKF = curId := by
  rcases correctMapPointStep_cases env curId pKFi Swi Siw acc x with ⟨e, _⟩ | ⟨p, _, _, _, e⟩
  · rw [e]; exact h
  · rw [e]
    by_cases hqp : q = p
    · rw [hqp]; exact correctMapPoint_point_same _ _ _ _ _ _ _
    · rw [correctMapPoint_point_other _ _ _ _ _ _ _ _ hqp]; exact h

theorem correctMapPoints_mono (env : CorrectCollaborators) (curId : Nat) (pKFi : KeyFrame)
    (Swi Siw : g2o.Sim3) (vp : List (Option MapPoint)) (q : MapPoint) :
    ∀ acc : World × List MapPoint, (acc.1.point q).mnCorrectedByKF = curId →
    (((vp.foldl (correctMapPointStep env curId pKFi Swi Siw) acc).1.point q).mnCorrectedByKF
      = curId) := by
  induction vp with
  | nil => intro acc h; exact h
  | cons x tl ih =>
    intro acc h
    rw [List.foldl_cons]
    exact ih _ (correctMapPointStep_mono env curId pKFi Swi Siw acc x q h)

theorem correctMapPoints_tags (env : CorrectCollaborators) (curId : Nat) (pKFi : KeyFrame)
    (Swi Siw : g2o.Sim3) (vp : List (Option MapPoint)) (q : MapPoint) :
    ∀ acc : World × List MapPoint, some q ∈ vp → acc.1.obs.isBad q = false →
    (((vp.foldl (correctMapPointStep env curId pKFi Swi Siw) acc).1.point q).mnCorrectedByKF
      = curId) := by
  induction vp with
  | nil => intro acc h; simp at h
  | cons x tl ih =>
    intro acc hq hb
    rw [List.foldl_cons]
    rcases List.mem_cons.1 hq with hq | hq
    · apply correctMapPoints_mono
      rcases correctMapPointStep_cases env curId pKFi Swi Siw acc x with ⟨e, ht⟩ | ⟨p, hx, _, _, e⟩
      · rw [e]; exact ht q hq.symm hb
      · rw [e]
        have : q = p := by
          rw [← hq] at hx
          exact Option.some.inj hx
        rw [this]; exact correctMapPoint_point_same _ _ _ _ _ _ _
    · apply ih _ hq
      rw [(correctMapPointStep_frame env curId pKFi Swi Siw acc x).2.1]
      exact hb

theorem correctKeyFrame_mono (env : CorrectCollaborators) (curId : Nat) (NC : KeyFrameAndPose)
    (acc : World × List MapPoint) (mit : KeyFrame × g2o.Sim3) (q : MapPoint)
    (h : (acc.1.point q).mnCorrectedByKF = curId) :
    ((correctKeyFrame env curId NC acc mit).1.point q).mnCorrectedByKF = curId := by
  rw [(correctKeyFrame_point env curId NC acc mit).1]
  exact correctMapPoints_mono env curId _ _ _ _ q acc h

theorem correctKeyFrames_mono (env : CorrectCollaborators) (curId : Nat) (NC : KeyFrameAndPose)
    (C : KeyFrameAndPose) (q : MapPoint) :
    ∀ acc : World × List MapPoint, (acc.1.point q).mnCorrectedByKF = curId →
    ((correctKeyFrames env curId NC C acc).1.point q).mnCorrectedByKF = curId := by
  induction C with
  | nil => intro acc h; exact h
  | cons x tl ih =>
    intro acc h
    unfold correctKeyFrames at ih ⊢
    rw [List.foldl_cons]
    exact ih _ (correctKeyFrame_mono env curId NC acc x q h)

theorem correctKeyFrames_tags (env : CorrectCollaborators) (curId : Nat) (NC : KeyFrameAndPose)
    (C : KeyFrameAndPose) (q : MapPoint) :
    ∀ acc : World × List MapPoint, ∀ mit ∈ C,
    some q ∈ acc.1.obs.GetMapPointMatches mit.1 → acc.1.obs.isBad q = false →
    ((correctKeyFrames env curId NC C acc).1.point q).mnCorrectedByKF = curId := by
  induction C with
  | nil => intro acc mit h; simp at h
  | cons x tl ih =>
    intro acc mit hmit hq hb
    rcases List.mem_cons.1 hmit with hmit | hmit
    · subst hmit
      unfold correctKeyFrames
      rw [List.foldl_cons]
      apply correctKeyFrames_mono
      rw [(correctKeyFrame_point env curId NC acc mit).1]
      exact correctMapPoints_tags env curId _ _ _ _ q acc hq hb
    · have := ih (correctKeyFrame env curId NC acc x) mit hmit
        (by rw [(correctKeyFrame_frame env curId NC acc x).1]; exact hq)
        (by rw [(correctKeyFrame_frame env curId NC acc x).1]; exact hb)
      unfold correctKeyFrames at this ⊢
      rw [List.foldl_cons]
      exact this

/-! A second run finds every point tagged and moves none. -/

theorem correctMapPoints_settled (env : CorrectCollaborators) (curId : Nat) (pKFi : KeyFrame)
    (Swi Siw : g2o.Sim3) (vp : List (Option MapPoint)) (acc : World × List MapPoint)
    (h : ∀ q, some q ∈ vp → acc.1.obs.isBad q = false →
      (acc.1.point q).mnCorrectedByKF = curId) :
    vp.foldl (correctMapPointStep env curId pKFi Swi Siw) acc = acc := by
  induction vp with
  | nil => rfl
  | cons x tl ih =>
    rw [List.foldl_cons]
    have e : correctMapPointStep env curId pKFi Swi Siw acc x = acc := by
      rcases correctMapPointStep_cases env curId pKFi Swi Siw acc x with ⟨e, _⟩ | ⟨p, hx, hb, hp, _⟩
      · exact e
      · exact absurd (h p (by rw [hx]; exact List.mem_cons_self _ _) hb) hp
    rw [e]
    exact ih (fun q hq hb => h q (List.mem_cons_of_mem _ hq) hb)

theorem correctKeyFrames_settled (env : CorrectCollaborators) (curId : Nat)
    (NC : KeyFrameAndPose) (C : KeyFrameAndPose) :
    ∀ acc : World × List MapPoint,
    (∀ mit ∈ C, ∀ q, some q ∈ acc.1.obs.GetMapPointMatches mit.1 → acc.1.obs.isBad q = false →
      (acc.1.point q).mnCorrectedByKF = curId) →
    (correctKeyFrames env curId NC C acc).1.point = acc.1.point ∧
    (correctKeyFrames env curId NC C acc).2 = acc.2 := by
  induction C with
  | nil => intro acc _; exact ⟨rfl, rfl⟩
  | cons x tl ih =>
    intro acc h
    have e := correctMapPoints_settled env curId x.1 x.2.inverse (readPose NC x.1)
      (acc.1.obs.GetMapPointMatches x.1) acc (h x (List.mem_cons_self _ _))
    have hp := (correctKeyFrame_point env curId NC acc x).1
    have hl := (correctKeyFrame_point env curId NC acc x).2
    rw [e] at hp hl
    have hfr := correctKeyFrame_frame env curId NC acc x
    have := ih (correctKeyFrame env curId NC acc x) (by
      intro mit hmit q hq hb
      rw [hfr.1] at hq hb
      rw [hp]
      exact h mit (List.mem_cons_of_mem _ hmit) q hq hb)
    unfold correctKeyFrames at this ⊢
    rw [List.foldl_cons]
    exact ⟨this.1.trans hp, this.2.trans hl⟩

/-! ## Theorem on the point-mapping step of `CorrectLoop` -/

/-- C11: correction idempotence, for the loop of lines 928-972 run on a map `w` with
any `CorrectedSim3` and `NonCorrectedSim3` and `curId` the id of the current keyframe: a map
point whose `mnCorrectedByKF` already equals `curId` is left entirely unchanged; every map
point the loop moves carries the tag `curId` afterwards; no map point is moved twice (the list
of moves has no duplicate) and a map point that is not moved is unchanged; and running the
loop again on the result moves no map point and changes no map point. -/
theorem CorrectLoop_points_moved_once (env : CorrectCollaborators) (curId : Nat)
    (NonCorrectedSim3 CorrectedSim3 : KeyFrameAndPose) (w : World) :
    (∀ p, (w.point p).mnCorrectedByKF = curId →
      (correctKeyFrames env curId NonCorrectedSim3 CorrectedSim3 (w, [])).1.point p =
        w.point p) ∧
    (∀ p ∈ (correctKeyFrames env curId NonCorrectedSim3 CorrectedSim3 (w, [])).2,
      ((correctKeyFrames env curId NonCorrectedSim3 CorrectedSim3 (w, [])).1.point
        p).mnCorrectedByKF = curId) ∧
    (correctKeyFrames env curId NonCorrectedSim3 CorrectedSim3 (w, [])).2.Nodup ∧
    (∀ p, p ∉ (correctKeyFrames env curId NonCorrectedSim3 CorrectedSim3 (w, [])).2 →
      (correctKeyFrames env curId NonCorrectedSim3 CorrectedSim3 (w, [])).1.point p =
        w.point p) ∧
    (correctKeyFrames env curId NonCorrectedSim3 CorrectedSim3
      ((correctKeyFrames env curId NonCorrectedSim3 CorrectedSim3 (w, [])).1, [])).2 = [] ∧
    (correctKeyFrames env curId NonCorrectedSim3 CorrectedSim3
      ((correctKeyFrames env curId NonCorrectedSim3 CorrectedSim3 (w, [])).1, [])).1.point =
      (correctKeyFrames env curId NonCorrectedSim3 CorrectedSim3 (w, [])).1.point := by
  have h0 : MovedOK curId w.point (w, []) :=
    ⟨fun p hp => by simp at hp, List.nodup_nil, fun _ _ => rfl, fun p hp => by simp at hp⟩
  have hok := correctKeyFrames_ok env curId NonCorrectedSim3 w.point CorrectedSim3 (w, []) h0
  have hfr := correctKeyFrames_frame env curId NonCorrectedSim3 CorrectedSim3 (w, [])
  have hset := correctKeyFrames_settled env curId NonCorrectedSim3 CorrectedSim3
    ((correctKeyFrames env curId NonCorrectedSim3 CorrectedSim3 (w, [])).1, []) (by
      intro mit hmit q hq hb
      simp only at hq hb ⊢
      rw [hfr.1] at hq hb
      exact correctKeyFrames_tags env curId NonCorrectedSim3 CorrectedSim3 q (w, []) mit hmit
        hq hb)
  refine ⟨fun p hp => ?_, hok.tagged, hok.nodup, hok.frame, hset.2, hset.1⟩
  exact hok.frame p (fun hm => hok.fresh p hm hp)

/-- C11, at a concrete input: map point `1`, observed by both keyframes `4` and `5` and
already tagged with the id `0`. -/
theorem CorrectLoop_points_moved_once_witness :
    (correctKeyFrames exampleCorrectCollaborators 0 [] [(4, ⟨1, 0, 2⟩), (5, ⟨1, 0, 2⟩)]
      (connectedWorld, [])).1.point 1 = connectedWorld.point 1 :=
  (CorrectLoop_points_moved_once exampleCorrectCollaborators 0 []
    [(4, ⟨1, 0, 2⟩), (5, ⟨1, 0, 2⟩)] connectedWorld).1 1 rfl

/-! ## Lemmas on the new links of `CorrectLoop` -/

theorem eraseAll_eq (l : List KeyFrame) : ∀ s : Finset KeyFrame,
    eraseAll l s = s \ l.toFinset := by
  induction l with
  | nil => intro s; simp [eraseAll]
  | cons k tl ih =>
    intro s
    have : eraseAll (k :: tl) s = eraseAll tl (s.erase k) := rfl
    rw [this, ih]
    ext x
    simp only [Finset.mem_sdiff, Finset.mem_erase, List.toFinset_cons, Finset.mem_insert,
      List.mem_toFinset]
    tauto

theorem exists_last_occurrence (k : KeyFrame) (l : List KeyFrame) (h : k ∈ l) :
    ∃ pre post, l = pre ++ k :: post ∧ k ∉ post := by
  induction l with
  | nil => simp at h
  | cons a tl ih =>
    by_cases hk : k ∈ tl
    · obtain ⟨pre, post, e, hp⟩ := ih hk
      exact ⟨a :: pre, post, by rw [e]; rfl, hp⟩
    · rcases List.mem_cons.1 h with h | h
      · exact ⟨[], tl, by rw [h]; rfl, hk⟩
      · exact absurd h hk

theorem loopConnections_append (env : CorrectCollaborators) (conn l1 l2 : List KeyFrame)
    (w : World) :
    loopConnections env conn (l1 ++ l2) w =
      l2.foldl (loopConnectionsStep env conn) (loopConnections env conn l1 w) := by
  unfold loopConnections
  rw [List.foldl_append]

theorem loopConnections_fold_other (env : CorrectCollaborators) (conn : List KeyFrame)
    (k : KeyFrame) (l : List KeyFrame) :
    ∀ acc : World × (KeyFrame → Option (Finset KeyFrame)), k ∉ l →
    (l.foldl (loopConnectionsStep env conn) acc).2 k = acc.2 k := by
  induction l with
  | nil => intro acc _; rfl
  | cons a tl ih =>
    intro acc hk
    rw [List.foldl_cons, ih _ (fun h => hk (List.mem_cons_of_mem _ h))]
    have : k ≠ a := fun h => hk (h ▸ List.mem_cons_self _ _)
    simp only [loopConnectionsStep]
    exact Function.update_noteq this _ _

theorem loopConnections_none (env : CorrectCollaborators) (conn l : List KeyFrame) (w : World)
    (k : KeyFrame) (hk : k ∉ l) : (loopConnections env conn l w).2 k = none := by
  unfold loopConnections
  rw [loopConnections_fold_other env conn k l _ hk]

theorem loopConnections_last (env : CorrectCollaborators) (conn pre post : List KeyFrame)
    (w : World) (k : KeyFrame) (hk : k ∉ post) :
    (loopConnections env conn (pre ++ k :: post) w).2 k =
      some (((env.UpdateConnections k (loopConnections env conn pre w).1).GetConnectedKeyFrames k
        \ ((loopConnections env conn pre w).1.covis.GetVectorCovisibleKeyFrames k).toFinset)
        \ conn.toFinset) := by
  rw [loopConnections_append, List.foldl_cons, loopConnections_fold_other env conn k post _ hk]
  simp only [loopConnectionsStep, Function.update_same, eraseAll_eq]

/-! ## Theorem on the new links of `CorrectLoop` -/

/-- C17: for every keyframe `k` of the connected set `mvpCurrentConnectedKFs`, with the map as
it is when the loop of lines 1004-1020 reaches `k` (for the last time, should the vector list
it twice), `LoopConnections[k]` is the set of connected keyframes of `k` after
`UpdateConnections`, minus the covisible keyframes `k` had immediately before, minus the
connected set; so it is a subset of the refreshed neighbours and contains no previous
neighbour of `k`, no keyframe of the connected set, and not `k`.  A keyframe outside the
connected set has no entry. -/
theorem CorrectLoop_LoopConnections (env : CorrectCollaborators)
    (mvpCurrentConnectedKFs : List KeyFrame) (w : World) (k : KeyFrame) :
    (k ∈ mvpCurrentConnectedKFs →
      ∃ pre post S, mvpCurrentConnectedKFs = pre ++ k :: post ∧ k ∉ post ∧
        (loopConnections env mvpCurrentConnectedKFs mvpCurrentConnectedKFs w).2 k = some S ∧
        S = ((env.UpdateConnections k
              (loopConnections env mvpCurrentConnectedKFs pre w).1).GetConnectedKeyFrames k
            \ ((loopConnections env mvpCurrentConnectedKFs pre
                w).1.covis.GetVectorCovisibleKeyFrames k).toFinset)
            \ mvpCurrentConnectedKFs.toFinset ∧
        S ⊆ (env.UpdateConnections k
              (loopConnections env mvpCurrentConnectedKFs pre w).1).GetConnectedKeyFrames k ∧
        (∀ x ∈ (loopConnections env mvpCurrentConnectedKFs pre
                w).1.covis.GetVectorCovisibleKeyFrames k, x ∉ S) ∧
        (∀ x ∈ mvpCurrentConnectedKFs, x ∉ S) ∧
        k ∉ S) ∧
    (k ∉ mvpCurrentConnectedKFs →
      (loopConnections env mvpCurrentConnectedKFs mvpCurrentConnectedKFs w).2 k = none) := by
  refine ⟨fun hk => ?_, fun hk => loopConnections_none env _ _ w k hk⟩
  obtain ⟨pre, post, e, hp⟩ := exists_last_occurrence k mvpCurrentConnectedKFs hk
  refine ⟨pre, post, _, e, hp, ?_, rfl, ?_, ?_, ?_, ?_⟩
  · have h := loopConnections_last env mvpCurrentConnectedKFs pre post w k hp
    rw [← e] at h
    exact h
  · intro x hx
    simp only [Finset.mem_sdiff] at hx
    exact hx.1.1
  · intro x hx hS
    simp only [Finset.mem_sdiff, List.mem_toFinset] at hS
    exact hS.1.2 hx
  · intro x hx hS
    simp only [Finset.mem_sdiff, List.mem_toFinset] at hS
    exact hS.2 hx
  · intro hS
    simp only [Finset.mem_sdiff, List.mem_toFinset] at hS
    exact hS.2 hk

/-- C17, at a concrete input: the connected set `[4, 5]` of the example map. -/
theorem CorrectLoop_LoopConnections_witness :
    ∃ pre post S, [4, 5] = pre ++ 5 :: post ∧ 5 ∉ post ∧
      (loopConnections exampleCorrectCollaborators [4, 5] [4, 5] connectedWorld).2 5 = some S ∧
      (∀ x ∈ ([4, 5] : List KeyFrame), x ∉ S) := by
  obtain ⟨pre, post, S, h1, h2, h3, _, _, _, h7, _⟩ :=
    (CorrectLoop_LoopConnections exampleCorrectCollaborators [4, 5] connectedWorld 5).1
      (by decide)
  exact ⟨pre, post, S, h1, h2, h3, h7⟩

/-! ## Lemmas on the spanning-tree walk of `RunGlobalBundleAdjustment` -/

theorem mem_sChilds (w : World) (k c : KeyFrame) : c ∈ sChilds w k ↔ c ∈ w.GetChilds k := by
  unfold sChilds
  exact Finset.mem_sort _

theorem sChilds_nodup (w : World) (k : KeyFrame) : (sChilds w k).Nodup := by
  unfold sChilds
  exact Finset.sort_nodup _ _

theorem childStep_frame (nLoopKF : Nat) (k : KeyFrame) (Twc : SE3) (w : World)
    (c : KeyFrame) :
    (childStep nLoopKF k Twc w c).pose = w.pose ∧
    (childStep nLoopKF k Twc w c).GetChilds = w.GetChilds ∧
    (∀ x, x ≠ c → (childStep nLoopKF k Twc w c).mTcwGBA x = w.mTcwGBA x ∧
      (childStep nLoopKF k Twc w c).mnBAGlobalForKF x = w.mnBAGlobalForKF x) := by
  unfold childStep
  split
  · refine ⟨rfl, rfl, fun x hx => ?_⟩
    simp [Function.update_noteq hx]
  · exact ⟨rfl, rfl, fun x _ => ⟨rfl, rfl⟩⟩

theorem childStep_at (nLoopKF : Nat) (k : KeyFrame) (Twc : SE3) (w : World) (c : KeyFrame) :
    (w.mnBAGlobalForKF c ≠ nLoopKF →
      (childStep nLoopKF k Twc w c).mTcwGBA c = ((w.pose c).mul Twc).mul (w.mTcwGBA k)) ∧
    (w.mnBAGlobalForKF c = nLoopKF → (childStep nLoopKF k Twc w c).mTcwGBA c = w.mTcwGBA c) := by
  unfold childStep
  refine ⟨fun h => ?_, fun h => ?_⟩
  · rw [if_pos h]
    simp
  · rw [if_neg (by simpa using h)]

/-- The loop over the children of `k`: poses and children are untouched, a keyframe that is
not among the children keeps its `mTcwGBA` and tag, and each child gets its pose relative to
`k` composed with the `mTcwGBA` of `k`, unless it is tagged. -/
theorem childFold (nLoopKF : Nat) (k : KeyFrame) (Twc : SE3) (cs : List KeyFrame) :
    ∀ w : World, cs.Nodup → k ∉ cs →
    (cs.foldl (childStep nLoopKF k Twc) w).pose = w.pose ∧
    (cs.foldl (childStep nLoopKF k Twc) w).GetChilds = w.GetChilds ∧
    (∀ x, x ∉ cs → (cs.foldl (childStep nLoopKF k Twc) w).mTcwGBA x = w.mTcwGBA x ∧
      (cs.foldl (childStep nLoopKF k Twc) w).mnBAGlobalForKF x = w.mnBAGlobalForKF x) ∧
    (∀ c ∈ cs,
      (w.mnBAGlobalForKF c ≠ nLoopKF →
        (cs.foldl (childStep nLoopKF k Twc) w).mTcwGBA c
          = ((w.pose c).mul Twc).mul (w.mTcwGBA k)) ∧
      (w.mnBAGlobalForKF c = nLoopKF →
        (cs.foldl (childStep nLoopKF k Twc) w).mTcwGBA c = w.mTcwGBA c)) := by
  induction cs with
  | nil => intro w _ _; exact ⟨rfl, rfl, fun _ _ => ⟨rfl, rfl⟩, fun c hc => by simp at hc⟩
  | cons a tl ih =>
    intro w hnd hk
    rw [List.nodup_cons] at hnd
    have hka : k ≠ a := fun h => hk (h ▸ List.mem_cons_self _ _)
    have hktl : k ∉ tl := fun h => hk (List.mem_cons_of_mem _ h)
    obtain ⟨i1, i2, i3, i4⟩ := ih (childStep nLoopKF k Twc w a) hnd.2 hktl
    obtain ⟨f1, f2, f3⟩ := childStep_frame nLoopKF k Twc w a
    rw [List.foldl_cons]
    refine ⟨i1.trans f1, i2.trans f2, fun x hx => ?_, fun c hc => ?_⟩
    · have hxa : x ≠ a := fun h => hx (h ▸ List.mem_cons_self _ _)
      have hxtl : x ∉ tl := fun h => hx (List.mem_cons_of_mem _ h)
      exact ⟨(i3 x hxtl).1.trans (f3 x hxa).1, (i3 x hxtl).2.trans (f3 x hxa).2⟩
    · rcases List.mem_cons.1 hc with hc | hc
      · subst hc
        rw [(i3 c hnd.1).1]
        exact childStep_at nLoopKF k Twc w c
      · have hca : c ≠ a := fun h => hnd.1 (h ▸ hc)
        have := i4 c hc
        rw [f1, (f3 c hca).1, (f3 c hca).2, (f3 k hka).1] at this
        exact this

theorem visitKeyFrame_spec (nLoopKF : Nat) (w : World) (k : KeyFrame)
    (hk : k ∉ w.GetChilds k) :
    (visitKeyFrame nLoopKF w k).GetChilds = w.GetChilds ∧
    (visitKeyFrame nLoopKF w k).pose = Function.update w.pose k (w.mTcwGBA k) ∧
    (∀ x, x ∉ w.GetChilds k →
      (visitKeyFrame nLoopKF w k).mTcwGBA x = w.mTcwGBA x ∧
      (visitKeyFrame nLoopKF w k).mnBAGlobalForKF x = w.mnBAGlobalForKF x) ∧
    (∀ c ∈ w.GetChilds k,
      (w.mnBAGlobalForKF c ≠ nLoopKF →
        (visitKeyFrame nLoopKF w k).mTcwGBA c
          = ((w.pose c).mul (w.pose k).GetPoseInverse).mul (w.mTcwGBA k)) ∧
      (w.mnBAGlobalForKF c = nLoopKF →
        (visitKeyFrame nLoopKF w k).mTcwGBA c = w.mTcwGBA c)) := by
  have hk' : k ∉ sChilds w k := fun h => hk ((mem_sChilds w k k).1 h)
  obtain ⟨c1, c2, c3, c4⟩ := childFold nLoopKF k (w.pose k).GetPoseInverse (sChilds w k) w
    (sChilds_nodup w k) hk'
  unfold visitKeyFrame
  simp only
  refine ⟨c2, ?_, fun x hx => ?_, fun c hc => ?_⟩
  · rw [c1, (c3 k hk').1]
  · exact c3 x (fun h => hx ((mem_sChilds w k x).1 h))
  · exact c4 c ((mem_sChilds w k c).2 hc)

theorem walk_mem (w0 w : World) (h : w.GetChilds = w0.GetChilds) (k : KeyFrame)
    (rest visited : List KeyFrame) (x : KeyFrame) :
    x ∈ (visited ++ [k]) ++ (rest ++ sChilds w k) ↔
      x ∈ visited ++ k :: rest ∨ x ∈ w0.GetChilds k := by
  simp only [List.mem_append, List.mem_cons, List.mem_singleton, mem_sChilds, h,
    List.not_mem_nil, or_false]
  tauto

/-- One iteration of the walk keeps `WalkOK`. -/
theorem visitKeyFrame_ok (nLoopKF : Nat) (w0 w : World) (nodes : Finset KeyFrame)
    (hF : Forest w0 nodes) (k : KeyFrame) (rest visited : List KeyFrame)
    (h : WalkOK nLoopKF w0 w (k :: rest) visited) :
    WalkOK nLoopKF w0 (visitKeyFrame nLoopKF w k) (rest ++ sChilds w k) (visited ++ [k]) := by
  have hnd := h.nodup
  have hkin : k ∈ visited ++ k :: rest := by simp
  have hkv : k ∉ visited := by
    intro hv
    have := (List.nodup_append.1 hnd).2.2
    exact this hv (List.mem_cons_self _ _)
  have hkreach : Reachable w0 k := h.reach k hkin
  have fresh : ∀ c ∈ w0.GetChilds k, c ∉ visited ++ k :: rest := by
    intro c hc hmem
    rcases h.found c hmem with ho | ⟨p, hp, hcp⟩
    · exact hF.root k hkreach c ho hc
    · have := hF.parent p k c (h.reach p (List.mem_append_left _ hp)) hkreach hcp hc
      exact hkv (this ▸ hp)
  have notchild : ∀ c ∈ w0.GetChilds k, ∀ p ∈ visited, c ∉ w0.GetChilds p := by
    intro c hc p hp hcp
    have := hF.parent p k c (h.reach p (List.mem_append_left _ hp)) hkreach hcp hc
    exact hkv (this ▸ hp)
  have hkk : k ∉ w.GetChilds k := by
    rw [h.childs]
    exact fun hc => fresh k hc hkin
  have hvis : ∀ x ∈ visited, x ∉ w.GetChilds k := by
    intro x hx hc
    rw [h.childs] at hc
    exact fresh x hc (List.mem_append_left _ hx)
  obtain ⟨v1, v2, v3, v4⟩ := visitKeyFrame_spec nLoopKF w k hkk
  have hmem := walk_mem w0 w h.childs k rest visited
  refine ⟨v1.trans h.childs, ?_, ?_, ?_, ?_, ?_, ?_, ?_, ?_, ?_⟩
  · have e : (visited ++ [k]) ++ (rest ++ sChilds w k) =
        (visited ++ k :: rest) ++ sChilds w k := by simp
    rw [e]
    refine List.Nodup.append hnd (sChilds_nodup w k) ?_
    intro a ha hb
    rw [mem_sChilds, h.childs] at hb
    exact fresh a hb ha
  · intro x hx
    rcases (hmem x).1 hx with hx | hx
    · exact h.reach x hx
    · exact Reachable.child k x hkreach hx
  · intro x hx
    rcases (hmem x).1 hx with hx | hx
    · rcases h.found x hx with ho | ⟨p, hp, hcp⟩
      · exact Or.inl ho
      · exact Or.inr ⟨p, List.mem_append_left _ hp, hcp⟩
    · exact Or.inr ⟨k, by simp, hx⟩
  · intro p hp c hc
    rcases List.mem_append.1 hp with hp | hp
    · exact (hmem c).2 (Or.inl (h.closed p hp c hc))
    · rw [List.mem_singleton.1 hp] at hc
      exact (hmem c).2 (Or.inr hc)
  · intro o ho
    exact (hmem o).2 (Or.inl (h.origins o ho))
  · intro x hx
    have hxk : x ≠ k := fun e => hx (by rw [e]; simp)
    have hxv : x ∉ visited := fun e => hx (List.mem_append_left _ e)
    rw [v2, Function.update_noteq hxk]
    exact h.pose_unvisited x hxv
  · intro x hx
    rcases List.mem_append.1 hx with hx | hx
    · have hxk : x ≠ k := fun e => hkv (e ▸ hx)
      rw [v2, Function.update_noteq hxk, (v3 x (hvis x hx)).1]
      exact h.pose_visited x hx
    · rw [List.mem_singleton.1 hx, v2, Function.update_same, (v3 k hkk).1]
  · intro x hx
    have hxk : x ∉ w.GetChilds k := by
      rw [h.childs]
      exact hx k (by simp)
    rw [(v3 x hxk).1, (v3 x hxk).2]
    exact h.gba_untouched x (fun p hp => hx p (List.mem_append_left _ hp))
  · intro p hp c hc
    rcases List.mem_append.1 hp with hp | hp
    · have hck : c ∉ w.GetChilds k := by
        rw [h.childs]
        exact fun hk => notchild c hk p hp hc
      rw [(v3 c hck).1, (v3 p (hvis p hp)).1]
      exact h.gba_child p hp c hc
    · rw [List.mem_singleton.1 hp] at hc ⊢
      have hcw : c ∈ w.GetChilds k := by rw [h.childs]; exact hc
      have hcv : c ∉ visited := fun e => fresh c hc (List.mem_append_left _ e)
      have hun := h.gba_untouched c (notchild c hc)
      have := v4 c hcw
      rw [hun.1, hun.2, h.pose_unvisited c hcv, h.pose_unvisited k hkv] at this
      rw [(v3 k hkk).1]
      exact this

theorem walk_length_le (nLoopKF : Nat) (w0 w : World) (nodes : Finset KeyFrame)
    (hF : Forest w0 nodes) (queue visited : List KeyFrame)
    (h : WalkOK nLoopKF w0 w queue visited) : visited.length + queue.length ≤ nodes.card := by
  have hsub : (visited ++ queue).toFinset ⊆ nodes := by
    intro x hx
    exact hF.finite x (h.reach x (List.mem_toFinset.1 hx))
  have := Finset.card_le_card hsub
  rw [List.toFinset_card_of_nodup h.nodup, List.length_append] at this
  exact this

/-- With enough fuel the walk ends, in a state that satisfies `WalkOK` with an empty list. -/
theorem spanningTreeWalk_ok (nLoopKF : Nat) (w0 : World) (nodes : Finset KeyFrame)
    (hF : Forest w0 nodes) : ∀ (fuel : Nat) (w : World) (queue visited : List KeyFrame),
    WalkOK nLoopKF w0 w queue visited → nodes.card < fuel + visited.length →
    ∃ wF vF, spanningTreeWalk nLoopKF fuel w queue visited = some (wF, vF) ∧
      WalkOK nLoopKF w0 wF [] vF := by
  intro fuel
  induction fuel with
  | zero =>
    intro w queue visited h hlt
    cases queue with
    | nil => exact ⟨w, visited, by simp [spanningTreeWalk], h⟩
    | cons k rest =>
      have := walk_length_le nLoopKF w0 w nodes hF _ _ h
      simp only [List.length_cons] at this
      omega
  | succ n ih =>
    intro w queue visited h hlt
    cases queue with
    | nil => exact ⟨w, visited, by simp [spanningTreeWalk], h⟩
    | cons k rest =>
      have hstep := visitKeyFrame_ok nLoopKF w0 w nodes hF k rest visited h
      obtain ⟨wF, vF, e, hok⟩ := ih _ _ _ hstep (by
        rw [List.length_append, List.length_singleton]; omega)
      exact ⟨wF, vF, by rw [spanningTreeWalk]; exact e, hok⟩

theorem spanningTreeWalk_more_fuel (nLoopKF : Nat) : ∀ (fuel : Nat) (w : World)
    (queue visited : List KeyFrame) (r : World × List KeyFrame),
    spanningTreeWalk nLoopKF fuel w queue visited = some r →
    ∀ extra, spanningTreeWalk nLoopKF (fuel + extra) w queue visited = some r := by
  intro fuel
  induction fuel with
  | zero =>
    intro w queue visited r h extra
    cases queue with
    | nil =>
      cases extra with
      | zero => exact h
      | succ e =>
        rw [spanningTreeWalk] at h ⊢
        exact h
    | cons k rest => simp [spanningTreeWalk] at h
  | succ n ih =>
    intro w queue visited r h extra
    cases queue with
    | nil =>
      rw [spanningTreeWalk] at h
      have e : n + 1 + extra = (n + extra) + 1 := by omega
      rw [e, spanningTreeWalk]
      exact h
    | cons k rest =>
      rw [spanningTreeWalk] at h
      have e : n + 1 + extra = (n + extra) + 1 := by omega
      rw [e, spanningTreeWalk]
      exact ih _ _ _ r h extra

theorem walkOK_init (nLoopKF : Nat) (w : World) (nodes : Finset KeyFrame)
    (hF : Forest w nodes) : WalkOK nLoopKF w w w.mvpKeyFrameOrigins [] := by
  refine ⟨rfl, by simpa using hF.origins, ?_, ?_, ?_, ?_, fun _ _ => rfl, ?_,
    fun _ _ => ⟨rfl, rfl⟩, ?_⟩
  · intro x hx
    exact Reachable.origin x (by simpa using hx)
  · intro x hx
    exact Or.inl (by simpa using hx)
  · intro p hp; simp at hp
  · intro o ho; simpa using ho
  · intro x hx; simp at hx
  · intro p hp; simp at hp

/-! Rigid poses stay rigid. -/

theorem orthogonal_mul (A B : Mat3) (hA : A * A.transpose = 1) (hB : B * B.transpose = 1) :
    (A * B) * (A * B).transpose = 1 := by
  rw [Matrix.transpose_mul, Matrix.mul_assoc, ← Matrix.mul_assoc B, hB, Matrix.one_mul, hA]

theorem orthogonal_transpose (A : Mat3) (hA : A * A.transpose = 1) :
    A.transpose * A.transpose.transpose = 1 := by
  rw [Matrix.transpose_transpose]
  exact transpose_mul_self_of_orthogonal A hA

theorem childStep_rigid (nLoopKF : Nat) (k : KeyFrame) (Twc : SE3) (w : World)
    (c : KeyFrame) (hT : Twc.R * Twc.R.transpose = 1) (h : AllRigid w) :
    AllRigid (childStep nLoopKF k Twc w c) := by
  unfold childStep
  split
  · intro x
    refine ⟨(h x).1, ?_⟩
    by_cases hx : x = c
    · subst hx
      simp only [Function.update_same, SE3.mul]
      exact orthogonal_mul _ _ (orthogonal_mul _ _ (h x).1 hT) (h k).2
    · simp only [Function.update_noteq hx]
      exact (h x).2
  · exact h

theorem childFold_rigid (nLoopKF : Nat) (k : KeyFrame) (Twc : SE3)
    (hT : Twc.R * Twc.R.transpose = 1) (cs : List KeyFrame) :
    ∀ w : World, AllRigid w → AllRigid (cs.foldl (childStep nLoopKF k Twc) w) := by
  induction cs with
  | nil => intro w h; exact h
  | cons a tl ih =>
    intro w h
    rw [List.foldl_cons]
    exact ih _ (childStep_rigid nLoopKF k Twc w a hT h)

theorem visitKeyFrame_rigid (nLoopKF : Nat) (w : World) (k : KeyFrame) (h : AllRigid w) :
    AllRigid (visitKeyFrame nLoopKF w k) := by
  have hT : (w.pose k).GetPoseInverse.R * (w.pose k).GetPoseInverse.R.transpose = 1 :=
    orthogonal_transpose _ (h k).1
  have h1 := childFold_rigid nLoopKF k _ hT (sChilds w k) w h
  unfold visitKeyFrame
  intro x
  simp only
  refine ⟨?_, (h1 x).2⟩
  by_cases hx : x = k
  · subst hx
    rw [Function.update_same]
    exact (h1 x).2
  · rw [Function.update_noteq hx]
    exact (h1 x).1

theorem spanningTreeWalk_rigid (nLoopKF : Nat) : ∀ (fuel : Nat) (w : World)
    (queue visited : List KeyFrame) (r : World × List KeyFrame),
    spanningTreeWalk nLoopKF fuel w queue visited = some r → AllRigid w → AllRigid r.1 := by
  intro fuel
  induction fuel with
  | zero =>
    intro w queue visited r h hr
    cases queue with
    | nil =>
      rw [spanningTreeWalk] at h
      cases h
      exact hr
    | cons k rest => simp [spanningTreeWalk] at h
  | succ n ih =>
    intro w queue visited r h hr
    cases queue with
    | nil =>
      rw [spanningTreeWalk] at h
      cases h
      exact hr
    | cons k rest =>
      rw [spanningTreeWalk] at h
      exact ih _ _ _ r h (visitKeyFrame_rigid nLoopKF w k hr)

theorem exampleWorld_reachable (k : KeyFrame) (h : Reachable exampleWorld k) :
    k = 1 ∨ k = 2 ∨ k = 3 := by
  induction h with
  | origin k hk =>
    left
    simpa [exampleWorld] using hk
  | child p c _ hc _ =>
    right
    simp only [exampleWorld] at hc
    split at hc
    · simpa using hc
    · simp at hc

theorem exampleWorld_forest : Forest exampleWorld {1, 2, 3} := by
  have hch : ∀ p c, c ∈ exampleWorld.GetChilds p → p = 1 ∧ (c = 2 ∨ c = 3) := by
    intro p c hc
    simp only [exampleWorld] at hc
    split at hc
    · exact ⟨by assumption, by simpa using hc⟩
    · simp at hc
  refine ⟨fun k hk => ?_, by simp [exampleWorld], ?_, ?_⟩
  · rcases exampleWorld_reachable k hk with h | h | h <;> simp [h]
  · intro p _ o ho hc
    have ho1 : o = 1 := by simpa [exampleWorld] using ho
    rcases (hch p o hc).2 with h | h <;> rw [ho1] at h <;> exact absurd h (by decide)
  · intro p q c _ _ hp hq
    rw [(hch p c hp).1, (hch q c hq).1]

/-! ## Theorem on the spanning-tree walk of `RunGlobalBundleAdjustment` -/

/-- C20: when the child relation reachable from the origins of the map is a finite forest,
the spanning-tree walk of `RunGlobalBundleAdjustment` ends (within as many iterations as there
are reachable keyframes) and handles each reachable keyframe exactly once; a child not tagged
with `nLoopKF` finally receives the pose `T_child_old * T_parent_old⁻¹ * T_parent_new`, so
that, the poses being rigid, `T_child_new * T_parent_new⁻¹ = T_child_old * T_parent_old⁻¹`; a
child already tagged, like an origin, receives its `mTcwGBA`, the pose of the optimizer; a
keyframe that is not reachable keeps its pose. -/
theorem RunGlobalBundleAdjustment_walk (nLoopKF : Nat) (w : World) (nodes : Finset KeyFrame)
    (hF : Forest w nodes) :
    ∃ wF visited,
      (∀ fuel, nodes.card < fuel →
        spanningTreeWalk nLoopKF fuel w w.mvpKeyFrameOrigins [] = some (wF, visited)) ∧
      visited.Nodup ∧
      (∀ k, k ∈ visited ↔ Reachable w k) ∧
      (∀ p c, Reachable w p → c ∈ w.GetChilds p →
        (w.mnBAGlobalForKF c ≠ nLoopKF →
          wF.pose c = ((w.pose c).mul (w.pose p).GetPoseInverse).mul (wF.pose p)) ∧
        (w.mnBAGlobalForKF c ≠ nLoopKF → AllRigid w →
          (wF.pose c).mul (wF.pose p).GetPoseInverse =
            (w.pose c).mul (w.pose p).GetPoseInverse) ∧
        (w.mnBAGlobalForKF c = nLoopKF → wF.pose c = w.mTcwGBA c)) ∧
      (∀ o ∈ w.mvpKeyFrameOrigins, wF.pose o = w.mTcwGBA o) ∧
      (∀ k, ¬ Reachable w k → wF.pose k = w.pose k) := by
  obtain ⟨wF, vF, hrun, hok⟩ := spanningTreeWalk_ok nLoopKF w nodes hF (nodes.card + 1) w
    w.mvpKeyFrameOrigins [] (walkOK_init nLoopKF w nodes hF) (by simp)
  have hvis : ∀ k, k ∈ vF ↔ Reachable w k := by
    intro k
    constructor
    · intro hk
      exact hok.reach k (by simpa using hk)
    · intro hk
      induction hk with
      | origin k hk => simpa using hok.origins k hk
      | child p c _ hc ih => simpa using hok.closed p ih c hc
  have hrigid : AllRigid w → AllRigid wF := fun h =>
    spanningTreeWalk_rigid nLoopKF _ _ _ _ _ hrun h
  refine ⟨wF, vF, fun fuel hfuel => ?_, by simpa using hok.nodup, hvis,
    fun p c hp hc => ?_, fun o ho => ?_, fun k hk => ?_⟩
  · have := spanningTreeWalk_more_fuel nLoopKF _ _ _ _ _ hrun (fuel - (nodes.card + 1))
    have e : nodes.card + 1 + (fuel - (nodes.card + 1)) = fuel := by omega
    rw [e] at this
    exact this
  · have hpv : p ∈ vF := (hvis p).2 hp
    have hcv : c ∈ vF := (hvis c).2 (Reachable.child p c hp hc)
    have hg := hok.gba_child p hpv c hc
    have hmul : w.mnBAGlobalForKF c ≠ nLoopKF →
        wF.pose c = ((w.pose c).mul (w.pose p).GetPoseInverse).mul (wF.pose p) := by
      intro ht
      rw [hok.pose_visited c hcv, hok.pose_visited p hpv]
      exact hg.1 ht
    refine ⟨hmul, fun ht hr => ?_, fun ht => ?_⟩
    · rw [hmul ht]
      exact SE3_mul_GetPoseInverse _ _ (hrigid hr p).1
    · rw [hok.pose_visited c hcv]
      exact hg.2 ht
  · have hov : o ∈ vF := (hvis o).2 (Reachable.origin o ho)
    rw [hok.pose_visited o hov]
    refine (hok.gba_untouched o ?_).1
    intro p hp hc
    exact hF.root p ((hvis p).1 hp) o ho hc
  · exact hok.pose_unvisited k (fun h => hk ((hvis k).1 h))

/-- C20, at a concrete input: the example map, whose origin `1` has the children `2` and
`3`. -/
theorem RunGlobalBundleAdjustment_walk_witness :
    ∃ wF visited,
      spanningTreeWalk 7 4 exampleWorld exampleWorld.mvpKeyFrameOrigins [] = some (wF, visited) ∧
      visited.Nodup ∧ (∀ k, k ∈ visited ↔ Reachable exampleWorld k) := by
  obtain ⟨wF, visited, h1, h2, h3, _⟩ :=
    RunGlobalBundleAdjustment_walk 7 exampleWorld {1, 2, 3} exampleWorld_forest
  exact ⟨wF, visited, h1 4 (by decide), h2, h3⟩

/-! ## Lemmas on the reference score of `publishKeyFrame` -/

/-- The loop of lines 394-407 from the value `m0`: the result is at most `m0` and at most every
score met, and it is `m0` or one of the scores. -/
theorem referenceScore_fold (env : PublishCollaborators) (cur : KeyFrame)
    (l : List KeyFrame) : ∀ m0 : ℚ,
    (l.foldl (fun minScore pKF =>
      if env.isBad pKF then minScore
      else
        let score := env.score (env.mBowVec cur) (env.mBowVec pKF)
        if score < minScore then score else minScore) m0) ≤ m0 ∧
    (∀ x ∈ (l.filter fun k => !env.isBad k).map fun k =>
        env.score (env.mBowVec cur) (env.mBowVec k),
      (l.foldl (fun minScore pKF =>
        if env.isBad pKF then minScore
        else
          let score := env.score (env.mBowVec cur) (env.mBowVec pKF)
          if score < minScore then score else minScore) m0) ≤ x) ∧
    ((l.foldl (fun minScore pKF =>
      if env.isBad pKF then minScore
      else
        let score := env.score (env.mBowVec cur) (env.mBowVec pKF)
        if score < minScore then score else minScore) m0) = m0 ∨
     (l.foldl (fun minScore pKF =>
      if env.isBad pKF then minScore
      else
        let score := env.score (env.mBowVec cur) (env.mBowVec pKF)
        if score < minScore then score else minScore) m0) ∈
      (l.filter fun k => !env.isBad k).map fun k =>
        env.score (env.mBowVec cur) (env.mBowVec k)) := by
  induction l with
  | nil => intro m0; exact ⟨le_refl _, fun x hx => by simp at hx, Or.inl rfl⟩
  | cons k tl ih =>
    intro m0
    rw [List.foldl_cons]
    cases hb : env.isBad k
    · simp only [hb, Bool.false_eq_true, if_false, List.filter_cons, Bool.not_false, if_true,
        List.map_cons, List.mem_cons]
      by_cases hlt : env.score (env.mBowVec cur) (env.mBowVec k) < m0
      · rw [if_pos hlt]
        obtain ⟨h1, h2, h3⟩ := ih (env.score (env.mBowVec cur) (env.mBowVec k))
        refine ⟨le_trans h1 (le_of_lt hlt), ?_, ?_⟩
        · intro x hx
          rcases hx with hx | hx
          · rw [hx]; exact h1
          · exact h2 x hx
        · rcases h3 with h3 | h3
          · exact Or.inr (Or.inl h3)
          · exact Or.inr (Or.inr h3)
      · rw [if_neg hlt]
        obtain ⟨h1, h2, h3⟩ := ih m0
        refine ⟨h1, ?_, ?_⟩
        · intro x hx
          rcases hx with hx | hx
          · rw [hx]; exact le_trans h1 (not_lt.1 hlt)
          · exact h2 x hx
        · rcases h3 with h3 | h3
          · exact Or.inl h3
          · exact Or.inr (Or.inr h3)
    · simp only [hb, if_true, List.filter_cons, Bool.not_true, Bool.false_eq_true, if_false]
      exact ih m0

theorem referenceScore_spec (env : PublishCollaborators) (cur : KeyFrame) :
    referenceScore env cur ≤ 1 ∧
    (∀ x ∈ neighbourScores env cur, referenceScore env cur ≤ x) ∧
    (referenceScore env cur = 1 ∨ referenceScore env cur ∈ neighbourScores env cur) :=
  referenceScore_fold env cur (env.GetVectorCovisibleKeyFrames cur) 1

/-! ## Theorem on the reference score of `publishKeyFrame` -/

/-- C21: the `minScore` of the message published for the keyframe at the front of the queue.
When the keyframe has no covisible keyframe that is not bad, `minScore` is `1`.  When it has
one and every score against such a keyframe is at most `1`, `minScore` is the minimum of those
scores: it is one of them and it is at most each of them; bad covisible keyframes play no
part.  In every case `minScore` is the smaller of `1` and those scores. -/
theorem publishKeyFrame_minScore (env : PublishCollaborators) (robotID_ : Int)
    (s : LoopCorrection) (pKF : KeyFrame) (rest : List KeyFrame)
    (hq : s.mlpLoopKeyFrameQueue = pKF :: rest) :
    ∃ s' msg, publishKeyFrame env robotID_ s = some (s', msg) ∧
      (neighbourScores env pKF = [] → msg.minScore = 1) ∧
      (neighbourScores env pKF ≠ [] → (∀ x ∈ neighbourScores env pKF, x ≤ 1) →
        msg.minScore ∈ neighbourScores env pKF ∧
        ∀ x ∈ neighbourScores env pKF, msg.minScore ≤ x) ∧
      msg.minScore ≤ 1 ∧ (∀ x ∈ neighbourScores env pKF, msg.minScore ≤ x) ∧
      (msg.minScore = 1 ∨ msg.minScore ∈ neighbourScores env pKF) := by
  obtain ⟨h1, h2, h3⟩ := referenceScore_spec env pKF
  have e : (keyFrameMsg env robotID_ pKF).minScore = referenceScore env pKF := rfl
  refine ⟨{ s with mpCurrentKF := pKF, mlpLoopKeyFrameQueue := rest },
    keyFrameMsg env robotID_ pKF, by simp only [publishKeyFrame, hq], ?_, ?_, ?_, ?_, ?_⟩
  · intro he
    rw [e]
    rcases h3 with h3 | h3
    · exact h3
    · rw [he] at h3
      simp at h3
  · intro hne hle
    rw [e]
    refine ⟨?_, h2⟩
    rcases h3 with h3 | h3
    · obtain ⟨y, hy⟩ := List.exists_mem_of_ne_nil _ hne
      have : referenceScore env pKF = y :=
        le_antisymm (h2 y hy) (by rw [h3]; exact hle y hy)
      rw [this]; exact hy
    · exact h3
  · rw [e]; exact h1
  · rw [e]; exact h2
  · rw [e]; exact h3

/-- C21, at a concrete input: keyframe `5` of the example map, with scores `1/2` and `1/4`
against its covisible keyframes `3` and `6` and `1/10` against the bad keyframe `4`, is
published with a `minScore` among `[1/2, 1/4]`. -/
theorem publishKeyFrame_minScore_witness :
    ∃ s' msg, publishKeyFrame examplePublisher 0
        { exampleCorrection false false 0 with mlpLoopKeyFrameQueue := [5] } = some (s', msg) ∧
      msg.minScore ∈ neighbourScores examplePublisher 5 ∧
      ∀ x ∈ neighbourScores examplePublisher 5, msg.minScore ≤ x := by
  have hs : neighbourScores examplePublisher 5 = [1/2, 1/4] := by
    simp [neighbourScores, examplePublisher]
  obtain ⟨s', msg, h1, _, h3, _⟩ := publishKeyFrame_minScore examplePublisher 0
    { exampleCorrection false false 0 with mlpLoopKeyFrameQueue := [5] } 5 [] rfl
  refine ⟨s', msg, h1, h3 (by rw [hs]; simp) (by
    rw [hs]
    intro x hx
    simp only [List.mem_cons, List.mem_singleton, List.not_mem_nil, or_false] at hx
    rcases hx with hx | hx <;> rw [hx] <;> norm_num)⟩

/-! ## Lemmas on the vectors `Match` rebuilds from a published message -/

theorem addWeight_snoc (l : BowVector) (id : Nat) (v : ℚ) (h : ∀ e ∈ l, e.1 < id) :
    addWeight l id v = l ++ [(id, v)] := by
  induction l with
  | nil => rfl
  | cons a tl ih =>
    obtain ⟨w, x⟩ := a
    have hw : w < id := h (w, x) (List.mem_cons_self _ _)
    unfold addWeight
    rw [if_neg (by omega), if_neg (by omega), ih (fun e he => h e (List.mem_cons_of_mem _ he))]
    rfl

theorem addFeature_new (l : FeatureVector) (id f : Nat) (h : ∀ e ∈ l, e.1 < id) :
    addFeature l id f = l ++ [(id, [f])] := by
  induction l with
  | nil => rfl
  | cons a tl ih =>
    obtain ⟨n, x⟩ := a
    have hn : n < id := h (n, x) (List.mem_cons_self _ _)
    unfold addFeature
    rw [if_neg (by omega), if_neg (by omega), ih (fun e he => h e (List.mem_cons_of_mem _ he))]
    rfl

theorem addFeature_last (l : FeatureVector) (id f : Nat) (fs : List Nat)
    (h : ∀ e ∈ l, e.1 < id) :
    addFeature (l ++ [(id, fs)]) id f = l ++ [(id, fs ++ [f])] := by
  induction l with
  | nil => simp [addFeature]
  | cons a tl ih =>
    obtain ⟨n, x⟩ := a
    have hn : n < id := h (n, x) (List.mem_cons_self _ _)
    rw [List.cons_append]
    unfold addFeature
    rw [if_neg (by omega), if_neg (by omega), ih (fun e he => h e (List.mem_cons_of_mem _ he))]
    rfl

/-- In a list with ascending keys, the keys before position `n` are below the key at `n`. -/
theorem sorted_take_lt {β : Type} (B : List (Nat × β))
    (hs : (B.map Prod.fst).Pairwise (· < ·)) (n : Nat) (hn : n < B.length) :
    ∀ e ∈ B.take n, e.1 < B[n].1 := by
  intro e he
  have hsplit : B = B.take n ++ B[n] :: B.drop (n + 1) := by
    rw [← List.drop_eq_getElem_cons hn, List.take_append_drop]
  have h2 : ((B.take n ++ B[n] :: B.drop (n + 1)).map Prod.fst).Pairwise (· < ·) := by
    rw [← hsplit]; exact hs
  rw [List.map_append, List.pairwise_append] at h2
  exact h2.2.2 e.1 (List.mem_map_of_mem _ he) B[n].1
    (by rw [List.map_cons]; exact List.mem_cons_self _ _)

theorem take_succ_getElem {α : Type} (l : List α) (n : Nat) (hn : n < l.length) :
    l.take (n + 1) = l.take n ++ [l[n]] := by
  rw [List.take_succ, List.getElem?_eq_getElem hn]
  rfl

/-- The loop of lines 73-78 on the word ids and values of a sorted vector `B` rebuilds `B`. -/
theorem decodeBowVec_of_sorted (keyframe : Keyframe) (B : BowVector)
    (hid : keyframe.wordIds = B.map fun vit => vit.1)
    (hval : keyframe.wordValues = B.map fun vit => vit.2)
    (hs : (B.map Prod.fst).Pairwise (· < ·)) :
    decodeBowVec keyframe = .done B := by
  have key : ∀ n, n ≤ B.length →
      Outcome.forRange n (fun mBowVec wordId_i =>
        (Outcome.at keyframe.wordIds wordId_i).bind fun wordId =>
        (Outcome.at keyframe.wordValues wordId_i).bind fun wordValue =>
        (.done (addWeight mBowVec wordId wordValue) : Outcome BowVector)) [] =
        .done (B.take n) := by
    intro n
    induction n with
    | zero => intro _; rfl
    | succ n ih =>
      intro hn
      have hn' : n < B.length := hn
      rw [Outcome.forRange_succ, ih (Nat.le_of_lt hn')]
      simp only [Outcome.bind]
      rw [Outcome.at_of_lt _ _ (by rw [hid, List.length_map]; exact hn'),
        Outcome.at_of_lt _ _ (by rw [hval, List.length_map]; exact hn')]
      simp only [Outcome.bind, hid, hval, List.getElem_map]
      rw [addWeight_snoc _ _ _ (sorted_take_lt B hs n hn'), take_succ_getElem B n hn']
  have := key B.length (le_refl _)
  rw [List.take_length] at this
  unfold decodeBowVec
  rw [hid, List.length_map]
  rw [hid] at this
  exact this

/-- The inner loop of lines 152-154 for a node `id` above all nodes present. -/
theorem addFeatures_of_sorted (prefixVec : FeatureVector) (id : Nat) (fs : List Nat)
    (h : ∀ e ∈ prefixVec, e.1 < id) : ∀ m, m ≤ fs.length →
    Outcome.forRange m (fun fv feat_i =>
      (Outcome.at fs feat_i).bind fun f =>
        (.done (addFeature fv id f) : Outcome FeatureVector)) prefixVec =
      .done (if m = 0 then prefixVec else prefixVec ++ [(id, fs.take m)]) := by
  intro m
  induction m with
  | zero => intro _; rfl
  | succ m ih =>
    intro hm
    have hm' : m < fs.length := hm
    rw [Outcome.forRange_succ, ih (Nat.le_of_lt hm')]
    simp only [Outcome.bind]
    rw [Outcome.at_of_lt _ _ hm']
    simp only [Outcome.bind, Nat.succ_ne_zero, if_false]
    by_cases h0 : m = 0
    · subst h0
      rw [if_pos rfl, addFeature_new _ _ _ h, take_succ_getElem fs 0 hm']
      rfl
    · rw [if_neg h0, addFeature_last _ _ _ _ h, take_succ_getElem fs m hm']

/-- The loop of lines 149-156 on the node ids and feature lists of a sorted vector `F` whose
lists are not empty rebuilds `F`. -/
theorem decodeFeatVec_of_sorted (keyframe : Keyframe) (F : FeatureVector)
    (hid : keyframe.nodeIds = F.map fun vit => vit.1)
    (hval : keyframe.indicesVec = F.map fun vit => vit.2)
    (hs : (F.map Prod.fst).Pairwise (· < ·)) (hne : ∀ e ∈ F, e.2 ≠ []) :
    decodeFeatVec keyframe = .done F := by
  have key : ∀ n, n ≤ F.length →
      Outcome.forRange n (fun mFeatVec node_i =>
        (Outcome.at keyframe.nodeIds node_i).bind fun nodeID =>
        (Outcome.at keyframe.indicesVec node_i).bind fun indicesMsg =>
        Outcome.forRange indicesMsg.length (fun fv feat_i =>
          (Outcome.at indicesMsg feat_i).bind fun f =>
            (.done (addFeature fv nodeID f) : Outcome FeatureVector)) mFeatVec) [] =
        .done (F.take n) := by
    intro n
    induction n with
    | zero => intro _; rfl
    | succ n ih =>
      intro hn
      have hn' : n < F.length := hn
      have bd : ∀ (a : FeatureVector) (f : FeatureVector → Outcome FeatureVector),
          (Outcome.done a).bind f = f a := fun _ _ => rfl
      have bd1 : ∀ (a : Nat) (f : Nat → Outcome FeatureVector),
          (Outcome.done a).bind f = f a := fun _ _ => rfl
      have bd2 : ∀ (a : List Nat) (f : List Nat → Outcome FeatureVector),
          (Outcome.done a).bind f = f a := fun _ _ => rfl
      rw [Outcome.forRange_succ, ih (Nat.le_of_lt hn'), bd]
      rw [Outcome.at_of_lt _ _ (by rw [hid, List.length_map]; exact hn'),
        Outcome.at_of_lt _ _ (by rw [hval, List.length_map]; exact hn'), bd1, bd2]
      simp only [hid, hval, List.getElem_map]
      rw [addFeatures_of_sorted (F.take n) F[n].1 F[n].2 (sorted_take_lt F hs n hn')
        F[n].2.length (le_refl _)]
      have hlen : F[n].2.length ≠ 0 := by
        intro h0
        exact hne F[n] (List.getElem_mem hn') (List.length_eq_zero.1 h0)
      rw [if_neg hlen, List.take_length, take_succ_getElem F n hn']
  have := key F.length (le_refl _)
  rw [List.take_length] at this
  unfold decodeFeatVec
  rw [hid, List.length_map]
  rw [hid] at this
  exact this

/-! ## Theorem on the vectors `Match` rebuilds from a published message -/

/-- C22: decode undoes encode.  For a keyframe whose appearance vector `mBowVec` is a map
(entries in ascending order of word id, as a `std::map` holds them), the vector `Match`
rebuilds from `wordIds` and `wordValues` of the message `publishKeyFrame` builds is `mBowVec`;
and for a feature vector `mFeatVec` that is a map and has no node with an empty list of
feature indices, the vector `Match` rebuilds from `nodeIds` and `indicesVec` is `mFeatVec`,
each list in its original order. -/
theorem Match_rebuilds_published_vectors (env : PublishCollaborators) (robotID_ : Int)
    (pKF : KeyFrame) :
    (((env.mBowVec pKF).map Prod.fst).Pairwise (· < ·) →
      decodeBowVec (keyFrameMsg env robotID_ pKF) = .done (env.mBowVec pKF)) ∧
    (((env.mFeatVec pKF).map Prod.fst).Pairwise (· < ·) →
      (∀ e ∈ env.mFeatVec pKF, e.2 ≠ []) →
      decodeFeatVec (keyFrameMsg env robotID_ pKF) = .done (env.mFeatVec pKF)) := by
  refine ⟨fun hs => ?_, fun hs hne => ?_⟩
  · exact decodeBowVec_of_sorted _ _ rfl rfl hs
  · exact decodeFeatVec_of_sorted _ _ rfl (by simp [keyFrameMsg]) hs hne

/-- C22, at a concrete input: the vectors `{2 ↦ 1/3, 7 ↦ 2/3}` and `{1 ↦ [4, 0], 9 ↦ [2]}` of
keyframe `5` of the example map. -/
theorem Match_rebuilds_published_vectors_witness :
    decodeBowVec (keyFrameMsg examplePublisher 0 5) = .done [(2, 1/3), (7, 2/3)] ∧
    decodeFeatVec (keyFrameMsg examplePublisher 0 5) = .done [(1, [4, 0]), (9, [2])] :=
  ⟨(Match_rebuilds_published_vectors examplePublisher 0 5).1
      (by simp [examplePublisher]),
   (Match_rebuilds_published_vectors examplePublisher 0 5).2
      (by simp [examplePublisher]) (by simp [examplePublisher])⟩

/-! ## Lemmas on the shape of a published message -/

theorem length_flatten_of_three {α : Type} (l : List (List α)) (h : ∀ x ∈ l, x.length = 3) :
    l.flatten.length = 3 * l.length := by
  induction l with
  | nil => rfl
  | cons a tl ih =>
    rw [List.flatten_cons, List.length_append, h a (List.mem_cons_self _ _),
      ih (fun x hx => h x (List.mem_cons_of_mem _ hx)), List.length_cons]
    omega

theorem getElem?_flatten_of_three {α : Type} (l : List (List α))
    (h : ∀ x ∈ l, x.length = 3) : ∀ (i d : Nat) (a : List α), l[i]? = some a → d < 3 →
    l.flatten[3 * i + d]? = a[d]? := by
  induction l with
  | nil => intro i d a ha; simp at ha
  | cons b tl ih =>
    intro i d a ha hd
    have hb : b.length = 3 := h b (List.mem_cons_self _ _)
    rw [List.flatten_cons]
    cases i with
    | zero =>
      simp only [List.getElem?_cons_zero, Option.some.injEq] at ha
      subst ha
      rw [Nat.mul_zero, Nat.zero_add, List.getElem?_append_left (by omega)]
    | succ j =>
      simp only [List.getElem?_cons_succ] at ha
      rw [List.getElem?_append_right (by omega)]
      have e : 3 * (j + 1) + d - b.length = 3 * j + d := by omega
      rw [e]
      exact ih (fun x hx => h x (List.mem_cons_of_mem _ hx)) j d a ha hd

/-- A message whose arrays have matching lengths makes `Match` return or stay in the RANSAC
loop: no read is out of range. -/
theorem Match_in_range (env : Collaborators) (fuel : Nat) (keyframe : Keyframe)
    (s : LoopClosingInterRobot)
    (h1 : keyframe.wordIds.length ≤ keyframe.wordValues.length)
    (h2 : keyframe.nodeIds.length ≤ keyframe.indicesVec.length)
    (h3 : keyframe.indices.length ≤ keyframe.maxDistInvariance.length)
    (h4 : keyframe.indices.length ≤ keyframe.minDistInvariance.length)
    (h5 : keyframe.indices.length ≤ keyframe.pointDesc.length)
    (h6 : 3 * keyframe.nrMapPoints.toNat ≤ keyframe.worldPoints.length)
    (h7 : 12 ≤ keyframe.pose.length) (h8 : 9 ≤ keyframe.K.length) :
    Match env fuel keyframe s = .running ∨
      ∃ b s', Match env fuel keyframe s = .done (b, s') := by
  obtain ⟨bow, hbow⟩ := decodeBowVec_done keyframe h1
  obtain ⟨args, hargs⟩ := decodeSim3Args_done keyframe h2 h3 h4 h5 h6 h7 h8
  simp only [Match, hbow, hargs, Outcome.bind]
  split
  · rcases ComputeSim3_outcome (env.sim3 args) _ fuel with hc | ⟨st, hc⟩
    · left
      rw [hc]
    · right
      rw [hc]
      simp only [Outcome.bind]
      split
      · exact ⟨_, _, rfl⟩
      · exact ⟨_, _, rfl⟩
  · right
    exact ⟨_, _, rfl⟩

theorem validMapPoint_some (env : PublishCollaborators) (x : Option MapPoint) (p : MapPoint)
    (h : validMapPoint env x = some p) : x = some p ∧ env.isBadMapPoint p = false := by
  cases x with
  | none => simp [validMapPoint] at h
  | some q =>
    simp only [validMapPoint] at h
    split at h
    · cases h
    · cases h
      exact ⟨rfl, by simpa using ‹¬env.isBadMapPoint p = true›⟩

/-- Every slot of the map-point matches contributes three entries to `worldPoints`. -/
theorem worldPoints_chunks (env : PublishCollaborators) (pKF : KeyFrame)
    (hpos : ∀ p, some p ∈ env.GetMapPointMatches pKF → env.isBadMapPoint p = false →
      (env.GetWorldPos p).length = 3) :
    ∀ x ∈ ((env.GetMapPointMatches pKF).map (validMapPoint env)).map fun mapPoint =>
      match mapPoint with
      | none => ([-1, -1, -1] : List ℚ)
      | some p => env.GetWorldPos p, x.length = 3 := by
  intro x hx
  simp only [List.map_map, List.mem_map, Function.comp] at hx
  obtain ⟨slot, hslot, rfl⟩ := hx
  cases hv : validMapPoint env slot with
  | none => rfl
  | some p =>
    obtain ⟨h1, h2⟩ := validMapPoint_some env slot p hv
    exact hpos p (h1 ▸ hslot) h2

/-! ## Theorem on the shape of a published message -/

/-- C23: the message `publishKeyFrame` builds for a keyframe whose map points that are not bad
have world positions of 3 entries, whose pose has at least 12 entries and whose calibration
has 9 is well-formed for `Match`: `wordIds` and `wordValues` have the same length, `nodeIds`
and `indicesVec` have the same length, `indices`, `maxDistInvariance`, `minDistInvariance` and
the rows of `pointDesc` are as many as `nrMapPoints`, the number of slots of the map-point
matches, and `worldPoints` has three times as many entries; an empty or bad slot is encoded
as index `-1` and position `(-1, -1, -1)`; and `Match` on the message performs no read out of
range: it returns, or is still in the RANSAC loop of `ComputeSim3`. -/
theorem publishKeyFrame_well_formed (env : PublishCollaborators) (robotID_ : Int)
    (pKF : KeyFrame)
    (hpos : ∀ p, some p ∈ env.GetMapPointMatches pKF → env.isBadMapPoint p = false →
      (env.GetWorldPos p).length = 3)
    (hpose : 12 ≤ (env.GetPose pKF).length) (hK : (env.mK pKF).length = 9) :
    (keyFrameMsg env robotID_ pKF).wordIds.length =
      (keyFrameMsg env robotID_ pKF).wordValues.length ∧
    (keyFrameMsg env robotID_ pKF).nodeIds.length =
      (keyFrameMsg env robotID_ pKF).indicesVec.length ∧
    (keyFrameMsg env robotID_ pKF).nrMapPoints = ((env.GetMapPointMatches pKF).length : Int) ∧
    (keyFrameMsg env robotID_ pKF).indices.length = (env.GetMapPointMatches pKF).length ∧
    (keyFrameMsg env robotID_ pKF).maxDistInvariance.length =
      (env.GetMapPointMatches pKF).length ∧
    (keyFrameMsg env robotID_ pKF).minDistInvariance.length =
      (env.GetMapPointMatches pKF).length ∧
    (keyFrameMsg env robotID_ pKF).pointDesc.length = (env.GetMapPointMatches pKF).length ∧
    (keyFrameMsg env robotID_ pKF).worldPoints.length =
      3 * (env.GetMapPointMatches pKF).length ∧
    (∀ (i : Nat) (slot : Option MapPoint), (env.GetMapPointMatches pKF)[i]? = some slot →
      validMapPoint env slot = none →
      (keyFrameMsg env robotID_ pKF).indices[i]? = some (-1) ∧
      ∀ d, d < 3 → (keyFrameMsg env robotID_ pKF).worldPoints[3 * i + d]? = some (-1)) ∧
    (∀ (cenv : Collaborators) (fuel : Nat) (s : LoopClosingInterRobot),
      Match cenv fuel (keyFrameMsg env robotID_ pKF) s = .running ∨
        ∃ b s', Match cenv fuel (keyFrameMsg env robotID_ pKF) s = .done (b, s')) := by
  have hw : (keyFrameMsg env robotID_ pKF).worldPoints.length =
      3 * (env.GetMapPointMatches pKF).length := by
    have := length_flatten_of_three _ (worldPoints_chunks env pKF hpos)
    simpa [keyFrameMsg] using this
  refine ⟨by simp [keyFrameMsg], by simp [keyFrameMsg], by simp [keyFrameMsg],
    by simp [keyFrameMsg], by simp [keyFrameMsg], by simp [keyFrameMsg],
    by simp [keyFrameMsg], hw, ?_, ?_⟩
  · intro i slot hslot hv
    refine ⟨by simp [keyFrameMsg, hslot, hv], fun d hd => ?_⟩
    have hget := getElem?_flatten_of_three _ (worldPoints_chunks env pKF hpos) i d
      [-1, -1, -1] (by simp [hslot, hv]) hd
    have hd3 : ([-1, -1, -1] : List ℚ)[d]? = some (-1) := by
      interval_cases d <;> rfl
    rw [hd3] at hget
    exact hget
  · intro cenv fuel s
    apply Match_in_range
    · simp [keyFrameMsg]
    · simp [keyFrameMsg]
    · simp [keyFrameMsg]
    · simp [keyFrameMsg]
    · simp [keyFrameMsg]
    · rw [hw]; simp [keyFrameMsg]
    · simpa [keyFrameMsg] using hpose
    · simp [keyFrameMsg, hK]

/-- C23, at a concrete input: keyframe `5` of the example map, with three slots of which the
second is empty and the third holds a bad map point. -/
theorem publishKeyFrame_well_formed_witness :
    (keyFrameMsg examplePublisher 0 5).worldPoints.length =
      3 * (examplePublisher.GetMapPointMatches 5).length ∧
    (keyFrameMsg examplePublisher 0 5).indices[2]? = some (-1) :=
  ⟨(publishKeyFrame_well_formed examplePublisher 0 5 (fun _ _ _ => rfl) (by decide)
      rfl).2.2.2.2.2.2.2.1,
   ((publishKeyFrame_well_formed examplePublisher 0 5 (fun _ _ _ => rfl) (by decide)
      rfl).2.2.2.2.2.2.2.2.1 2 (some 1) rfl rfl).1⟩

/-! ## Lemmas on the measurement published by `Match` -/

theorem Outcome.bind_eq_done {α β : Type} (x : Outcome α) (f : α → Outcome β) (r : β)
    (h : x.bind f = .done r) : ∃ a, x = .done a ∧ f a = .done r := by
  cases x with
  | done a => exact ⟨a, rfl, h⟩
  | nullSolver => exact Outcome.noConfusion h
  | outOfRange => exact Outcome.noConfusion h
  | badRow => exact Outcome.noConfusion h
  | running => exact Outcome.noConfusion h

theorem sim3Finish_measurement_pub (env : Sim3Collaborators) (s : LoopClosingInterRobot)
    (st : RansacState) :
    (sim3Finish env s st).2.measurement_pub_ = s.measurement_pub_ := by
  unfold sim3Finish
  split
  · rfl
  · split <;> rfl

/-- A `ComputeSim3` call that returns has ended its RANSAC loop, and its result is what
`sim3Finish` makes of the final state of the loop, which satisfies `FirstWins`. -/
theorem ComputeSim3_done (env : Sim3Collaborators) (s : LoopClosingInterRobot) (fuel : Nat)
    (r : Bool × LoopClosingInterRobot) (h : ComputeSim3 env fuel s = .done r) :
    ∃ st, ransacRun env s.mvpEnoughConsistentCandidates fuel = .done (st, true) ∧
      r = sim3Finish env s st ∧
      FirstWins env s.mvpEnoughConsistentCandidates
        (sim3Setup env s.mvpEnoughConsistentCandidates) st := by
  obtain ⟨st, fin, hrun, _, hf, _⟩ :=
    ransacRun_firstWins env s.mvpEnoughConsistentCandidates fuel
  cases fin
  · rw [ComputeSim3_of_unfinished env s fuel st hrun] at h
    exact Outcome.noConfusion h
  · rw [ComputeSim3_of_run env s fuel st hrun] at h
    injection h with h
    exact ⟨st, hrun, h.symm, hf⟩

/-- When `ComputeSim3` returns `true`, the members it wrote name the matched keyframe and
hold the scale `1`. -/
theorem ComputeSim3_true_members (env : Sim3Collaborators) (s : LoopClosingInterRobot)
    (fuel : Nat) (s2 : LoopClosingInterRobot)
    (h : ComputeSim3 env fuel s = .done (true, s2)) :
    s2.measurement_pub_ = s.measurement_pub_ ∧
    ∃ pKF, s2.mpMatchedKF = some pKF ∧ s2.matchedSymbol_ = env.symbolChr pKF ∧
      s2.matchedIndex_ = env.symbolIndex pKF ∧ s2.estimatedS_ = 1 := by
  obtain ⟨st, _, hr, hf⟩ := ComputeSim3_done env s fuel _ h
  have h1 : (sim3Finish env s st).1 = true := by rw [← hr]
  have h2 : (sim3Finish env s st).2 = s2 := by rw [← hr]
  have hb : st.bMatch = true := by
    cases hb : st.bMatch
    · rw [sim3Finish_no_match env s st hb] at h1
      cases h1
    · rfl
  obtain ⟨l, i, opt, _, _, _, ha, _⟩ := hf.won hb
  obtain ⟨m1, _, _, _, m5, m6, m7⟩ := sim3Finish_match env s st _ hb ha
  rw [h2] at m1 m5 m6 m7
  refine ⟨?_, s.mvpEnoughConsistentCandidates.getD i 0, m1, m6, m7, m5⟩
  rw [← h2]
  exact sim3Finish_measurement_pub env s st

theorem ComputeSim3_measurement_pub (env : Sim3Collaborators) (s : LoopClosingInterRobot)
    (fuel : Nat) (r : Bool × LoopClosingInterRobot) (h : ComputeSim3 env fuel s = .done r) :
    r.2.measurement_pub_ = s.measurement_pub_ := by
  obtain ⟨st, _, hr, _⟩ := ComputeSim3_done env s fuel r h
  rw [hr]
  exact sim3Finish_measurement_pub env s st

theorem Match_example_true :
    ∃ s', Match loopMatchCollaborators 1 (emptyKeyframe 1) carriedCoordinator =
      .done (true, s') :=
  ⟨_, rfl⟩

/-! ## Theorem on the measurement published by `Match` -/

/-- C24: for a call of `Match` that returns `b`.  When `b` is `false` no measurement is
published.  When `b` is `true` exactly one measurement is published; it names the received
keyframe as `(symbolChr1, symbolIndex1)` and the matched keyframe `mpMatchedKF` as
`(symbolChr2, symbolIndex2)`, carries `estimatedR_` and `estimatedT_`, and its `relativeScale`
is `1`, for every solver and refinement.  And `b` is `true` exactly when `DetectLoop` returns
`true` on the rebuilt appearance vector and `ComputeSim3` returns `true` on the data
extracted from the message. -/
theorem Match_publishes_iff_true (env : Collaborators) (fuel : Nat) (keyframe : Keyframe)
    (s : LoopClosingInterRobot) (b : Bool) (s' : LoopClosingInterRobot)
    (h : Match env fuel keyframe s = .done (b, s')) :
    (b = false → s'.measurement_pub_ = s.measurement_pub_) ∧
    (b = true → ∃ m pKF args, s'.measurement_pub_ = s.measurement_pub_ ++ [m] ∧
      decodeSim3Args keyframe = .done args ∧
      s'.mpMatchedKF = some pKF ∧
      m.symbolChr1 = keyframe.symbolChr ∧ m.symbolIndex1 = keyframe.symbolIndex ∧
      m.symbolChr2 = (env.sim3 args).symbolChr pKF ∧
      m.symbolIndex2 = (env.sim3 args).symbolIndex pKF ∧
      m.relativeRotation = s'.estimatedR_ ∧ m.relativeTranslation = s'.estimatedT_ ∧
      m.relativeScale = 1) ∧
    (b = true ↔ ∃ mBowVec args s2, decodeBowVec keyframe = .done mBowVec ∧
      (DetectLoop
        (env.DetectLoopCandidatesInterRobot mBowVec keyframe.symbolIndex keyframe.minScore)
        env.GetConnectedKeyFrames s.toDetectState).1 = true ∧
      decodeSim3Args keyframe = .done args ∧
      ComputeSim3 (env.sim3 args) fuel
        { s with toDetectState := (DetectLoop
          (env.DetectLoopCandidatesInterRobot mBowVec keyframe.symbolIndex keyframe.minScore)
          env.GetConnectedKeyFrames s.toDetectState).2 } = .done (true, s2)) := by
  unfold Match at h
  obtain ⟨bow, hbow, h⟩ := Outcome.bind_eq_done _ _ _ h
  simp only at h
  cases hd : (DetectLoop
      (env.DetectLoopCandidatesInterRobot bow keyframe.symbolIndex keyframe.minScore)
      env.GetConnectedKeyFrames s.toDetectState).1
  · rw [hd] at h
    simp only [Bool.false_eq_true, if_false] at h
    injection h with h
    injection h with hb hs
    subst hb
    refine ⟨(fun _ => by rw [← hs]), (fun hb => by cases hb), ?_⟩
    constructor
    · intro hb; cases hb
    · rintro ⟨bow2, args, s2, hbow2, hd2, _, _⟩
      rw [hbow] at hbow2
      injection hbow2 with e
      subst e
      rw [hd] at hd2
      cases hd2
  · rw [hd] at h
    simp only [if_true] at h
    obtain ⟨args, hargs, h⟩ := Outcome.bind_eq_done _ _ _ h
    obtain ⟨r, hc, h⟩ := Outcome.bind_eq_done _ _ _ h
    obtain ⟨rb, rs⟩ := r
    cases rb
    · simp only [Bool.false_eq_true, if_false] at h
      injection h with h
      injection h with hb hs
      subst hb
      refine ⟨fun _ => ?_, (fun hb => by cases hb), ?_⟩
      · rw [← hs]
        exact ComputeSim3_measurement_pub _ _ _ _ hc
      · constructor
        · intro hb; cases hb
        · rintro ⟨bow2, args2, s2, hbow2, _, hargs2, hc2⟩
          rw [hbow] at hbow2
          injection hbow2 with e
          subst e
          rw [hargs] at hargs2
          injection hargs2 with e
          subst e
          rw [hc] at hc2
          injection hc2 with e
          injection e with e _
    · simp only [if_true] at h
      injection h with h
      injection h with hb hs
      subst hb
      obtain ⟨hpub, pKF, m1, m2, m3, m4⟩ := ComputeSim3_true_members _ _ _ _ hc
      refine ⟨(fun hb => by cases hb), fun _ => ?_, ?_⟩
      · refine ⟨measurementMsg keyframe rs, pKF, args, ?_, hargs, ?_, rfl, rfl, ?_, ?_, ?_,
          ?_, ?_⟩
        · rw [← hs]
          show rs.measurement_pub_ ++ _ = _
          rw [hpub]
        · rw [← hs]; exact m1
        · exact m2
        · exact m3
        · rw [← hs]; rfl
        · rw [← hs]; rfl
        · exact m4
      · constructor
        · intro _
          exact ⟨bow, args, rs, hbow, hd, hargs, hc⟩
        · intro _; rfl

/-- C24, at a concrete input: the database returns keyframe `1`, whose group the coordinator
carries with counter `2`, and the solver and the refinement estimate a transform of scale
`2`; `Match` returns `true` and the one measurement it publishes has `relativeScale = 1`. -/
theorem Match_publishes_iff_true_witness :
    ∃ s' m, Match loopMatchCollaborators 1 (emptyKeyframe 1) carriedCoordinator =
        .done (true, s') ∧
      s'.measurement_pub_ = carriedCoordinator.measurement_pub_ ++ [m] ∧
      m.relativeScale = 1 := by
  obtain ⟨s', hs⟩ := Match_example_true
  obtain ⟨m, _, _, h1, _, _, _, _, _, _, _, _, h10⟩ :=
    (Match_publishes_iff_true loopMatchCollaborators 1 (emptyKeyframe 1) carriedCoordinator
      true s' hs).2.1 rfl
  exact ⟨s', m, hs, h1, h10⟩

/-! ## Lemmas on the position of the moved map points -/

theorem lookup_cons_same (k : KeyFrame) (v : g2o.Sim3) (m : KeyFrameAndPose) :
    List.lookup k ((k, v) :: m) = some v := by
  simp [List.lookup]

theorem lookup_cons_other (x k : KeyFrame) (v : g2o.Sim3) (m : KeyFrameAndPose) (h : x ≠ k) :
    List.lookup x ((k, v) :: m) = List.lookup x m := by
  have hb : (x == k) = false := beq_eq_false_iff_ne.2 h
  simp [List.lookup, hb]

theorem assignPose_lookup (k : KeyFrame) (v : g2o.Sim3) (m : KeyFrameAndPose) (x : KeyFrame) :
    (assignPose k v m).lookup x = if x = k then some v else m.lookup x := by
  induction m with
  | nil =>
    unfold assignPose
    by_cases hx : x = k
    · rw [if_pos hx, hx, lookup_cons_same]
    · rw [if_neg hx, lookup_cons_other _ _ _ _ hx]
  | cons hd tl ih =>
    obtain ⟨k', v'⟩ := hd
    unfold assignPose
    by_cases h1 : k = k'
    · rw [if_pos h1]
      subst h1
      by_cases hx : x = k
      · rw [if_pos hx, hx, lookup_cons_same]
      · rw [if_neg hx, lookup_cons_other _ _ _ _ hx, lookup_cons_other _ _ _ _ hx]
    · rw [if_neg h1]
      by_cases h2 : k < k'
      · rw [if_pos h2]
        by_cases hx : x = k
        · rw [if_pos hx, hx, lookup_cons_same]
        · rw [if_neg hx, lookup_cons_other _ _ _ _ hx]
      · rw [if_neg h2]
        by_cases hx' : x = k'
        · have hxk : ¬ x = k := fun e => h1 (e.symm.trans hx')
          rw [if_neg hxk, hx', lookup_cons_same, lookup_cons_same]
        · rw [lookup_cons_other _ _ _ _ hx', ih, lookup_cons_other _ _ _ _ hx']

theorem readPose_assignPose (k : KeyFrame) (v : g2o.Sim3) (m : KeyFrameAndPose) (x : KeyFrame) :
    readPose (assignPose k v m) x = if x = k then v else readPose m x := by
  unfold readPose
  rw [assignPose_lookup]
  by_cases hx : x = k
  · rw [if_pos hx, if_pos hx]
  · rw [if_neg hx, if_neg hx]

/-- After the loop of lines 903-925, `NonCorrectedSim3` holds the uncorrected pose of every
keyframe of the vector. -/
theorem propagate_fold_uncorrected (cur : KeyFrame) (Scw : g2o.Sim3) (Twc : SE3)
    (pose : KeyFrame → SE3) (l : List KeyFrame) : ∀ (pm : PoseMaps) (k : KeyFrame),
    (k ∈ l ∨ readPose pm.NonCorrectedSim3 k = uncorrectedSiw pose k) →
    readPose (l.foldl (propagateStep cur Scw Twc pose) pm).NonCorrectedSim3 k =
      uncorrectedSiw pose k := by
  induction l with
  | nil =>
    intro pm k h
    rcases h with h | h
    · simp at h
    · exact h
  | cons a tl ih =>
    intro pm k h
    rw [List.foldl_cons]
    apply ih
    by_cases hk : k ∈ tl
    · exact Or.inl hk
    · right
      have e : (propagateStep cur Scw Twc pose pm a).NonCorrectedSim3 =
          assignPose a (uncorrectedSiw pose a) pm.NonCorrectedSim3 := rfl
      rw [e, readPose_assignPose]
      by_cases hka : k = a
      · rw [if_pos hka, hka]
      · rw [if_neg hka]
        rcases h with h | h
        · rcases List.mem_cons.1 h with h | h
          · exact absurd h hka
          · exact absurd h hk
        · exact h

theorem propagate_uncorrected (cur : KeyFrame) (Scw : g2o.Sim3) (pose : KeyFrame → SE3)
    (l : List KeyFrame) (k : KeyFrame) (hk : k ∈ l) :
    readPose (propagate cur Scw pose l).NonCorrectedSim3 k = uncorrectedSiw pose k :=
  propagate_fold_uncorrected cur Scw _ pose l _ k (Or.inl hk)

theorem correctMapPoint_point_at (env : CorrectCollaborators) (curId : Nat) (pKFi : KeyFrame)
    (Swi Siw : g2o.Sim3) (w : World) (p : MapPoint) :
    ((correctMapPoint env curId pKFi Swi Siw w p).point p).worldPos =
      Swi.map (Siw.map (w.point p).worldPos) ∧
    ((correctMapPoint env curId pKFi Swi Siw w p).point p).mnCorrectedReference =
      w.mnId pKFi := by
  simp [correctMapPoint]

theorem correctMapPointStep_movedBy (env : CorrectCollaborators) (curId : Nat)
    (NC C : KeyFrameAndPose) (w0 : World) (mit : KeyFrame × g2o.Sim3) (hmit : mit ∈ C)
    (acc : World × List MapPoint) (x : Option MapPoint)
    (hx : x ∈ w0.obs.GetMapPointMatches mit.1)
    (hok : MovedOK curId w0.point acc) (h : MovedBy NC C w0 acc) :
    MovedBy NC C w0
      (correctMapPointStep env curId mit.1 mit.2.inverse (readPose NC mit.1) acc x) := by
  obtain ⟨f1, f2, f3⟩ :=
    correctMapPointStep_frame env curId mit.1 mit.2.inverse (readPose NC mit.1) acc x
  refine ⟨f2.trans h.obs, f3.trans h.mnId, ?_⟩
  rcases correctMapPointStep_cases env curId mit.1 mit.2.inverse (readPose NC mit.1) acc x
    with ⟨e, _⟩ | ⟨p, hxp, _, hp, e⟩
  · rw [e]; exact h.moved
  · rw [e]
    have hnot : p ∉ acc.2 := fun hm => hp (hok.tagged p hm)
    intro q hq
    by_cases hqp : q = p
    · subst hqp
      obtain ⟨a1, a2⟩ :=
        correctMapPoint_point_at env curId mit.1 mit.2.inverse (readPose NC mit.1) acc.1 q
      refine ⟨mit, hmit, hxp ▸ hx, ?_, ?_⟩
      · show ((correctMapPoint env curId mit.1 mit.2.inverse (readPose NC mit.1) acc.1
          q).point q).mnCorrectedReference = _
        rw [a2, h.mnId]
      · show ((correctMapPoint env curId mit.1 mit.2.inverse (readPose NC mit.1) acc.1
          q).point q).worldPos = _
        rw [a1, hok.frame q hnot]
    · have hq' : q ∈ acc.2 := by
        rcases List.mem_append.1 hq with hq | hq
        · exact hq
        · exact absurd (List.mem_singleton.1 hq) hqp
      obtain ⟨m, hm, h1, h2, h3⟩ := h.moved q hq'
      refine ⟨m, hm, h1, ?_, ?_⟩
      · show ((correctMapPoint env curId mit.1 mit.2.inverse (readPose NC mit.1) acc.1
          p).point q).mnCorrectedReference = _
        rw [correctMapPoint_point_other _ _ _ _ _ _ _ _ hqp]
        exact h2
      · show ((correctMapPoint env curId mit.1 mit.2.inverse (readPose NC mit.1) acc.1
          p).point q).worldPos = _
        rw [correctMapPoint_point_other _ _ _ _ _ _ _ _ hqp]
        exact h3

theorem correctMapPoints_movedBy (env : CorrectCollaborators) (curId : Nat)
    (NC C : KeyFrameAndPose) (w0 : World) (mit : KeyFrame × g2o.Sim3) (hmit : mit ∈ C)
    (vp : List (Option MapPoint)) : ∀ acc : World × List MapPoint,
    (∀ x ∈ vp, x ∈ w0.obs.GetMapPointMatches mit.1) →
    MovedOK curId w0.point acc → MovedBy NC C w0 acc →
    MovedBy NC C w0
      (vp.foldl (correctMapPointStep env curId mit.1 mit.2.inverse (readPose NC mit.1)) acc) := by
  induction vp with
  | nil => intro acc _ _ h; exact h
  | cons x tl ih =>
    intro acc hvp hok h
    rw [List.foldl_cons]
    exact ih _ (fun y hy => hvp y (List.mem_cons_of_mem _ hy))
      (correctMapPointStep_ok env curId mit.1 mit.2.inverse (readPose NC mit.1) w0.point acc x hok)
      (correctMapPointStep_movedBy env curId NC C w0 mit hmit acc x
        (hvp x (List.mem_cons_self _ _)) hok h)

theorem correctKeyFrame_movedBy (env : CorrectCollaborators) (curId : Nat)
    (NC C : KeyFrameAndPose) (w0 : World) (mit : KeyFrame × g2o.Sim3) (hmit : mit ∈ C)
    (acc : World × List MapPoint) (hok : MovedOK curId w0.point acc)
    (h : MovedBy NC C w0 acc) : MovedBy NC C w0 (correctKeyFrame env curId NC acc mit) := by
  have hin := correctMapPoints_movedBy env curId NC C w0 mit hmit
    (acc.1.obs.GetMapPointMatches mit.1) acc (by rw [h.obs]; exact fun x hx => hx) hok h
  obtain ⟨p1, p2⟩ := correctKeyFrame_point env curId NC acc mit
  obtain ⟨g1, g2⟩ := correctKeyFrame_frame env curId NC acc mit
  refine ⟨g1.trans h.obs, g2.trans h.mnId, ?_⟩
  rw [p1, p2]
  exact hin.moved

theorem correctKeyFrames_movedBy (env : CorrectCollaborators) (curId : Nat)
    (NC C : KeyFrameAndPose) (w0 : World) (l : List (KeyFrame × g2o.Sim3)) :
    ∀ acc : World × List MapPoint, (∀ e ∈ l, e ∈ C) →
    MovedOK curId w0.point acc → MovedBy NC C w0 acc →
    MovedBy NC C w0 (correctKeyFrames env curId NC l acc) := by
  induction l with
  | nil => intro acc _ _ h; exact h
  | cons x tl ih =>
    intro acc hl hok h
    have := ih (correctKeyFrame env curId NC acc x) (fun e he => hl e (List.mem_cons_of_mem _ he))
      (correctKeyFrame_ok env curId NC w0.point acc x hok)
      (correctKeyFrame_movedBy env curId NC C w0 x (hl x (List.mem_cons_self _ _)) acc hok h)
    unfold correctKeyFrames at this ⊢
    rw [List.foldl_cons]
    exact this

theorem correctKeyFrames_moved (env : CorrectCollaborators) (curId : Nat)
    (NC C : KeyFrameAndPose) (w : World) :
    MovedBy NC C w (correctKeyFrames env curId NC C (w, [])) :=
  correctKeyFrames_movedBy env curId NC C w C (w, []) (fun _ h => h)
    ⟨fun p hp => by simp at hp, List.nodup_nil, fun _ _ => rfl, fun p hp => by simp at hp⟩
    ⟨rfl, rfl, fun p hp => by simp at hp⟩

theorem propagatedSiw_similarity (cur : KeyFrame) (Scw : g2o.Sim3) (pose : KeyFrame → SE3)
    (hs : Scw.s ≠ 0) (hr : Scw.r * Scw.r.transpose = 1)
    (hp : ∀ k, (pose k).R * (pose k).R.transpose = 1) (k : KeyFrame) :
    (propagatedSiw cur Scw pose k).s ≠ 0 ∧
    (propagatedSiw cur Scw pose k).r * (propagatedSiw cur Scw pose k).r.transpose = 1 := by
  unfold propagatedSiw
  by_cases hk : k = cur
  · rw [if_pos hk]; exact ⟨hs, hr⟩
  · rw [if_neg hk]
    simp only [g2o.Sim3.mul, g2oSic, SE3.mul, SE3.GetPoseInverse, one_mul]
    exact ⟨hs, orthogonal_mul _ _ (orthogonal_mul _ _ (hp k) (orthogonal_transpose _ (hp cur))) hr⟩

/-! ## Theorem on the position of the moved map points -/

/-- C18: every map point moved by the point-mapping loop of `CorrectLoop` (lines 928-957) is
moved by an entry of `CorrectedSim3` whose keyframe observes it, and keeps its coordinates in
the frame of that keyframe: with `S_corr` the corrected similarity of the entry (non-zero
scale, rotation part a rotation) and `S_unc` the similarity the loop reads from
`NonCorrectedSim3` for that keyframe, the new position is `p' = S_corr⁻¹(S_unc(p))`, so that
`S_corr(p') = S_unc(p)`, and the point stays where it was when `S_corr = S_unc`.  For the maps
`CorrectLoop` itself builds (lines 887-925, rigid keyframe poses), the keyframe belongs to the
connected set, `S_corr` is its propagated corrected similarity and `S_unc` its uncorrected
pose. -/
theorem CorrectLoop_point_keeps_camera_coordinates (env : CorrectCollaborators) (w : World) :
    (∀ (curId : Nat) (NonCorrectedSim3 CorrectedSim3 : KeyFrameAndPose),
      (∀ e ∈ CorrectedSim3, e.2.s ≠ 0 ∧ e.2.r * e.2.r.transpose = 1) →
      ∀ p ∈ (correctKeyFrames env curId NonCorrectedSim3 CorrectedSim3 (w, [])).2,
        ∃ mit ∈ CorrectedSim3, some p ∈ w.obs.GetMapPointMatches mit.1 ∧
          ((correctKeyFrames env curId NonCorrectedSim3 CorrectedSim3 (w, [])).1.point
            p).mnCorrectedReference = w.mnId mit.1 ∧
          ((correctKeyFrames env curId NonCorrectedSim3 CorrectedSim3 (w, [])).1.point
            p).worldPos =
            mit.2.inverse.map ((readPose NonCorrectedSim3 mit.1).map (w.point p).worldPos) ∧
          mit.2.map ((correctKeyFrames env curId NonCorrectedSim3 CorrectedSim3
            (w, [])).1.point p).worldPos =
            (readPose NonCorrectedSim3 mit.1).map (w.point p).worldPos ∧
          (mit.2 = readPose NonCorrectedSim3 mit.1 →
            ((correctKeyFrames env curId NonCorrectedSim3 CorrectedSim3 (w, [])).1.point
              p).worldPos = (w.point p).worldPos)) ∧
    (∀ (cur : KeyFrame) (Scw : g2o.Sim3), Scw.s ≠ 0 → Scw.r * Scw.r.transpose = 1 →
      (∀ k, (w.pose k).R * (w.pose k).R.transpose = 1) →
      ∀ p ∈ (correctPoses env cur Scw w).2,
        ∃ k, (k = cur ∨ k ∈ w.covis.GetVectorCovisibleKeyFrames cur) ∧
          some p ∈ w.obs.GetMapPointMatches k ∧
          ((correctPoses env cur Scw w).1.point p).worldPos =
            (propagatedSiw cur Scw w.pose k).inverse.map
              ((uncorrectedSiw w.pose k).map (w.point p).worldPos) ∧
          (propagatedSiw cur Scw w.pose k).map
              ((correctPoses env cur Scw w).1.point p).worldPos =
            (uncorrectedSiw w.pose k).map (w.point p).worldPos) := by
  have main : ∀ (curId : Nat) (NC C : KeyFrameAndPose),
      (∀ e ∈ C, e.2.s ≠ 0 ∧ e.2.r * e.2.r.transpose = 1) →
      ∀ p ∈ (correctKeyFrames env curId NC C (w, [])).2,
        ∃ mit ∈ C, some p ∈ w.obs.GetMapPointMatches mit.1 ∧
          ((correctKeyFrames env curId NC C (w, [])).1.point p).mnCorrectedReference
            = w.mnId mit.1 ∧
          ((correctKeyFrames env curId NC C (w, [])).1.point p).worldPos =
            mit.2.inverse.map ((readPose NC mit.1).map (w.point p).worldPos) ∧
          mit.2.map ((correctKeyFrames env curId NC C (w, [])).1.point p).worldPos =
            (readPose NC mit.1).map (w.point p).worldPos ∧
          (mit.2 = readPose NC mit.1 →
            ((correctKeyFrames env curId NC C (w, [])).1.point p).worldPos
              = (w.point p).worldPos) := by
    intro curId NC C hC p hp
    obtain ⟨mit, hmit, h1, h2, h3⟩ := (correctKeyFrames_moved env curId NC C w).moved p hp
    obtain ⟨hs, hr⟩ := hC mit hmit
    refine ⟨mit, hmit, h1, h2, h3, ?_, fun he => ?_⟩
    · rw [h3, Sim3_map_inverse_map mit.2 _ hs hr]
    · rw [h3, ← he, Sim3_inverse_map_map mit.2 _ hs hr]
  refine ⟨main, ?_⟩
  intro cur Scw hs hr hrigid p hp
  have hok := propagate_ok cur Scw w.pose (w.covis.GetVectorCovisibleKeyFrames cur ++ [cur])
  have hC : ∀ e ∈ (propagate cur Scw w.pose
      (w.covis.GetVectorCovisibleKeyFrames cur ++ [cur])).CorrectedSim3,
      e.2.s ≠ 0 ∧ e.2.r * e.2.r.transpose = 1 := by
    intro e he
    rw [(hok.value e he).1]
    exact propagatedSiw_similarity cur Scw w.pose hs hr hrigid e.1
  obtain ⟨mit, hmit, h1, _, h3, h4, _⟩ := main (w.mnId cur) _ _ hC p hp
  have hin : mit.1 ∈ w.covis.GetVectorCovisibleKeyFrames cur ++ [cur] := by
    rcases (hok.value mit hmit).2 with h | h
    · rw [h]; simp
    · exact h
  have hunc := propagate_uncorrected cur Scw w.pose _ mit.1 hin
  rw [hunc, (hok.value mit hmit).1] at h3 h4
  refine ⟨mit.1, ?_, h1, h3, h4⟩
  rcases List.mem_append.1 hin with h | h
  · exact Or.inr h
  · exact Or.inl (List.mem_singleton.1 h)

theorem shiftedWorld_moved :
    (0 : MapPoint) ∈ (correctKeyFrames exampleCorrectCollaborators 5 [(4, ⟨1, 0, 1⟩)]
      [(4, ⟨1, ![1, 0, 0], 2⟩)] (shiftedWorld, [])).2 := by
  have e : (correctKeyFrames exampleCorrectCollaborators 5 [(4, ⟨1, 0, 1⟩)]
      [(4, ⟨1, ![1, 0, 0], 2⟩)] (shiftedWorld, [])).2 = [0, 1] := rfl
  rw [e]
  simp

/-- C18, at a concrete input: keyframe `4` of the example map, with the uncorrected similarity
`(1, 0, 1)` and the corrected one `(1, (1, 0, 0), 2)`, moves map point `0` from `(1, 2, 3)` to
`(0, 1, 3/2)`, which the corrected similarity maps to `(1, 2, 3)` again. -/
theorem CorrectLoop_point_keeps_camera_coordinates_witness :
    ((correctKeyFrames exampleCorrectCollaborators 5 [(4, ⟨1, 0, 1⟩)]
      [(4, ⟨1, ![1, 0, 0], 2⟩)] (shiftedWorld, [])).1.point 0).worldPos = ![0, 1, 3 / 2] ∧
    (⟨1, ![1, 0, 0], 2⟩ : g2o.Sim3).map
      ((correctKeyFrames exampleCorrectCollaborators 5 [(4, ⟨1, 0, 1⟩)]
        [(4, ⟨1, ![1, 0, 0], 2⟩)] (shiftedWorld, [])).1.point 0).worldPos = ![1, 2, 3] := by
  obtain ⟨mit, hmit, _, _, h3, h4, _⟩ :=
    (CorrectLoop_point_keeps_camera_coordinates exampleCorrectCollaborators shiftedWorld).1 5
      [(4, ⟨1, 0, 1⟩)] [(4, ⟨1, ![1, 0, 0], 2⟩)]
      (by
        intro e he
        rw [List.mem_singleton.1 he]
        exact ⟨by norm_num, by simp⟩)
      0 shiftedWorld_moved
  rw [List.mem_singleton.1 hmit] at h3 h4
  have hp : (shiftedWorld.point 0).worldPos = ![1, 2, 3] := rfl
  have hread : readPose [(4, (⟨1, 0, 1⟩ : g2o.Sim3))] 4 = ⟨1, 0, 1⟩ := rfl
  rw [hread, hp] at h3 h4
  have hunc : (⟨1, 0, 1⟩ : g2o.Sim3).map ![1, 2, 3] = ![1, 2, 3] := by
    simp [g2o.Sim3.map]
  rw [hunc] at h3 h4
  refine ⟨?_, h4⟩
  rw [h3]
  simp only [g2o.Sim3.inverse, g2o.Sim3.map, Matrix.transpose_one, Matrix.one_mulVec]
  ext i
  fin_cases i <;> simp <;> norm_num

end ORB_SLAM2
